import Mathlib

/-!
mclscene: embedded mesh (lattice generation and synchronisation), bounding-volume
hierarchy, projection onto a triangle, and the `.node` loader.

Shallow embedding of `include/MCL/EmbeddedMesh.hpp`, `src/BVH.cpp`,
`include/MCL/Projection.hpp` and the `.node` branch of `src/ParticleCloud.cpp`.

Modelling conventions
* `float` is modelled by exact rationals `ℚ` (no rounding, no NaN, no infinity).
* `std::vector` is modelled by `List`; `int` by `Int` (no wrap-around: sizes stay far
  below `2^31` for every mesh that fits in memory).
* The `#pragma omp parallel for` loops are run sequentially in index order; every
  iteration writes only its own slots (the shared counter is lock protected), so
  the final arrays do not depend on the schedule.
* Reading a vertex array past its end is undefined behaviour in C++.  The model
  makes such a read total: it returns `env.junk idx`, an arbitrary value supplied
  by the environment, and theorems quantify over the environment.
* `mcl::projection::point_in_tet` and `mcl::vec::barycoords` are called by the
  source but are not part of it: they are fields of the environment `Env`;
  `std_point_in_tet` and `std_barycoords` are the standard ones.
* `gen_lattice` returns an `Option`: `none` stands for a grid loop that does not
  terminate (possible only for `tess ≤ 0`).
-/

namespace mcl

/-- Three floats (`Vec3f`). -/
structure Vec3f where
  x : ℚ
  y : ℚ
  z : ℚ
deriving DecidableEq

/-- Four floats (`Vec4f`), components indexed 0..3. -/
structure Vec4f where
  c0 : ℚ
  c1 : ℚ
  c2 : ℚ
  c3 : ℚ
deriving DecidableEq

/-- Four ints (`Vec4i`), components indexed 0..3. -/
structure Vec4i where
  i0 : Int
  i1 : Int
  i2 : Int
  i3 : Int
deriving DecidableEq

/-- Three ints (`Vec3i`), a triangle. -/
structure Vec3i where
  i0 : Int
  i1 : Int
  i2 : Int
deriving DecidableEq

namespace Vec3f

/-- Componentwise sum. -/
def add (a b : Vec3f) : Vec3f := ⟨a.x + b.x, a.y + b.y, a.z + b.z⟩

/-- Componentwise difference. -/
def sub (a b : Vec3f) : Vec3f := ⟨a.x - b.x, a.y - b.y, a.z - b.z⟩

/-- Scalar times vector. -/
def smul (s : ℚ) (a : Vec3f) : Vec3f := ⟨s * a.x, s * a.y, s * a.z⟩

/-- Dot product. -/
def dot (a b : Vec3f) : ℚ := a.x * b.x + a.y * b.y + a.z * b.z

/-- Cross product. -/
def cross (a b : Vec3f) : Vec3f :=
  ⟨a.y * b.z - a.z * b.y, a.z * b.x - a.x * b.z, a.x * b.y - a.y * b.x⟩

/-- Eigen `maxCoeff`. -/
def maxCoeff (a : Vec3f) : ℚ := max (max a.x a.y) a.z

/-- Eigen `cwiseMin`. -/
def cwiseMin (a b : Vec3f) : Vec3f := ⟨min a.x b.x, min a.y b.y, min a.z b.z⟩

/-- Eigen `cwiseMax`. -/
def cwiseMax (a b : Vec3f) : Vec3f := ⟨max a.x b.x, max a.y b.y, max a.z b.z⟩

instance : Add Vec3f := ⟨add⟩
instance : Sub Vec3f := ⟨sub⟩
instance : HMul ℚ Vec3f Vec3f := ⟨smul⟩
instance : Inhabited Vec3f := ⟨⟨0, 0, 0⟩⟩

end Vec3f

namespace Vec4f

/-- Eigen `minCoeff`. -/
def minCoeff (b : Vec4f) : ℚ := min (min (min b.c0 b.c1) b.c2) b.c3

/-- Eigen `sum`. -/
def sum (b : Vec4f) : ℚ := b.c0 + b.c1 + b.c2 + b.c3

instance : Inhabited Vec4f := ⟨⟨0, 0, 0, 0⟩⟩

end Vec4f

instance : Inhabited Vec4i := ⟨⟨0, 0, 0, 0⟩⟩

/-- What the code writes to `std::cerr` / `stdout`, in order. -/
inductive Msg where
  | update_embedded_topology
  | apply_xform_unset
  | bad_barys (tet : Int) (barys : Vec4f)
  | bad_tet_index (i : Nat) (v2t : Int) (n_tets : Int)
deriving DecidableEq

/-- Modelled from the spec: the surface mesh (`TriangleMesh.hpp` is not in the
source): vertex positions, triangles, and whether the derived normals are
marked for recomputation. -/
structure TriangleMesh where
  vertices : List Vec3f
  faces : List Vec3i
  normals_stale : Bool
deriving DecidableEq

/-- Modelled from the spec: the volume mesh (`TetMesh.hpp` is not in the source):
vertex positions and tets (four vertex indices each). -/
structure TetMesh where
  vertices : List Vec3f
  tets : List Vec4i
deriving DecidableEq

/-- Modelled from the spec: `TriangleMesh::need_normals(true)`, which marks the
normals stale for recomputation. -/
def TriangleMesh.need_normals (m : TriangleMesh) : TriangleMesh :=
  { m with normals_stale := true }

/-- Modelled from the spec: `TetMesh::clear`, which empties the lattice. -/
def TetMesh.clear (_m : TetMesh) : TetMesh := ⟨[], []⟩

/-- An affine transform `x ↦ A x + b` (`XForm<T,3>`), `A` given by its rows. -/
structure XForm where
  r0 : Vec3f
  r1 : Vec3f
  r2 : Vec3f
  b : Vec3f
deriving DecidableEq

/-- The image of a point under the transform. -/
def XForm.apply (xf : XForm) (p : Vec3f) : Vec3f :=
  ⟨xf.r0.dot p + xf.b.x, xf.r1.dot p + xf.b.y, xf.r2.dot p + xf.b.z⟩

/-- The identity transform. -/
def XForm.identity : XForm := ⟨⟨1, 0, 0⟩, ⟨0, 1, 0⟩, ⟨0, 0, 1⟩, ⟨0, 0, 0⟩⟩

/-- Modelled from the spec: `TetMesh::apply_xform`, which transforms every
lattice vertex and leaves the tets alone. -/
def TetMesh.apply_xform (m : TetMesh) (xf : XForm) : TetMesh :=
  { m with vertices := m.vertices.map xf.apply }

/-- The functions the source calls but does not contain, and the content of
memory past the end of a vertex array. -/
structure Env where
  point_in_tet : Vec3f → Vec3f → Vec3f → Vec3f → Vec3f → Bool
  barycoords : Vec3f → Vec3f → Vec3f → Vec3f → Vec3f → Vec4f
  junk : Int → Vec3f

/-- The read `verts[idx]` of a vertex array with an `int` index. -/
def vget (env : Env) (verts : List Vec3f) (idx : Int) : Vec3f :=
  if 0 ≤ idx ∧ idx < verts.length then verts.getD idx.toNat default else env.junk idx

/-- Class `EmbeddedMesh`, together with the messages written so far. -/
structure EmbeddedMesh where
  embedded : TriangleMesh
  lattice : TetMesh
  barycoords : List Vec4f
  vert_to_tet : List Int
  out : List Msg
deriving DecidableEq

/-- The position `barys[0]*v[tet[0]] + ... + barys[3]*v[tet[3]]` (lines 101-104). -/
def bary_combo (env : Env) (verts : List Vec3f) (tet : Vec4i) (barys : Vec4f) : Vec3f :=
  barys.c0 * vget env verts tet.i0 + barys.c1 * vget env verts tet.i1 +
    barys.c2 * vget env verts tet.i2 + barys.c3 * vget env verts tet.i3

/-- One iteration of the loop of `update_embedded` (lines 96-105). -/
def update_embedded_step (env : Env) (lattice : TetMesh) (barycoords : List Vec4f)
    (vert_to_tet : List Int) (vs : List Vec3f) (i : Nat) : List Vec3f :=
  let nt : Int := lattice.tets.length
  let t_idx : Int := vert_to_tet.getD i 0
  if t_idx < 0 ∨ t_idx ≥ nt then vs
  else
    let tet := lattice.tets.getD t_idx.toNat default
    let barys := barycoords.getD i default
    vs.set i (bary_combo env lattice.vertices tet barys)

/-- `EmbeddedMesh::update_embedded` (lines 86-109). -/
def update_embedded (env : Env) (s : EmbeddedMesh) : EmbeddedMesh :=
  let nv := s.vert_to_tet.length
  if nv ≠ s.embedded.vertices.length ∨ nv ≠ s.barycoords.length then
    { s with out := s.out ++ [Msg.update_embedded_topology] }
  else
    let vs := (List.range nv).foldl
      (update_embedded_step env s.lattice s.barycoords s.vert_to_tet) s.embedded.vertices
    { s with embedded := ({ s.embedded with vertices := vs } : TriangleMesh).need_normals }

/-- `EmbeddedMesh::apply_xform` (lines 233-241). -/
def apply_xform (env : Env) (xf : XForm) (s : EmbeddedMesh) : EmbeddedMesh :=
  if s.lattice.vertices.length = 0 then
    { s with out := s.out ++ [Msg.apply_xform_unset] }
  else
    update_embedded env { s with lattice := s.lattice.apply_xform xf }

/-- `FLT_MAX`, the largest finite `float`. -/
def FLT_MAX : ℚ := 340282346638528859811704183484516925440

/-- `Eigen::AlignedBox<float,3>`: the empty box, or a box with its two corners. -/
inductive AABB where
  | empty
  | box (lo hi : Vec3f)
deriving DecidableEq

namespace AABB

/-- `AlignedBox::extend(p)`: the smallest box containing the old box and `p`. -/
def extend (b : AABB) (p : Vec3f) : AABB :=
  match b with
  | empty => box p p
  | box lo hi => box (lo.cwiseMin p) (hi.cwiseMax p)

/-- `AlignedBox::min()`; the empty box stores `FLT_MAX` in every component. -/
def min (b : AABB) : Vec3f :=
  match b with
  | empty => ⟨FLT_MAX, FLT_MAX, FLT_MAX⟩
  | box lo _ => lo

/-- `AlignedBox::max()`; the empty box stores `-FLT_MAX` in every component. -/
def max (b : AABB) : Vec3f :=
  match b with
  | empty => ⟨-FLT_MAX, -FLT_MAX, -FLT_MAX⟩
  | box _ hi => hi

end AABB

/-- `EmbeddedMesh::gen_tets` (lines 257-289): appends the eight corners of the box
`[min, max]` to `verts` and five tets to `tets`.  The index offset is
`verts.size()` read after the eight corners were appended (line 282). -/
def gen_tets (min max : Vec3f) (verts : List Vec3f) (tets : List Vec4i) :
    List Vec3f × List Vec4i :=
  let v0 : Vec3f := min
  let v1 : Vec3f := { min with z := max.z }
  let v2 : Vec3f := { min with z := max.z, x := max.x }
  let v3 : Vec3f := { min with x := max.x }
  let v4 : Vec3f := { v0 with y := max.y }
  let v5 : Vec3f := { v3 with y := max.y }
  let v6 : Vec3f := { v2 with y := max.y }
  let v7 : Vec3f := { v1 with y := max.y }
  let verts := verts ++ [v0, v1, v2, v3, v4, v5, v6, v7]
  let o : Int := verts.length
  (verts, tets ++ [⟨0 + o, 2 + o, 7 + o, 5 + o⟩, ⟨0 + o, 7 + o, 2 + o, 1 + o⟩,
    ⟨0 + o, 5 + o, 7 + o, 4 + o⟩, ⟨0 + o, 2 + o, 5 + o, 3 + o⟩, ⟨2 + o, 7 + o, 5 + o, 6 + o⟩])

/-- The loop `for( float x = x0; x < hi; x += s ) body(x)` run with fuel:
`none` when the fuel does not suffice (or the body does not return). -/
def for_loop {σ : Type} : Nat → ℚ → ℚ → ℚ → (ℚ → σ → Option σ) → σ → Option σ
  | 0, x, hi, _, _, st => if x < hi then none else some st
  | n + 1, x, hi, s, body, st =>
    if x < hi then (body x st).bind (for_loop n (x + s) hi s body) else some st

/-- Fuel for `for_loop`: the number of iterations when the step is positive.  With
a step `s ≤ 0` the loop either does not start or never ends, and no fuel is
needed to tell which. -/
def loop_fuel (x hi s : ℚ) : Nat := if 0 < s then ⌈(hi - x) / s⌉.toNat else 0

/-- The grid loops of `gen_lattice` (lines 134-144). -/
def gen_grid (min max step : Vec3f) : Option (List Vec3f × List Vec4i) :=
  for_loop (loop_fuel (min.x - step.x) max.x step.x) (min.x - step.x) max.x step.x
    (fun x st =>
      for_loop (loop_fuel (min.y - step.y) max.y step.y) (min.y - step.y) max.y step.y
        (fun y st =>
          for_loop (loop_fuel (min.z - step.z) max.z step.z) (min.z - step.z) max.z step.z
            (fun z st =>
              let lower : Vec3f := ⟨x, y, z⟩
              let upper : Vec3f := lower + step
              some (gen_tets lower upper st.1 st.2))
            st)
        st)
    ([], [])

/-- `std::vector::resize(n, fill)`: keeps the first `n` elements and pads with
`fill` up to length `n`. -/
def resize {α : Type} (l : List α) (n : Nat) (fill : α) : List α :=
  l.take n ++ List.replicate (n - l.length) fill

/-- The inner loop of the first localization pass (lines 158-165) for one point:
scans the tets from index `j` on, carrying `(barycoords[i], vert_to_tet[i])`. -/
def localize (env : Env) (verts : List Vec3f) (point : Vec3f) :
    List Vec4i → Int → Vec4f × Int → Vec4f × Int
  | [], _, acc => acc
  | tet :: rest, j, acc =>
    if env.point_in_tet point (vget env verts tet.i0) (vget env verts tet.i1)
        (vget env verts tet.i2) (vget env verts tet.i3) then
      localize env verts point rest (j + 1)
        (env.barycoords point (vget env verts tet.i0) (vget env verts tet.i1)
          (vget env verts tet.i2) (vget env verts tet.i3), j)
    else localize env verts point rest (j + 1) acc

/-- The arrays written by the first pass: `barycoords`, `vert_to_tet`, `num_v_in_t`. -/
structure Pass1 where
  barycoords : List Vec4f
  vert_to_tet : List Int
  num_v_in_t : List Int

/-- One iteration of the first pass (lines 155-171).  An increment of
`num_v_in_t` at an index past its end (possible only with a stale, non-negative
`vert_to_tet[i]`) is dropped. -/
def pass1_step (env : Env) (points verts : List Vec3f) (tets : List Vec4i)
    (st : Pass1) (i : Nat) : Pass1 :=
  let point := points.getD i default
  let r := localize env verts point tets 0 (st.barycoords.getD i default, st.vert_to_tet.getD i 0)
  let barycoords := st.barycoords.set i r.1
  let vert_to_tet := st.vert_to_tet.set i r.2
  if r.2 < 0 then ⟨barycoords, vert_to_tet, st.num_v_in_t⟩
  else ⟨barycoords, vert_to_tet,
    st.num_v_in_t.set r.2.toNat (st.num_v_in_t.getD r.2.toNat 0 + 1)⟩

/-- The pruning loop (lines 180-184): the tets with a positive counter, in order. -/
def prune : List Vec4i → List Int → List Vec4i
  | tet :: tets, n :: ns => if n > 0 then tet :: prune tets ns else prune tets ns
  | _, _ => []

/-- Whether vertex `v` is referenced by some tet of the list. -/
def vertex_used (tets : List Vec4i) (v : Nat) : Bool :=
  tets.any (fun t => t.i0 = v ∨ t.i1 = v ∨ t.i2 = v ∨ t.i3 = v)

/-- The number of unreferenced vertices among the first `n` with index below `idx`. -/
def removed_below (tets : List Vec4i) (n : Nat) (idx : Int) : Nat :=
  ((List.range n).filter (fun (k : Nat) => decide ((k : Int) < idx) && !vertex_used tets k)).length

/-- The new index, after compaction, of vertex index `idx`. -/
def renumber (tets : List Vec4i) (n : Nat) (idx : Int) : Int :=
  idx - removed_below tets n idx

/-- Modelled from the spec: `TetMesh::refine` (`TetMesh.hpp` is not in the source),
the compaction pass that removes the vertices unreferenced by any tet and
renumbers the tets accordingly. -/
def TetMesh.refine (m : TetMesh) : TetMesh :=
  let n := m.vertices.length
  { vertices := ((List.range n).filter (vertex_used m.tets)).map
      (fun k => m.vertices.getD k default)
    tets := m.tets.map (fun t =>
      ⟨renumber m.tets n t.i0, renumber m.tets n t.i1,
        renumber m.tets n t.i2, renumber m.tets n t.i3⟩) }

/-- The rejection test of line 207. -/
def bad_barys (b : Vec4f) : Bool := decide (b.minCoeff < 0) || decide (b.sum - 1 / 1000 > 1)

/-- The inner loop of the second localization pass (lines 195-216) for one point:
scans the lattice tets from index `j` on, carrying `barycoords[i]`,
`vert_to_tet[i]` and the messages printed. -/
def relocalize (env : Env) (verts : List Vec3f) (point : Vec3f) :
    List Vec4i → Int → Vec4f × Int × List Msg → Vec4f × Int × List Msg
  | [], _, acc => acc
  | tet :: rest, j, acc =>
    if env.point_in_tet point (vget env verts tet.i0) (vget env verts tet.i1)
        (vget env verts tet.i2) (vget env verts tet.i3) then
      let b := env.barycoords point (vget env verts tet.i0) (vget env verts tet.i1)
        (vget env verts tet.i2) (vget env verts tet.i3)
      if bad_barys b then
        relocalize env verts point rest (j + 1) (b, -1, acc.2.2 ++ [Msg.bad_barys acc.2.1 b])
      else relocalize env verts point rest (j + 1) (b, j, acc.2.2)
    else relocalize env verts point rest (j + 1) acc

/-- The arrays written by the second pass, and the messages printed. -/
structure Pass2 where
  barycoords : List Vec4f
  vert_to_tet : List Int
  out : List Msg

/-- One iteration of the second pass (lines 192-217). -/
def pass2_step (env : Env) (points : List Vec3f) (lattice : TetMesh)
    (st : Pass2) (i : Nat) : Pass2 :=
  let point := points.getD i default
  let r := relocalize env lattice.vertices point lattice.tets 0
    (st.barycoords.getD i default, st.vert_to_tet.getD i 0, st.out)
  ⟨st.barycoords.set i r.1, st.vert_to_tet.set i r.2.1, r.2.2⟩

/-- The final check (lines 221-227): the message for the first embedded vertex,
from index `i` on, whose tet index is out of range, if there is one. -/
def check_v2t (n_tets : Int) : List Int → Nat → Option Msg
  | [], _ => none
  | v2t :: rest, i =>
    if v2t < 0 ∨ v2t ≥ n_tets then some (Msg.bad_tet_index i v2t n_tets)
    else check_v2t n_tets rest (i + 1)

/-- Lines 118-132 of `gen_lattice`: the padded corners `min`, `max` of the region
to tile, and the uniform `step`. -/
def grid_bounds (points : List Vec3f) (tess : Int) : Vec3f × Vec3f × Vec3f :=
  let aabb := points.foldl AABB.extend AABB.empty
  let step_scalar : ℚ := 1 / (tess : ℚ)
  let min := aabb.min
  let max := aabb.max
  let step : Vec3f := step_scalar * (max - min)
  let step_coeff := step.maxCoeff
  let step : Vec3f := ⟨step_coeff, step_coeff, step_coeff⟩
  (min - step_scalar * step, max + step_scalar * step, step)

/-- The first localization pass of `gen_lattice` (lines 147-171), from the prior
contents of `barycoords` and `vert_to_tet`. -/
def first_pass (env : Env) (points verts : List Vec3f) (tets : List Vec4i)
    (barycoords : List Vec4f) (vert_to_tet : List Int) : Pass1 :=
  let nv := points.length
  (List.range nv).foldl (pass1_step env points verts tets)
    ⟨resize barycoords nv ⟨-1, -1, -1, -1⟩, resize vert_to_tet nv (-1),
      List.replicate tets.length 0⟩

/-- The second localization pass of `gen_lattice` (lines 190-217). -/
def second_pass (env : Env) (points : List Vec3f) (lattice : TetMesh)
    (barycoords : List Vec4f) (vert_to_tet : List Int) (out : List Msg) : Pass2 :=
  (List.range points.length).foldl (pass2_step env points lattice)
    ⟨barycoords, vert_to_tet, out⟩

/-- Lines 175-229 of `gen_lattice`: pruning, `refine`, the second localization
pass and the final check, from the arrays `p1` written by the first pass. -/
def finish_mapping (env : Env) (s : EmbeddedMesh) (verts : List Vec3f) (tets : List Vec4i)
    (p1 : Pass1) : Bool × EmbeddedMesh :=
  let points := s.embedded.vertices
  let lattice := TetMesh.refine
    { s.lattice.clear with vertices := verts, tets := prune tets p1.num_v_in_t }
  let p2 := second_pass env points lattice p1.barycoords p1.vert_to_tet s.out
  match check_v2t lattice.tets.length p2.vert_to_tet 0 with
  | some msg =>
    (false, { s with lattice := lattice, barycoords := p2.barycoords,
                     vert_to_tet := p2.vert_to_tet, out := p2.out ++ [msg] })
  | none =>
    (true, { s with lattice := lattice, barycoords := p2.barycoords,
                    vert_to_tet := p2.vert_to_tet, out := p2.out })

/-- Lines 146-229 of `gen_lattice`: localization, pruning, second localization
and the final check, on the generated `verts` and `tets`. -/
def build_mapping (env : Env) (s : EmbeddedMesh) (verts : List Vec3f) (tets : List Vec4i) :
    Bool × EmbeddedMesh :=
  finish_mapping env s verts tets
    (first_pass env s.embedded.vertices verts tets s.barycoords s.vert_to_tet)

/-- `EmbeddedMesh::gen_lattice` (lines 112-231).  The result is `none` when a grid
loop does not terminate, and for `tess = 0`, where `1.f/float(tess)` is
infinite and the exact model does not apply. -/
def gen_lattice (env : Env) (tess : Int) (s : EmbeddedMesh) : Option (Bool × EmbeddedMesh) :=
  if tess = 0 then none
  else
    let b := grid_bounds s.embedded.vertices tess
    (gen_grid b.1 b.2.1 b.2.2).map (fun grid => build_mapping env s grid.1 grid.2)

/-- What the claims compare of a result of `gen_lattice`: the return value, the
lattice, `barycoords` and `vert_to_tet`. -/
def mapping_of (r : Bool × EmbeddedMesh) : Bool × TetMesh × List Vec4f × List Int :=
  (r.1, r.2.lattice, r.2.barycoords, r.2.vert_to_tet)

/-- Whether every point lies in at least one generated tet of the grid that
`gen_lattice` builds for these points (as the first pass tests it). -/
def all_localized (env : Env) (points : List Vec3f) (tess : Int) : Bool :=
  let b := grid_bounds points tess
  match gen_grid b.1 b.2.1 b.2.2 with
  | none => false
  | some grid =>
    points.all (fun p => grid.2.any (fun tet =>
      env.point_in_tet p (vget env grid.1 tet.i0) (vget env grid.1 tet.i1)
        (vget env grid.1 tet.i2) (vget env grid.1 tet.i3)))

/-- Whether no point lies in any generated tet of the grid that `gen_lattice`
builds for these points (as the first pass tests it). -/
def none_localized (env : Env) (points : List Vec3f) (tess : Int) : Bool :=
  let b := grid_bounds points tess
  match gen_grid b.1 b.2.1 b.2.2 with
  | none => false
  | some grid =>
    points.all (fun p => grid.2.all (fun tet =>
      !env.point_in_tet p (vget env grid.1 tet.i0) (vget env grid.1 tet.i1)
        (vget env grid.1 tet.i2) (vget env grid.1 tet.i3)))

/-- `EmbeddedMesh::bounds` (lines 244-255). -/
def bounds (s : EmbeddedMesh) : AABB :=
  if s.lattice.vertices.length = 0 then s.embedded.vertices.foldl AABB.extend AABB.empty
  else s.lattice.vertices.foldl AABB.extend AABB.empty

/-- Scalar triple product `u · (v × w)`. -/
def scalar_triple_product (u v w : Vec3f) : ℚ := u.dot (v.cross w)

/-- Modelled from the spec: `mcl::vec::barycoords` (not in the source), the
barycentric-weight function: the four weights of `p` relative to the tet
`a b c d`, as ratios of signed volumes.  For a degenerate tet the divisor is
zero and the exact model gives weights `0` (in `ℚ`, `1 / 0 = 0`), where
floating point gives NaN or infinities. -/
def std_barycoords (p a b c d : Vec3f) : Vec4f :=
  let ap := p - a
  let bp := p - b
  let ab := b - a
  let ac := c - a
  let ad := d - a
  let bc := c - b
  let bd := d - b
  let va6 := scalar_triple_product bp bd bc
  let vb6 := scalar_triple_product ap ac ad
  let vc6 := scalar_triple_product ap ad ab
  let vd6 := scalar_triple_product ap ab ac
  let v6 := 1 / scalar_triple_product ab ac ad
  ⟨va6 * v6, vb6 * v6, vc6 * v6, vd6 * v6⟩

/-- Whether `p` lies on the same side of the plane `p0 p1 p2` as `p3`, the plane
itself included. -/
def same_side (p p0 p1 p2 p3 : Vec3f) : Bool :=
  let n := (p1 - p0).cross (p2 - p0)
  decide (n.dot (p3 - p0) * n.dot (p - p0) ≥ 0)

/-- Modelled from the spec: `mcl::projection::point_in_tet` (not in the source),
the containment test: `p` is on the inner side of each of the four faces, the
boundary of the tet included. -/
def std_point_in_tet (p p0 p1 p2 p3 : Vec3f) : Bool :=
  same_side p p0 p1 p2 p3 && same_side p p1 p2 p3 p0 &&
    same_side p p2 p3 p0 p1 && same_side p p3 p0 p1 p2

/-- Whether `p` lies strictly on the same side of the plane `p0 p1 p2` as `p3`. -/
def strictly_same_side (p p0 p1 p2 p3 : Vec3f) : Bool :=
  let n := (p1 - p0).cross (p2 - p0)
  decide (n.dot (p3 - p0) * n.dot (p - p0) > 0)

/-- A containment test that excludes the boundary of the tet. -/
def strict_point_in_tet (p p0 p1 p2 p3 : Vec3f) : Bool :=
  strictly_same_side p p0 p1 p2 p3 && strictly_same_side p p1 p2 p3 p0 &&
    strictly_same_side p p2 p3 p0 p1 && strictly_same_side p p3 p0 p1 p2

/-- The standard geometry, with memory past the end of a vertex array reading
as zeros. -/
def env_zero : Env := ⟨std_point_in_tet, std_barycoords, fun _ => ⟨0, 0, 0⟩⟩

/-- The standard geometry, with memory past the end of a vertex array reading
as points far away from the meshes used here. -/
def env_far : Env :=
  ⟨std_point_in_tet, std_barycoords, fun i => ⟨1000 + i, 1000 + i * i, 1000 + i * i * i⟩⟩

/-- The standard geometry, with memory past the end of the 512 generated vertices
holding the corners of a large tet at the four slots the last generated tet
reads, and far-away points elsewhere. -/
def env_big : Env :=
  ⟨std_point_in_tet, std_barycoords, fun i =>
    if i = 514 then ⟨-10, -10, -10⟩
    else if i = 519 then ⟨30, -10, -10⟩
    else if i = 517 then ⟨-10, 30, -10⟩
    else if i = 518 then ⟨-10, -10, 30⟩
    else ⟨1000 + i, 1000 + i * i, 1000 + i * i * i⟩⟩

/-- The standard weights with the strict containment test. -/
def env_strict : Env := ⟨strict_point_in_tet, std_barycoords, fun _ => ⟨0, 0, 0⟩⟩

/-- A freshly constructed `EmbeddedMesh` holding the given surface. -/
def fresh (vertices : List Vec3f) (faces : List Vec3i) : EmbeddedMesh :=
  ⟨⟨vertices, faces, false⟩, ⟨[], []⟩, [], [], []⟩

/-- A single triangle whose bounding box is `[0,0,0]-[1,1,1]`. -/
def unit_triangle : EmbeddedMesh := fresh [⟨0, 0, 0⟩, ⟨1, 1, 1⟩, ⟨1, 0, 0⟩] [⟨0, 1, 2⟩]

/-- A single triangle in the plane `z = 0`; with `tess = 2` its first two vertices
are centres of grid cubes and the third is a corner of grid cubes. -/
def flat_triangle : EmbeddedMesh :=
  fresh [⟨0, 0, 0⟩, ⟨1, 0, 0⟩, ⟨1 / 4, 1 / 4, 0⟩] [⟨0, 1, 2⟩]

/-- A surface with two vertices. -/
def segment : EmbeddedMesh := fresh [⟨0, 0, 0⟩, ⟨1, 0, 0⟩] []

/-- The two-vertex surface with a prior lattice and prior mapping arrays. -/
def stale_segment : EmbeddedMesh :=
  { segment with
    lattice := ⟨[⟨7, 7, 7⟩], [⟨0, 0, 0, 0⟩]⟩
    barycoords := [⟨1, 0, 0, 0⟩]
    vert_to_tet := [5, 6, 7, 8] }

/-- The grid that `gen_lattice(1)` generates for the unit triangle. -/
def unit_grid : List Vec3f × List Vec4i :=
  (gen_grid (grid_bounds unit_triangle.embedded.vertices 1).1
    (grid_bounds unit_triangle.embedded.vertices 1).2.1
    (grid_bounds unit_triangle.embedded.vertices 1).2.2).getD ([], [])

/-- An embedding with matching array sizes: vertex 0 is mapped to tet 0, vertex 1
is unassigned. -/
def sample_ready : EmbeddedMesh :=
  { embedded := ⟨[⟨9, 9, 9⟩, ⟨5, 5, 5⟩], [], false⟩
    lattice := ⟨[⟨0, 0, 0⟩, ⟨1, 0, 0⟩, ⟨0, 1, 0⟩, ⟨0, 0, 1⟩], [⟨0, 1, 2, 3⟩]⟩
    barycoords := [⟨1 / 4, 1 / 4, 1 / 4, 1 / 4⟩, ⟨1, 0, 0, 0⟩]
    vert_to_tet := [0, -1]
    out := [] }

/-- A surface with a single vertex. -/
def one_point : EmbeddedMesh := fresh [⟨0, 0, 0⟩] []

/-- The single-vertex surface with stale mapping arrays of length one. -/
def stale_point : EmbeddedMesh :=
  { one_point with barycoords := [⟨1 / 4, 1 / 4, 1 / 4, 1 / 4⟩], vert_to_tet := [-1] }

/-! ## `bounds` and `update_lattice` -/

/-- Componentwise `≤` of two points. -/
def Vec3f.le (a b : Vec3f) : Prop := a.x ≤ b.x ∧ a.y ≤ b.y ∧ a.z ≤ b.z

/-- The box `b` is the smallest axis-aligned box containing all points of `vs`:
the empty box for no point, and otherwise a box that contains every point and
lies inside every box `[lo', hi']` that contains every point. -/
def AABB.is_hull (b : AABB) (vs : List Vec3f) : Prop :=
  match b with
  | AABB.empty => vs = []
  | AABB.box lo hi =>
    vs ≠ [] ∧ (∀ v ∈ vs, lo.le v ∧ v.le hi) ∧
      ∀ lo' hi' : Vec3f, (∀ v ∈ vs, lo'.le v ∧ v.le hi') → lo'.le lo ∧ hi.le hi'

/-- A C++ exception. -/
inductive Exn where
  | runtime_error (what : String)
deriving DecidableEq

/-- `EmbeddedMesh::update_lattice` (lines 293-333): the first statement throws; the
rest of the body is commented out or unreachable.  The result pairs what the
call throws or returns with the state it leaves. -/
def update_lattice (s : EmbeddedMesh) : Except Exn Bool × EmbeddedMesh :=
  (Except.error (Exn.runtime_error "**EmbeddedMesh TODO: update_lattice"), s)

/-! ## The bounding-volume hierarchy (`src/BVH.cpp`) -/

/-- Modelled from the spec: a scene object as `make_tree` uses it (`BaseObject` with
`get_aabb`; the declaration is not in the source): an identity and the two
corners that `get_aabb` reports. -/
structure BaseObject where
  id : Nat
  bmin : Vec3f
  bmax : Vec3f
deriving DecidableEq

/-- The read `v[k]` of a component with an `int` index; `oob` is what the read
yields when `k` is not 0, 1 or 2 (undefined behaviour in C++). -/
def Vec3f.coord (v : Vec3f) (k : Int) (oob : ℚ) : ℚ :=
  if k = 0 then v.x else if k = 1 then v.y else if k = 2 then v.z else oob

/-- Modelled from the spec: `AABB::center` (the class is not in the source). -/
def AABB.center (b : AABB) : Vec3f := (1 / 2 : ℚ) * (b.min + b.max)

/-- The entry `(bmin+bmax)*0.5f` of `obj_centers` (line 52). -/
def obj_center (o : BaseObject) : Vec3f := (1 / 2 : ℚ) * (o.bmin + o.bmax)

/-- The box of a node (lines 48-53): a fresh box extended by both corners of
every object (`AABB::operator+=` modelled from the spec as `extend`). -/
def node_aabb (objects : List BaseObject) : AABB :=
  objects.foldl (fun b o => (b.extend o.bmin).extend o.bmax) AABB.empty

/-- The partition loop (lines 80-84) from object index `i` on, carrying
`(left_objs, right_objs)`.  `oob (some i) k` and `oob none k` are what the reads
`obj_centers[i][k]` and `center[k]` yield for an axis `k` out of range. -/
def split_objects (oob : Option Nat → Int → ℚ) (center : Vec3f) (split_axis : Int) :
    List BaseObject → Nat → List BaseObject × List BaseObject →
      List BaseObject × List BaseObject
  | [], _, acc => acc
  | o :: rest, i, acc =>
    let oc := (obj_center o).coord split_axis (oob (some i) split_axis)
    let cc := center.coord split_axis (oob none split_axis)
    if oc ≤ cc then split_objects oob center split_axis rest (i + 1) (acc.1 ++ [o], acc.2)
    else if oc > cc then split_objects oob center split_axis rest (i + 1) (acc.1, acc.2 ++ [o])
    else split_objects oob center split_axis rest (i + 1) acc

/-- `dst.push_back( src.back() ); src.pop_back();` giving `(src, dst)`; on an empty
`src` (undefined behaviour in C++, not reached by `make_tree`) nothing moves. -/
def move_back {α : Type} (src dst : List α) : List α × List α :=
  match src.getLast? with
  | some x => (src.dropLast, dst ++ [x])
  | none => (src, dst)

/-- The guard of lines 87-88 on `(left_objs, right_objs)`. -/
def balance_sides {α : Type} (sides : List α × List α) : List α × List α :=
  let sides : List α × List α :=
    if sides.1.length = 0 then ((move_back sides.2 sides.1).2, (move_back sides.2 sides.1).1)
    else sides
  if sides.2.length = 0 then move_back sides.1 sides.2 else sides

/-- A `BVHNode` after `make_tree`: its box, `m_split`, `m_objects`, and either no
child (`left_child` and `right_child` both `NULL`) or both children. -/
inductive BVHNode where
  | leaf (aabb : AABB) (m_split : Int) (m_objects : List BaseObject)
  | node (aabb : AABB) (m_split : Int) (m_objects : List BaseObject)
      (left_child right_child : BVHNode)
deriving DecidableEq

namespace BVHNode

/-- The box of a node. -/
def aabb : BVHNode → AABB
  | leaf b _ _ => b
  | node b _ _ _ _ => b

/-- The split axis recorded in a node. -/
def m_split : BVHNode → Int
  | leaf _ k _ => k
  | node _ k _ _ _ => k

/-- The objects stored in a node itself. -/
def m_objects : BVHNode → List BaseObject
  | leaf _ _ objs => objs
  | node _ _ objs _ _ => objs

/-- Whether a node has children. -/
def has_children : BVHNode → Bool
  | leaf _ _ _ => false
  | node _ _ _ _ _ => true

/-- The objects stored in the subtree of a node: its own, then those of the left
and of the right subtree. -/
def tree_objects : BVHNode → List BaseObject
  | leaf _ _ objs => objs
  | node _ _ objs l r => objs ++ tree_objects l ++ tree_objects r

end BVHNode

/-- `BVHNode::make_tree` (lines 38-95) on a fresh node, with fuel for the
recursion: `none` when the fuel does not suffice. -/
def make_tree_fuel (oob : Option Nat → Int → ℚ) :
    Nat → List BaseObject → Int → Int → Option BVHNode
  | fuel, objects, split_axis, max_depth =>
    let split_axis := (split_axis + 1).tmod 3
    let max_depth := max_depth - 1
    let aabb := node_aabb objects
    let center := aabb.center
    if objects.length = 0 then some (BVHNode.leaf aabb split_axis [])
    else if objects.length = 1 ∨ max_depth ≤ 0 then some (BVHNode.leaf aabb split_axis objects)
    else
      match fuel with
      | 0 => none
      | n + 1 =>
        let sides := balance_sides (split_objects oob center split_axis objects 0 ([], []))
        match make_tree_fuel oob n sides.1 split_axis max_depth,
            make_tree_fuel oob n sides.2 split_axis max_depth with
        | some l, some r => some (BVHNode.node aabb split_axis [] l r)
        | _, _ => none

/-- Lines 79-84 as the call `make_tree(objects, split_axis, max_depth)` runs them:
`(left_objs, right_objs)` after the partition loop. -/
def raw_sides (oob : Option Nat → Int → ℚ) (objects : List BaseObject) (split_axis : Int) :
    List BaseObject × List BaseObject :=
  split_objects oob (node_aabb objects).center ((split_axis + 1).tmod 3) objects 0 ([], [])

/-- Lines 79-88 as the call `make_tree(objects, split_axis, max_depth)` runs them:
the two object lists passed to the recursive calls. -/
def call_sides (oob : Option Nat → Int → ℚ) (objects : List BaseObject) (split_axis : Int) :
    List BaseObject × List BaseObject :=
  balance_sides (raw_sides oob objects split_axis)

/-- `BVHNode::make_tree` on a fresh node; every recursive call gets a shorter list,
so the number of objects is fuel enough. -/
def make_tree (oob : Option Nat → Int → ℚ) (objects : List BaseObject) (split_axis : Int)
    (max_depth : Int) : Option BVHNode :=
  make_tree_fuel oob objects.length objects split_axis max_depth

/-- The union of the objects' boxes in the words of the spec: the componentwise
minimum of the mins and maximum of the maxes (the empty box for no object). -/
def union_box : List BaseObject → AABB
  | [] => AABB.empty
  | o :: rest =>
    match union_box rest with
    | AABB.empty => AABB.box o.bmin o.bmax
    | AABB.box lo hi => AABB.box (o.bmin.cwiseMin lo) (o.bmax.cwiseMax hi)

/-- The box `a` lies inside the box `b`. -/
def AABB.within (a b : AABB) : Prop :=
  match a, b with
  | AABB.empty, _ => True
  | AABB.box _ _, AABB.empty => False
  | AABB.box lo hi, AABB.box lo' hi' => lo'.le lo ∧ hi.le hi'

/-- At every node of the tree the box is the union of the boxes of the objects
stored below the node, and the box of each child lies inside it. -/
def BVHNode.boxes_ok : BVHNode → Prop
  | BVHNode.leaf b _ objs => b = union_box objs
  | BVHNode.node b k objs l r =>
    b = union_box (BVHNode.tree_objects (BVHNode.node b k objs l r)) ∧
      l.aabb.within b ∧ r.aabb.within b ∧ l.boxes_ok ∧ r.boxes_ok

/-- Every node records an axis in `{0,1,2}`, and both children of a node with
recorded axis `s` record `(s + 1) mod 3`. -/
def BVHNode.axes_cycle : BVHNode → Prop
  | BVHNode.leaf _ k _ => 0 ≤ k ∧ k ≤ 2
  | BVHNode.node _ k _ l r =>
    (0 ≤ k ∧ k ≤ 2) ∧ l.m_split = (k + 1) % 3 ∧ r.m_split = (k + 1) % 3 ∧
      l.axes_cycle ∧ r.axes_cycle

/-! ## Projection onto a triangle (`include/MCL/Projection.hpp`) -/

/-- The `clamp( x, a, b )` of the trimesh library. -/
def clamp (x a b : ℚ) : ℚ := if x > a then (if x < b then x else b) else a

/-- The parameters `(s, t)` that `Projection::Triangle` computes (lines 57-130).
`double` is modelled by `ℚ`; a division by zero, possible only for a degenerate
triangle, yields `0`. -/
def triangle_params (tri0 tri1 tri2 point : Vec3f) : ℚ × ℚ :=
  let edge0 := tri1 - tri0
  let edge1 := tri2 - tri0
  let v0 := tri0 - point
  let a := edge0.dot edge0
  let b := edge0.dot edge1
  let c := edge1.dot edge1
  let d := edge0.dot v0
  let e := edge1.dot v0
  let det := a * c - b * b
  let s := b * e - c * d
  let t := b * d - a * e
  if s + t < det then
    if s < 0 then
      if t < 0 then
        if d < 0 then (clamp (-d / a) 0 1, 0)
        else (0, clamp (-e / c) 0 1)
      else (0, clamp (-e / c) 0 1)
    else if t < 0 then (clamp (-d / a) 0 1, 0)
    else
      let invDet := 1 / det
      (s * invDet, t * invDet)
  else
    if s < 0 then
      let tmp0 := b + d
      let tmp1 := c + e
      if tmp1 > tmp0 then
        let numer := tmp1 - tmp0
        let denom := a - 2 * b + c
        (clamp (numer / denom) 0 1, 1 - clamp (numer / denom) 0 1)
      else (0, clamp (-e / c) 0 1)
    else if t < 0 then
      if a + d > b + e then
        let numer := c + e - b - d
        let denom := a - 2 * b + c
        (clamp (numer / denom) 0 1, 1 - clamp (numer / denom) 0 1)
      else (clamp (-e / c) 0 1, 0)
    else
      let numer := c + e - b - d
      let denom := a - 2 * b + c
      (clamp (numer / denom) 0 1, 1 - clamp (numer / denom) 0 1)

/-- `Projection::Triangle` (lines 54-134): `tri[0] + s*edge0 + t*edge1`. -/
def Projection.Triangle (tri0 tri1 tri2 point : Vec3f) : Vec3f :=
  let st := triangle_params tri0 tri1 tri2 point
  tri0 + st.1 * (tri1 - tri0) + st.2 * (tri2 - tri0)

/-- Squared distance of two points. -/
def dist_sq (p q : Vec3f) : ℚ := (p - q).dot (p - q)

/-- The point `q` lies on the triangle `tri0 tri1 tri2`. -/
def on_triangle (tri0 tri1 tri2 q : Vec3f) : Prop :=
  ∃ s t : ℚ, 0 ≤ s ∧ 0 ≤ t ∧ s + t ≤ 1 ∧ q = tri0 + s * (tri1 - tri0) + t * (tri2 - tri0)

/-! ## Sample scene objects -/

/-- No component read is out of range in the sample calls; such a read would yield 0. -/
def no_oob : Option Nat → Int → ℚ := fun _ _ => 0

/-- A cube of side 2 centred at `(1,1,1)`. -/
def obj_small : BaseObject := ⟨1, ⟨0, 0, 0⟩, ⟨2, 2, 2⟩⟩

/-- A cube of side 4 centred at `(1,1,1)`. -/
def obj_large : BaseObject := ⟨2, ⟨-1, -1, -1⟩, ⟨3, 3, 3⟩⟩

/-- A unit cube far out on the positive x axis. -/
def obj_east : BaseObject := ⟨3, ⟨5, 0, 0⟩, ⟨6, 1, 1⟩⟩

/-- A unit cube far out on the negative x axis. -/
def obj_west : BaseObject := ⟨4, ⟨-6, 0, 0⟩, ⟨-5, 1, 1⟩⟩

/-! ## Depth and leaves of a BVH -/

/-- The number of levels below a node: 0 for a node without children. -/
def BVHNode.height : BVHNode → Nat
  | BVHNode.leaf _ _ _ => 0
  | BVHNode.node _ _ _ l r => 1 + Nat.max l.height r.height

/-- The objects stored in the nodes without children, left to right. -/
def BVHNode.leaf_objects : BVHNode → List BaseObject
  | BVHNode.leaf _ _ objs => objs
  | BVHNode.node _ _ _ l r => l.leaf_objects ++ r.leaf_objects

/-- No node with children stores an object. -/
def BVHNode.interior_empty : BVHNode → Prop
  | BVHNode.leaf _ _ _ => True
  | BVHNode.node _ _ objs l r => objs = [] ∧ l.interior_empty ∧ r.interior_empty

/-! ## The five tets of a cube -/

/-- The tets `t0 .. t4` of `gen_tets` (lines 277-281), before the offset is added. -/
def cube_pattern : List Vec4i :=
  [⟨0, 2, 7, 5⟩, ⟨0, 7, 2, 1⟩, ⟨0, 5, 7, 4⟩, ⟨0, 2, 5, 3⟩, ⟨2, 7, 5, 6⟩]

/-- The sum `t + offset` of lines 283-287, `offset` having four equal components. -/
def Vec4i.shift (t : Vec4i) (o : Int) : Vec4i := ⟨t.i0 + o, t.i1 + o, t.i2 + o, t.i3 + o⟩

/-- The signed volume of the tetrahedron `a b c d`. -/
def signed_volume (a b c d : Vec3f) : ℚ := scalar_triple_product (b - a) (c - a) (d - a) / 6

/-- The signed volume of tet `t` over the vertex array `verts`. -/
def tet_volume (verts : List Vec3f) (t : Vec4i) : ℚ :=
  signed_volume (verts.getD t.i0.toNat default) (verts.getD t.i1.toNat default)
    (verts.getD t.i2.toNat default) (verts.getD t.i3.toNat default)

/-- The volume of the box `[min, max]`. -/
def box_volume (min max : Vec3f) : ℚ := (max.x - min.x) * (max.y - min.y) * (max.z - min.z)

/-! ## The localization test -/

/-- The test `point_in_tet( point, verts[tet[0]], .., verts[tet[3]] )` of lines
160-161 and 197-201. -/
def in_tet (env : Env) (verts : List Vec3f) (point : Vec3f) (tet : Vec4i) : Bool :=
  env.point_in_tet point (vget env verts tet.i0) (vget env verts tet.i1)
    (vget env verts tet.i2) (vget env verts tet.i3)

/-- The weights `barycoords( point, verts[tet[0]], .., verts[tet[3]] )` of lines
162-163 and 202-206. -/
def tet_weights (env : Env) (verts : List Vec3f) (point : Vec3f) (tet : Vec4i) : Vec4f :=
  env.barycoords point (vget env verts tet.i0) (vget env verts tet.i1)
    (vget env verts tet.i2) (vget env verts tet.i3)

/-- Containment and weight functions that accept every point and report weights
with one component slightly below zero, as rounding can produce. -/
def env_rounding : Env :=
  ⟨fun _ _ _ _ _ => true, fun _ _ _ _ _ => ⟨-1 / 2000, 1 / 2, 1 / 2, 1 / 2000⟩,
    fun _ => ⟨0, 0, 0⟩⟩

/-! ## Sample embeddings for `apply_xform` -/

/-- The translation by `(1, 0, 0)`. -/
def shift_x : XForm := ⟨⟨1, 0, 0⟩, ⟨0, 1, 0⟩, ⟨0, 0, 1⟩, ⟨1, 0, 0⟩⟩

/-- An embedding of two vertices in one tet, each at its barycentric position. -/
def matched_ready : EmbeddedMesh :=
  { embedded := ⟨[⟨1 / 4, 1 / 4, 1 / 4⟩, ⟨0, 0, 0⟩], [], false⟩
    lattice := ⟨[⟨0, 0, 0⟩, ⟨1, 0, 0⟩, ⟨0, 1, 0⟩, ⟨0, 0, 1⟩], [⟨0, 1, 2, 3⟩]⟩
    barycoords := [⟨1 / 4, 1 / 4, 1 / 4, 1 / 4⟩, ⟨1, 0, 0, 0⟩]
    vert_to_tet := [0, 0]
    out := [] }

/-- The same mapping arrays over a surface that has lost its second vertex. -/
def mismatched_ready : EmbeddedMesh :=
  { matched_ready with embedded := ⟨[⟨1 / 4, 1 / 4, 1 / 4⟩], [], false⟩ }

/-! ## `ParticleCloud::load`, the `.node` branch (`src/ParticleCloud.cpp`) -/

/-- One line of a `.node` file as `lineSS >> idx >> x >> y >> z` reads it. -/
structure NodeLine where
  idx : Int
  x : ℚ
  y : ℚ
  z : ℚ
deriving DecidableEq

/-- The variables of the loop of lines 84-102. -/
structure NodeScan where
  vertices : List Vec3f
  vertex_set : List Int
  starts_with_one : Bool
deriving DecidableEq

/-- How the `.node` branch ends: `load` returns a value, with the vertex array
it leaves; or a write `vertices[idx]` falls outside the array of `size`
elements; or `vertices.resize` is called with a negative count. -/
inductive LoadOutcome where
  | returned (ok : Bool) (vertices : List Vec3f)
  | out_of_range_write (idx : Int) (size : Nat)
  | bad_resize (n : Int)
deriving DecidableEq

/-- The conversion of an `int` to `size_t` (64 bits) in the comparison of line 95. -/
def to_size_t (i : Int) : Int := i % 2 ^ 64

/-- The index used for the writes of lines 99-100: the index read, less one when
the file is 1-indexed (lines 92-93). -/
def adjusted_idx (st : NodeScan) (i : Nat) (line : NodeLine) : Int :=
  if (st.starts_with_one || (decide (i = 0) && decide (line.idx = 1))) = true then line.idx - 1
  else line.idx

/-- What `lineSS >> idx >> x >> y >> z` yields when the file has no line left:
the failed extraction stores 0 in `idx`; the coordinates, which the source
leaves unset, are taken as 0. -/
def missing_line : NodeLine := ⟨0, 0, 0, 0⟩

/-- One iteration of the loop of lines 84-102: either `load` ends here, or the
loop goes on with new variables. -/
def node_step (st : NodeScan) (i : Nat) (line : NodeLine) : LoadOutcome ⊕ NodeScan :=
  let starts_with_one := st.starts_with_one || (decide (i = 0) && decide (line.idx = 1))
  let idx := adjusted_idx st i line
  if to_size_t idx > (st.vertices.length : Int) then
    Sum.inl (LoadOutcome.returned false st.vertices)
  else if 0 ≤ idx ∧ idx < (st.vertices.length : Int) then
    Sum.inr ⟨st.vertices.set idx.toNat ⟨line.x, line.y, line.z⟩,
      st.vertex_set.set idx.toNat 1, starts_with_one⟩
  else Sum.inl (LoadOutcome.out_of_range_write idx st.vertices.length)

/-- The loop of lines 84-102: `count` more iterations from iteration `i` on. -/
def node_loop (lines : List NodeLine) : Nat → Nat → NodeScan → LoadOutcome ⊕ NodeScan
  | 0, _, st => Sum.inr st
  | count + 1, i, st =>
    match node_step st i (lines.getD i missing_line) with
    | Sum.inl outcome => Sum.inl outcome
    | Sum.inr st' => node_loop lines count (i + 1) st'

/-- The `.node` branch of `ParticleCloud::load` (lines 70-111) on a file whose
header gives the count `n_nodes` and whose further lines are `lines`; `vertices`
is the vertex array before the call. -/
def load_node (vertices : List Vec3f) (n_nodes : Int) (lines : List NodeLine) : LoadOutcome :=
  if n_nodes < 0 then LoadOutcome.bad_resize n_nodes
  else
    match node_loop lines n_nodes.toNat 0
        ⟨resize vertices n_nodes.toNat default, List.replicate n_nodes.toNat 0, false⟩ with
    | Sum.inl outcome => outcome
    | Sum.inr st =>
      if st.vertex_set.all (fun v => decide (v ≠ 0)) then LoadOutcome.returned true st.vertices
      else LoadOutcome.returned false st.vertices

/-- A two-node file, 0-indexed, whose second line names node 2. -/
def bad_node_file : List NodeLine := [⟨0, 0, 0, 0⟩, ⟨2, 1, 1, 1⟩]

/-! ## Pruning, as the specification describes it -/

/-- The tets, in generation order, whose index is the `vert_to_tet` of at least
one vertex: what the specification says pruning keeps, to be compared with
`prune`. -/
def tets_named_by (tets : List Vec4i) (vert_to_tet : List Int) : List Vec4i :=
  ((List.range tets.length).filter (fun (j : Nat) => decide ((j : Int) ∈ vert_to_tet))).map
    (fun j => tets.getD j default)

/-- The arrays the first pass of `gen_lattice` writes for the embedding `s` on
the generated `grid`. -/
def grid_first_pass (env : Env) (s : EmbeddedMesh) (grid : List Vec3f × List Vec4i) : Pass1 :=
  first_pass env s.embedded.vertices grid.1 grid.2 s.barycoords s.vert_to_tet

/-! ## The grid step, as the specification describes it -/

/-- The largest extent of the box `[lo, hi]` divided by `tess`: the step the
specification names, to be compared with the one `grid_bounds` computes. -/
def uniform_step (lo hi : Vec3f) (tess : Int) : ℚ := (hi - lo).maxCoeff / (tess : ℚ)

/-- The point `v` lies in the box from `a` (inclusive) to `b` (exclusive). -/
def Vec3f.in_region (v a b : Vec3f) : Prop :=
  (a.x ≤ v.x ∧ v.x < b.x) ∧ (a.y ≤ v.y ∧ v.y < b.y) ∧ (a.z ≤ v.z ∧ v.z < b.z)

end mcl

namespace mcl

/-! ## `update_embedded` and `apply_xform` -/

/-- A loop that overwrites slot `i` with `f i` unless `g i` keeps the length. -/
theorem fold_set_length {α : Type} (g : Nat → Prop) [DecidablePred g] (f : Nat → α)
    (n : Nat) (vs : List α) :
    ((List.range n).foldl (fun (w : List α) i => if g i then w else w.set i (f i)) vs).length
      = vs.length := by
  induction n with
  | zero => simp
  | succ n ih =>
    rw [List.range_succ, List.foldl_append, List.foldl_cons, List.foldl_nil]
    split
    · exact ih
    · rw [List.length_set, ih]

/-- After `n` iterations of such a loop, slot `i` holds `f i` if `i < n` and
`g i` fails, and its old value otherwise. -/
theorem fold_set_get {α : Type} (g : Nat → Prop) [DecidablePred g] (f : Nat → α)
    (n : Nat) (vs : List α) (i : Nat) :
    ((List.range n).foldl (fun (w : List α) i => if g i then w else w.set i (f i)) vs)[i]? =
      if i < n ∧ i < vs.length ∧ ¬ g i then some (f i) else vs[i]? := by
  induction n with
  | zero => simp
  | succ n ih =>
    rw [List.range_succ, List.foldl_append, List.foldl_cons, List.foldl_nil]
    have hlen := fold_set_length g f n vs
    generalize (List.range n).foldl
      (fun (w : List α) i => if g i then w else w.set i (f i)) vs = w at ih hlen ⊢
    by_cases hin : i = n
    · subst hin
      have hnn : ¬ (i < i ∧ i < vs.length ∧ ¬ g i) := fun h => absurd h.1 (lt_irrefl i)
      rw [if_neg hnn] at ih
      by_cases hg : g i
      · rw [if_pos hg, ih, if_neg (fun h => h.2.2 hg)]
      · rw [if_neg hg]
        by_cases hl : i < vs.length
        · rw [if_pos ⟨Nat.lt_succ_self i, hl, hg⟩, List.getElem?_set_self (hlen ▸ hl)]
        · rw [if_neg (fun h => hl h.2.1), List.getElem?_eq_none (not_lt.mp hl),
            List.getElem?_eq_none]
          rw [List.length_set, hlen]; exact not_lt.mp hl
    · have hne : n ≠ i := fun h => hin h.symm
      have key : (if g n then w else w.set n (f n))[i]? = w[i]? := by
        split
        · rfl
        · exact List.getElem?_set_ne hne
      rw [key, ih]
      by_cases hc : i < n ∧ i < vs.length ∧ ¬ g i
      · rw [if_pos hc, if_pos ⟨Nat.lt_succ_of_lt hc.1, hc.2⟩]
      · rw [if_neg hc, if_neg]
        intro h
        exact hc ⟨lt_of_le_of_ne (Nat.lt_succ_iff.mp h.1) hin, h.2⟩

theorem update_embedded_step_eq (env : Env) (lattice : TetMesh) (barycoords : List Vec4f)
    (vert_to_tet : List Int) :
    update_embedded_step env lattice barycoords vert_to_tet =
      fun (w : List Vec3f) i =>
        if vert_to_tet.getD i 0 < 0 ∨ vert_to_tet.getD i 0 ≥ (lattice.tets.length : Int) then w
        else w.set i (bary_combo env lattice.vertices
          (lattice.tets.getD (vert_to_tet.getD i 0).toNat default) (barycoords.getD i default)) :=
  rfl

theorem update_embedded_fold_length (env : Env) (lattice : TetMesh) (barycoords : List Vec4f)
    (vert_to_tet : List Int) (n : Nat) (vs : List Vec3f) :
    ((List.range n).foldl (update_embedded_step env lattice barycoords vert_to_tet) vs).length
      = vs.length := by
  rw [update_embedded_step_eq]
  exact fold_set_length _ _ n vs

/-- After the first `n` iterations of the loop, slot `i` holds the barycentric
combination if `i < n` and its tet index is in range, and its old value otherwise. -/
theorem update_embedded_fold_get (env : Env) (lattice : TetMesh) (barycoords : List Vec4f)
    (vert_to_tet : List Int) (n : Nat) (vs : List Vec3f) (i : Nat) :
    ((List.range n).foldl (update_embedded_step env lattice barycoords vert_to_tet) vs)[i]? =
      if i < n ∧ i < vs.length ∧
          ¬ (vert_to_tet.getD i 0 < 0 ∨ vert_to_tet.getD i 0 ≥ (lattice.tets.length : Int)) then
        some (bary_combo env lattice.vertices
          (lattice.tets.getD (vert_to_tet.getD i 0).toNat default) (barycoords.getD i default))
      else vs[i]? := by
  rw [update_embedded_step_eq]
  exact fold_set_get _ _ n vs i

/-- Running the loop again on its own output changes nothing. -/
theorem update_embedded_fold_idem (env : Env) (lattice : TetMesh) (barycoords : List Vec4f)
    (vert_to_tet : List Int) (n : Nat) (vs : List Vec3f) :
    (List.range n).foldl (update_embedded_step env lattice barycoords vert_to_tet)
      ((List.range n).foldl (update_embedded_step env lattice barycoords vert_to_tet) vs) =
    (List.range n).foldl (update_embedded_step env lattice barycoords vert_to_tet) vs := by
  apply List.ext_getElem?
  intro i
  rw [update_embedded_fold_get env lattice barycoords vert_to_tet n _ i,
    update_embedded_fold_length, update_embedded_fold_get env lattice barycoords vert_to_tet n vs i]
  split <;> rfl

/-- C4: when `vert_to_tet`, `barycoords` and `embedded.vertices` have equal sizes,
`update_embedded` keeps the number of embedded vertices, sets every vertex whose
tet index is in `[0, tets.size())` to the barycentric combination of the four
lattice vertices of its tet, and leaves every other vertex exactly as it was.
The lattice and the mapping are not touched. -/
theorem update_embedded_positions (env : Env) (s : EmbeddedMesh)
    (h1 : s.vert_to_tet.length = s.embedded.vertices.length)
    (h2 : s.vert_to_tet.length = s.barycoords.length) :
    (update_embedded env s).embedded.vertices.length = s.embedded.vertices.length ∧
    (update_embedded env s).lattice = s.lattice ∧
    (update_embedded env s).barycoords = s.barycoords ∧
    (update_embedded env s).vert_to_tet = s.vert_to_tet ∧
    ∀ i, i < s.embedded.vertices.length →
      ((0 ≤ s.vert_to_tet.getD i 0 ∧ s.vert_to_tet.getD i 0 < (s.lattice.tets.length : Int) →
        (update_embedded env s).embedded.vertices[i]? =
          some (bary_combo env s.lattice.vertices
            (s.lattice.tets.getD (s.vert_to_tet.getD i 0).toNat default)
            (s.barycoords.getD i default))) ∧
       (s.vert_to_tet.getD i 0 < 0 ∨ (s.lattice.tets.length : Int) ≤ s.vert_to_tet.getD i 0 →
        (update_embedded env s).embedded.vertices[i]? = s.embedded.vertices[i]?)) := by
  have hne : ¬ (s.vert_to_tet.length ≠ s.embedded.vertices.length ∨
      s.vert_to_tet.length ≠ s.barycoords.length) := by
    rw [not_or]; exact ⟨not_not.mpr h1, not_not.mpr h2⟩
  unfold update_embedded
  dsimp only
  rw [if_neg hne]
  refine ⟨?_, rfl, rfl, rfl, ?_⟩
  · simp only [TriangleMesh.need_normals]
    exact update_embedded_fold_length env s.lattice s.barycoords s.vert_to_tet _ _
  · intro i hi
    simp only [TriangleMesh.need_normals]
    rw [update_embedded_fold_get]
    constructor
    · intro hr
      have hg : ¬ (s.vert_to_tet.getD i 0 < 0 ∨
          s.vert_to_tet.getD i 0 ≥ (s.lattice.tets.length : Int)) := by
        rw [not_or]; exact ⟨not_lt.mpr hr.1, not_le.mpr hr.2⟩
      rw [if_pos ⟨h1 ▸ hi, hi, hg⟩]
    · intro hr
      have hg : (s.vert_to_tet.getD i 0 < 0 ∨
          s.vert_to_tet.getD i 0 ≥ (s.lattice.tets.length : Int)) := hr
      rw [if_neg (fun h => h.2.2 hg)]

/-- An instance of C4: vertex 0 is mapped to tet 0 of a one-tet lattice, vertex 1 is
unassigned. -/
theorem update_embedded_positions_witness :
    sample_ready.vert_to_tet.length = sample_ready.embedded.vertices.length ∧
    sample_ready.vert_to_tet.length = sample_ready.barycoords.length ∧
    (update_embedded env_zero sample_ready).embedded.vertices[0]? =
      some ⟨1 / 4, 1 / 4, 1 / 4⟩ ∧
    (update_embedded env_zero sample_ready).embedded.vertices[1]? = some ⟨5, 5, 5⟩ :=
  ⟨by decide, by decide,
    ((update_embedded_positions env_zero sample_ready (by decide) (by decide)).2.2.2.2 0
      (by decide)).1 (by decide) |>.trans (by decide!),
    ((update_embedded_positions env_zero sample_ready (by decide) (by decide)).2.2.2.2 1
      (by decide)).2 (by decide) |>.trans (by decide!)⟩

/-- The result of `update_embedded` when the array sizes agree. -/
theorem update_embedded_eq_of_sizes (env : Env) (s : EmbeddedMesh)
    (hne : ¬ (s.vert_to_tet.length ≠ s.embedded.vertices.length ∨
      s.vert_to_tet.length ≠ s.barycoords.length)) :
    update_embedded env s =
      ⟨⟨(List.range s.vert_to_tet.length).foldl
          (update_embedded_step env s.lattice s.barycoords s.vert_to_tet) s.embedded.vertices,
        s.embedded.faces, true⟩, s.lattice, s.barycoords, s.vert_to_tet, s.out⟩ := by
  unfold update_embedded
  dsimp only
  rw [if_neg hne]
  rfl

/-- C5: `update_embedded` is idempotent: calling it twice in a row gives the same
embedded mesh (vertex positions included), lattice, barycoords and vert_to_tet
as calling it once, for every embedding state. -/
theorem update_embedded_idempotent (env : Env) (s : EmbeddedMesh) :
    (update_embedded env (update_embedded env s)).embedded = (update_embedded env s).embedded ∧
    (update_embedded env (update_embedded env s)).lattice = (update_embedded env s).lattice ∧
    (update_embedded env (update_embedded env s)).barycoords =
      (update_embedded env s).barycoords ∧
    (update_embedded env (update_embedded env s)).vert_to_tet =
      (update_embedded env s).vert_to_tet := by
  by_cases hne : s.vert_to_tet.length ≠ s.embedded.vertices.length ∨
      s.vert_to_tet.length ≠ s.barycoords.length
  · have h1 : update_embedded env s = { s with out := s.out ++ [Msg.update_embedded_topology] } := by
      unfold update_embedded; dsimp only; rw [if_pos hne]
    have h2 : update_embedded env { s with out := s.out ++ [Msg.update_embedded_topology] } =
        { s with out := s.out ++ [Msg.update_embedded_topology] ++
          [Msg.update_embedded_topology] } := by
      unfold update_embedded; dsimp only; rw [if_pos hne]
    rw [h1, h2]
    exact ⟨rfl, rfl, rfl, rfl⟩
  · have h1 := update_embedded_eq_of_sizes env s hne
    have hne2 : ¬ (s.vert_to_tet.length ≠ ((List.range s.vert_to_tet.length).foldl
          (update_embedded_step env s.lattice s.barycoords s.vert_to_tet)
            s.embedded.vertices).length ∨
        s.vert_to_tet.length ≠ s.barycoords.length) := by
      rw [update_embedded_fold_length]; exact hne
    rw [h1, update_embedded_eq_of_sizes env _ hne2]
    dsimp only
    rw [update_embedded_fold_idem]
    exact ⟨rfl, rfl, rfl, rfl⟩

/-- C6: if `vert_to_tet.size()` differs from `embedded.vertices.size()` or from
`barycoords.size()`, `update_embedded` only reports the mismatch: the embedded
mesh, the lattice, barycoords and vert_to_tet are all unchanged. -/
theorem update_embedded_size_mismatch (env : Env) (s : EmbeddedMesh)
    (h : s.vert_to_tet.length ≠ s.embedded.vertices.length ∨
      s.vert_to_tet.length ≠ s.barycoords.length) :
    update_embedded env s = { s with out := s.out ++ [Msg.update_embedded_topology] } := by
  unfold update_embedded
  dsimp only
  rw [if_pos h]

/-- An instance of C6: one embedded vertex, empty mapping arrays. -/
theorem update_embedded_size_mismatch_witness :
    (one_point.vert_to_tet.length ≠ one_point.embedded.vertices.length ∨
      one_point.vert_to_tet.length ≠ one_point.barycoords.length) ∧
    update_embedded env_zero one_point =
      { one_point with out := one_point.out ++ [Msg.update_embedded_topology] } :=
  ⟨Or.inl (by decide), update_embedded_size_mismatch env_zero one_point (Or.inl (by decide))⟩

/-- C10: if the lattice has no vertices, `apply_xform` only reports the error, for
every transform: the lattice, the embedded mesh (positions and normals flag),
barycoords and vert_to_tet are unchanged, and nothing of `update_embedded`
(neither its position update nor its message) takes place. -/
theorem apply_xform_empty_lattice (env : Env) (xf : XForm) (s : EmbeddedMesh)
    (h : s.lattice.vertices = []) :
    apply_xform env xf s = { s with out := s.out ++ [Msg.apply_xform_unset] } := by
  unfold apply_xform
  rw [if_pos (by rw [h]; rfl)]

/-- An instance of C10: the identity transform on an embedding with an empty lattice. -/
theorem apply_xform_empty_lattice_witness :
    one_point.lattice.vertices = [] ∧
    apply_xform env_zero XForm.identity one_point =
      { one_point with out := one_point.out ++ [Msg.apply_xform_unset] } :=
  ⟨rfl, apply_xform_empty_lattice env_zero XForm.identity one_point rfl⟩

end mcl

namespace mcl

/-! ## `gen_lattice`: termination and the final check -/

/-- A `for` loop with a positive step and enough fuel, or one that does not
start, returns, provided its body does. -/
theorem for_loop_total {σ : Type} (body : ℚ → σ → Option σ)
    (hbody : ∀ x st, ∃ st', body x st = some st') (hi s : ℚ) :
    ∀ (n : Nat) (x : ℚ) (st : σ), (0 < s → ⌈(hi - x) / s⌉.toNat ≤ n) → (s ≤ 0 → hi ≤ x) →
      ∃ st', for_loop n x hi s body st = some st' := by
  intro n
  induction n with
  | zero =>
    intro x st hfuel hstart
    have hx : ¬ x < hi := by
      intro hlt
      rcases lt_or_le 0 s with hs | hs
      · have h0 := hfuel hs
        have h1 : ⌈(hi - x) / s⌉ ≤ 0 := by
          have := Int.toNat_eq_zero.mp (Nat.le_zero.mp h0)
          exact this
        have h2 : (hi - x) / s ≤ 0 := by
          have := Int.ceil_le.mp h1
          simpa using this
        have h3 : 0 < (hi - x) / s := div_pos (sub_pos.mpr hlt) hs
        exact absurd h3 (not_lt.mpr h2)
      · exact absurd hlt (not_lt.mpr (hstart hs))
    exact ⟨st, by simp [for_loop, hx]⟩
  | succ n ih =>
    intro x st hfuel hstart
    by_cases hx : x < hi
    · have hs : 0 < s := by
        by_contra hns
        exact absurd hx (not_lt.mpr (hstart (not_lt.mp hns)))
      obtain ⟨st1, h1⟩ := hbody x st
      have hf : 0 < s → ⌈(hi - (x + s)) / s⌉.toNat ≤ n := by
        intro _
        have e : (hi - (x + s)) / s = (hi - x) / s - 1 := by
          field_simp
          ring
        rw [e, Int.ceil_sub_one]
        have := hfuel hs
        omega
      obtain ⟨st2, h2⟩ := ih (x + s) st1 hf (fun h => absurd hs (not_lt.mpr h))
      exact ⟨st2, by simp [for_loop, hx, h1, h2]⟩
    · exact ⟨st, by simp [for_loop, hx]⟩

/-- The grid loops return when, on each axis, the step is positive or the loop
does not start. -/
theorem gen_grid_total (min max step : Vec3f)
    (hx : 0 < step.x ∨ max.x ≤ min.x - step.x)
    (hy : 0 < step.y ∨ max.y ≤ min.y - step.y)
    (hz : 0 < step.z ∨ max.z ≤ min.z - step.z) :
    ∃ grid, gen_grid min max step = some grid := by
  have aux : ∀ (x hi s : ℚ), (0 < s ∨ hi ≤ x) →
      (0 < s → ⌈(hi - x) / s⌉.toNat ≤ loop_fuel x hi s) ∧ (s ≤ 0 → hi ≤ x) := by
    intro x hi s h
    constructor
    · intro hs
      simp [loop_fuel, hs]
    · intro hs
      rcases h with h | h
      · exact absurd h (not_lt.mpr hs)
      · exact h
  unfold gen_grid
  apply for_loop_total _ _ _ _ _ _ _ (aux _ _ _ hx).1 (aux _ _ _ hx).2
  intro x st
  apply for_loop_total _ _ _ _ _ _ _ (aux _ _ _ hy).1 (aux _ _ _ hy).2
  intro y st
  apply for_loop_total _ _ _ _ _ _ _ (aux _ _ _ hz).1 (aux _ _ _ hz).2
  intro z st
  exact ⟨_, rfl⟩

/-- With `tess ≥ 1` the grid loops of `gen_lattice` terminate, for every surface. -/
theorem grid_bounds_total (points : List Vec3f) (tess : Int) (h : 1 ≤ tess) :
    ∃ grid, gen_grid (grid_bounds points tess).1 (grid_bounds points tess).2.1
      (grid_bounds points tess).2.2 = some grid := by
  have ht : (0 : ℚ) < 1 / (tess : ℚ) := by
    have : (0 : ℚ) < (tess : ℚ) := by exact_mod_cast (by omega : (0 : Int) < tess)
    positivity
  generalize hbox : points.foldl AABB.extend AABB.empty = aabb
  have key : ∀ (m M : ℚ) (c t : ℚ), 0 < t → t * (M - m) ≤ c →
      0 < c ∨ M + t * c ≤ m - t * c - c := by
    intro m M c t ht hc
    rcases lt_or_le 0 c with h0 | h0
    · exact Or.inl h0
    · right
      have hd : M - m ≤ 0 := by
        by_contra hpos
        have : 0 < t * (M - m) := mul_pos ht (not_le.mp hpos)
        linarith
      have : t * c ≤ 0 := mul_nonpos_of_nonneg_of_nonpos ht.le h0
      linarith
  apply gen_grid_total
  · simp only [grid_bounds, hbox]
    exact key _ _ _ _ ht (le_trans (le_max_left _ _) (le_max_left _ _))
  · simp only [grid_bounds, hbox]
    exact key _ _ _ _ ht (le_trans (le_max_right _ _) (le_max_left _ _))
  · simp only [grid_bounds, hbox]
    exact key _ _ _ _ ht (le_max_right _ _)

theorem resize_length {α : Type} (l : List α) (n : Nat) (fill : α) :
    (resize l n fill).length = n := by
  unfold resize
  rw [List.length_append, List.length_take, List.length_replicate]
  omega

/-- A property kept by every step of a loop over a list holds at its end. -/
theorem foldl_invariant {σ β : Type} (P : σ → Prop) (f : σ → β → σ)
    (hstep : ∀ st i, P st → P (f st i)) (l : List β) (a : σ) (h0 : P a) :
    P (l.foldl f a) := by
  induction l generalizing a with
  | nil => exact h0
  | cons x xs ih => exact ih (f a x) (hstep a x h0)

theorem pass1_step_lengths (env : Env) (points verts : List Vec3f) (tets : List Vec4i)
    (st : Pass1) (i : Nat) :
    (pass1_step env points verts tets st i).barycoords.length = st.barycoords.length ∧
    (pass1_step env points verts tets st i).vert_to_tet.length = st.vert_to_tet.length ∧
    (pass1_step env points verts tets st i).num_v_in_t.length = st.num_v_in_t.length := by
  unfold pass1_step
  dsimp only
  split <;> simp

theorem first_pass_lengths (env : Env) (points verts : List Vec3f) (tets : List Vec4i)
    (barycoords : List Vec4f) (vert_to_tet : List Int) :
    (first_pass env points verts tets barycoords vert_to_tet).barycoords.length = points.length ∧
    (first_pass env points verts tets barycoords vert_to_tet).vert_to_tet.length = points.length ∧
    (first_pass env points verts tets barycoords vert_to_tet).num_v_in_t.length = tets.length := by
  unfold first_pass
  dsimp only
  apply foldl_invariant (fun st : Pass1 => st.barycoords.length = points.length ∧
    st.vert_to_tet.length = points.length ∧ st.num_v_in_t.length = tets.length)
  · intro st i h
    have hl := pass1_step_lengths env points verts tets st i
    exact ⟨hl.1.trans h.1, hl.2.1.trans h.2.1, hl.2.2.trans h.2.2⟩
  · exact ⟨resize_length _ _ _, resize_length _ _ _, List.length_replicate _ _⟩

theorem second_pass_lengths (env : Env) (points : List Vec3f) (lattice : TetMesh)
    (barycoords : List Vec4f) (vert_to_tet : List Int) (out : List Msg) :
    (second_pass env points lattice barycoords vert_to_tet out).barycoords.length
      = barycoords.length ∧
    (second_pass env points lattice barycoords vert_to_tet out).vert_to_tet.length
      = vert_to_tet.length := by
  unfold second_pass
  apply foldl_invariant (fun st : Pass2 => st.barycoords.length = barycoords.length ∧
    st.vert_to_tet.length = vert_to_tet.length)
  · intro st i h
    unfold pass2_step
    dsimp only
    rw [List.length_set, List.length_set]
    exact h
  · exact ⟨rfl, rfl⟩

/-- The final check finds no offending vertex exactly when every tet index from
the current position on is in `[0, n_tets)`. -/
theorem check_v2t_eq_none_iff (n_tets : Int) (l : List Int) (k : Nat) :
    check_v2t n_tets l k = none ↔ ∀ i, i < l.length → 0 ≤ l.getD i 0 ∧ l.getD i 0 < n_tets := by
  induction l generalizing k with
  | nil => simp [check_v2t]
  | cons v rest ih =>
    unfold check_v2t
    by_cases hv : v < 0 ∨ v ≥ n_tets
    · rw [if_pos hv]
      constructor
      · intro h; exact absurd h (by simp)
      · intro h
        have h0 := h 0 (by simp)
        simp only [List.getD_cons_zero] at h0
        rcases hv with hv | hv
        · exact absurd h0.1 (not_le.mpr hv)
        · exact absurd h0.2 (not_lt.mpr hv)
    · rw [if_neg hv, ih (k + 1)]
      rw [not_or, not_lt, not_le] at hv
      constructor
      · intro h i hi
        cases i with
        | zero => simpa using hv
        | succ j =>
          simp only [List.getD_cons_succ]
          exact h j (by simpa using hi)
      · intro h i hi
        have := h (i + 1) (by simpa using hi)
        simpa only [List.getD_cons_succ] using this

/-- The return value of lines 146-229 is `true` exactly when every final
`vert_to_tet[i]` is in range of the final lattice tets. -/
theorem build_mapping_true_iff (env : Env) (s : EmbeddedMesh) (verts : List Vec3f)
    (tets : List Vec4i) :
    (build_mapping env s verts tets).2.vert_to_tet.length = s.embedded.vertices.length ∧
    ((build_mapping env s verts tets).1 = true ↔
      ∀ i, i < (build_mapping env s verts tets).2.vert_to_tet.length →
        0 ≤ (build_mapping env s verts tets).2.vert_to_tet.getD i 0 ∧
        (build_mapping env s verts tets).2.vert_to_tet.getD i 0 <
          ((build_mapping env s verts tets).2.lattice.tets.length : Int)) := by
  unfold build_mapping finish_mapping
  dsimp only
  split
  · rename_i msg hmsg
    dsimp only
    refine ⟨?_, ?_⟩
    · rw [(second_pass_lengths _ _ _ _ _ _).2, (first_pass_lengths _ _ _ _ _ _).2.1]
    · constructor
      · intro h; exact absurd h (by simp)
      · intro h
        rw [(check_v2t_eq_none_iff _ _ 0).mpr h] at hmsg
        exact absurd hmsg (by simp)
  · rename_i hnone
    dsimp only
    refine ⟨?_, ?_⟩
    · rw [(second_pass_lengths _ _ _ _ _ _).2, (first_pass_lengths _ _ _ _ _ _).2.1]
    · constructor
      · intro _
        exact (check_v2t_eq_none_iff _ _ 0).mp hnone
      · intro _; rfl

/-- For `tess ≠ 0`, `gen_lattice` is lines 146-229 run on the generated grid. -/
theorem gen_lattice_eq (env : Env) (tess : Int) (s : EmbeddedMesh) (h : tess ≠ 0) :
    gen_lattice env tess s =
      (gen_grid (grid_bounds s.embedded.vertices tess).1
        (grid_bounds s.embedded.vertices tess).2.1
        (grid_bounds s.embedded.vertices tess).2.2).map
          (fun grid => build_mapping env s grid.1 grid.2) := by
  unfold gen_lattice
  rw [if_neg h]

/-- C1: for every embedded mesh and every `tess ≥ 1` (whatever the prior contents
of the lattice and of the mapping arrays, empty ones included), `gen_lattice`
returns, `vert_to_tet` then has one entry per embedded vertex, and the value
returned is `true` if and only if every `vert_to_tet[i]` satisfies
`0 ≤ vert_to_tet[i] < lattice.tets.size()` at the end of the call. -/
theorem gen_lattice_true_iff_in_range (env : Env) (tess : Int) (s : EmbeddedMesh)
    (h : 1 ≤ tess) :
    ∃ b s', gen_lattice env tess s = some (b, s') ∧
      s'.vert_to_tet.length = s.embedded.vertices.length ∧
      (b = true ↔ ∀ i, i < s'.vert_to_tet.length →
        0 ≤ s'.vert_to_tet.getD i 0 ∧ s'.vert_to_tet.getD i 0 < (s'.lattice.tets.length : Int)) := by
  obtain ⟨grid, hgrid⟩ := grid_bounds_total s.embedded.vertices tess h
  refine ⟨(build_mapping env s grid.1 grid.2).1, (build_mapping env s grid.1 grid.2).2, ?_,
    build_mapping_true_iff env s grid.1 grid.2⟩
  rw [gen_lattice_eq env tess s (by omega), hgrid]
  rfl

/-- An instance of C1: `tess = 1` on a single-vertex surface. -/
theorem gen_lattice_true_iff_in_range_witness :
    (1 : Int) ≤ 1 ∧
    ∃ b s', gen_lattice env_zero 1 one_point = some (b, s') ∧
      s'.vert_to_tet.length = one_point.embedded.vertices.length ∧
      (b = true ↔ ∀ i, i < s'.vert_to_tet.length →
        0 ≤ s'.vert_to_tet.getD i 0 ∧ s'.vert_to_tet.getD i 0 < (s'.lattice.tets.length : Int)) :=
  ⟨by decide, gen_lattice_true_iff_in_range env_zero 1 one_point (by decide)⟩

end mcl

namespace mcl

/-! ## `gen_lattice`: what of the prior state survives -/

/-- Two loops over `0..n-1` started in related states end in related states, when
each step carries the relation from `k` to `k + 1`. -/
theorem foldl_range_rel {σ τ : Type} (R : Nat → σ → τ → Prop) (f : σ → Nat → σ)
    (g : τ → Nat → τ) (n : Nat)
    (hstep : ∀ k a b, k < n → R k a b → R (k + 1) (f a k) (g b k)) (a : σ) (b : τ)
    (h0 : R 0 a b) :
    R n ((List.range n).foldl f a) ((List.range n).foldl g b) := by
  induction n with
  | zero => exact h0
  | succ n ih =>
    rw [List.range_succ, List.foldl_append, List.foldl_append, List.foldl_cons, List.foldl_nil,
      List.foldl_cons, List.foldl_nil]
    exact hstep n _ _ (Nat.lt_succ_self n)
      (ih (fun k a b hk h => hstep k a b (Nat.lt_succ_of_lt hk) h))

/-- A point that some tet of the scanned list contains gets its entry overwritten:
the result of the scan does not depend on the entry's prior content. -/
theorem localize_covered (env : Env) (verts : List Vec3f) (point : Vec3f) (tets : List Vec4i)
    (hcov : ∃ tet ∈ tets, env.point_in_tet point (vget env verts tet.i0)
      (vget env verts tet.i1) (vget env verts tet.i2) (vget env verts tet.i3) = true)
    (j : Int) (acc acc' : Vec4f × Int) :
    localize env verts point tets j acc = localize env verts point tets j acc' := by
  induction tets generalizing j acc acc' with
  | nil => obtain ⟨tet, hmem, _⟩ := hcov; exact absurd hmem (List.not_mem_nil _)
  | cons t rest ih =>
    unfold localize
    by_cases ht : env.point_in_tet point (vget env verts t.i0) (vget env verts t.i1)
        (vget env verts t.i2) (vget env verts t.i3) = true
    · rw [if_pos ht, if_pos ht]
    · rw [if_neg ht, if_neg ht]
      apply ih
      obtain ⟨tet, hmem, hin⟩ := hcov
      rcases List.mem_cons.mp hmem with rfl | hmem
      · exact absurd hin ht
      · exact ⟨tet, hmem, hin⟩

/-- When every embedded vertex lies in some generated tet, the first pass does
not depend on the prior contents of `barycoords` and `vert_to_tet`. -/
theorem first_pass_covered (env : Env) (points verts : List Vec3f) (tets : List Vec4i)
    (hcov : ∀ p ∈ points, ∃ tet ∈ tets, env.point_in_tet p (vget env verts tet.i0)
      (vget env verts tet.i1) (vget env verts tet.i2) (vget env verts tet.i3) = true)
    (bc bc' : List Vec4f) (v2t v2t' : List Int) :
    first_pass env points verts tets bc v2t = first_pass env points verts tets bc' v2t' := by
  have hrel := foldl_range_rel
    (fun (k : Nat) (a b : Pass1) =>
      a.barycoords.length = points.length ∧ b.barycoords.length = points.length ∧
      a.vert_to_tet.length = points.length ∧ b.vert_to_tet.length = points.length ∧
      (∀ i, i < k → a.barycoords[i]? = b.barycoords[i]?) ∧
      (∀ i, i < k → a.vert_to_tet[i]? = b.vert_to_tet[i]?) ∧
      a.num_v_in_t = b.num_v_in_t)
    (pass1_step env points verts tets) (pass1_step env points verts tets) points.length
    (by
      intro k a b hk ⟨ha, hb, hva, hvb, hbc, hv, hnum⟩
      have hp : points.getD k default ∈ points := by
        rw [List.getD_eq_getElem?_getD, List.getElem?_eq_getElem hk]
        exact List.getElem_mem hk
      have hloc := localize_covered env verts (points.getD k default) tets
        (hcov _ hp) 0 (a.barycoords.getD k default, a.vert_to_tet.getD k 0)
        (b.barycoords.getD k default, b.vert_to_tet.getD k 0)
      have hset : ∀ {α : Type} (l l' : List α) (x : α), l.length = points.length →
          l'.length = points.length → (∀ i, i < k → l[i]? = l'[i]?) →
          ∀ i, i < k + 1 → (l.set k x)[i]? = (l'.set k x)[i]? := by
        intro α l l' x hl hl' hag i hi
        by_cases hik : k = i
        · subst hik
          rw [List.getElem?_set_self (hl ▸ hk), List.getElem?_set_self (hl' ▸ hk)]
        · rw [List.getElem?_set_ne hik, List.getElem?_set_ne hik]
          exact hag i (by omega)
      unfold pass1_step
      dsimp only
      rw [hloc]
      split
      · dsimp only
        refine ⟨?_, ?_, ?_, ?_, hset _ _ _ ha hb hbc, hset _ _ _ hva hvb hv, hnum⟩ <;>
          simp [*]
      · dsimp only
        refine ⟨?_, ?_, ?_, ?_, hset _ _ _ ha hb hbc, hset _ _ _ hva hvb hv, ?_⟩
        · simp [*]
        · simp [*]
        · simp [*]
        · simp [*]
        · rw [hnum])
    ⟨resize bc points.length ⟨-1, -1, -1, -1⟩, resize v2t points.length (-1),
      List.replicate tets.length 0⟩
    ⟨resize bc' points.length ⟨-1, -1, -1, -1⟩, resize v2t' points.length (-1),
      List.replicate tets.length 0⟩
    ⟨resize_length _ _ _, resize_length _ _ _, resize_length _ _ _, resize_length _ _ _,
      fun i hi => absurd hi (Nat.not_lt_zero i), fun i hi => absurd hi (Nat.not_lt_zero i), rfl⟩
  obtain ⟨ha, hb, hva, hvb, hbc, hv, hnum⟩ := hrel
  have e1 : (first_pass env points verts tets bc v2t).barycoords =
      (first_pass env points verts tets bc' v2t').barycoords := by
    apply List.ext_getElem?
    intro i
    by_cases hi : i < points.length
    · exact hbc i hi
    · rw [List.getElem?_eq_none, List.getElem?_eq_none]
      · exact (le_of_eq hb).trans (not_lt.mp hi)
      · exact (le_of_eq ha).trans (not_lt.mp hi)
  have e2 : (first_pass env points verts tets bc v2t).vert_to_tet =
      (first_pass env points verts tets bc' v2t').vert_to_tet := by
    apply List.ext_getElem?
    intro i
    by_cases hi : i < points.length
    · exact hv i hi
    · rw [List.getElem?_eq_none, List.getElem?_eq_none]
      · exact (le_of_eq hvb).trans (not_lt.mp hi)
      · exact (le_of_eq hva).trans (not_lt.mp hi)
  have e3 : (first_pass env points verts tets bc v2t).num_v_in_t =
      (first_pass env points verts tets bc' v2t').num_v_in_t := hnum
  generalize first_pass env points verts tets bc v2t = A at e1 e2 e3 ⊢
  generalize first_pass env points verts tets bc' v2t' = B at e1 e2 e3 ⊢
  cases A; cases B
  simp only at e1 e2 e3
  rw [e1, e2, e3]

/-- The weights and the tet index found by the second scan do not depend on the
messages printed so far. -/
theorem relocalize_mapping (env : Env) (verts : List Vec3f) (point : Vec3f)
    (tets : List Vec4i) (j : Int) (b : Vec4f) (v : Int) (o o' : List Msg) :
    (relocalize env verts point tets j (b, v, o)).1 =
      (relocalize env verts point tets j (b, v, o')).1 ∧
    (relocalize env verts point tets j (b, v, o)).2.1 =
      (relocalize env verts point tets j (b, v, o')).2.1 := by
  induction tets generalizing j b v o o' with
  | nil => exact ⟨rfl, rfl⟩
  | cons t rest ih =>
    unfold relocalize
    dsimp only
    split
    · split
      · exact ih _ _ _ _ _
      · exact ih _ _ _ _ _
    · exact ih _ _ _ _ _

/-- The arrays written by the second pass do not depend on the messages printed
before it. -/
theorem second_pass_mapping (env : Env) (points : List Vec3f) (lattice : TetMesh)
    (bc : List Vec4f) (v2t : List Int) (out out' : List Msg) :
    (second_pass env points lattice bc v2t out).barycoords =
      (second_pass env points lattice bc v2t out').barycoords ∧
    (second_pass env points lattice bc v2t out).vert_to_tet =
      (second_pass env points lattice bc v2t out').vert_to_tet := by
  unfold second_pass
  apply foldl_range_rel
    (fun (_ : Nat) (a b : Pass2) =>
      a.barycoords = b.barycoords ∧ a.vert_to_tet = b.vert_to_tet)
    (pass2_step env points lattice) (pass2_step env points lattice) points.length
  · intro k a b _ ⟨h1, h2⟩
    unfold pass2_step
    dsimp only
    have hre := relocalize_mapping env lattice.vertices (points.getD k default) lattice.tets 0
      (a.barycoords.getD k default) (a.vert_to_tet.getD k 0) a.out b.out
    rw [← h1, ← h2, hre.1, hre.2]
    exact ⟨rfl, rfl⟩
  · exact ⟨rfl, rfl⟩

/-- Lines 146-229 give the same return value, lattice and mapping for two
embeddings with the same embedded vertices, whenever every embedded vertex
lies in some generated tet. -/
theorem build_mapping_covered (env : Env) (s s' : EmbeddedMesh) (verts : List Vec3f)
    (tets : List Vec4i) (hemb : s.embedded.vertices = s'.embedded.vertices)
    (hcov : ∀ p ∈ s.embedded.vertices, ∃ tet ∈ tets, env.point_in_tet p (vget env verts tet.i0)
      (vget env verts tet.i1) (vget env verts tet.i2) (vget env verts tet.i3) = true) :
    mapping_of (build_mapping env s verts tets) = mapping_of (build_mapping env s' verts tets) := by
  have h1 := first_pass_covered env s.embedded.vertices verts tets hcov
    s.barycoords s'.barycoords s.vert_to_tet s'.vert_to_tet
  unfold build_mapping finish_mapping mapping_of
  dsimp only
  rw [← hemb, ← h1]
  generalize first_pass env s.embedded.vertices verts tets s.barycoords s.vert_to_tet = P
  generalize TetMesh.refine _ = L
  have h2 := second_pass_mapping env s.embedded.vertices L P.barycoords P.vert_to_tet
    s.out s'.out
  rw [← h2.1, ← h2.2]
  generalize check_v2t _ _ 0 = c
  cases c <;> rfl

theorem all_localized_spec (env : Env) (points : List Vec3f) (tess : Int)
    (h : all_localized env points tess = true) :
    ∃ grid, gen_grid (grid_bounds points tess).1 (grid_bounds points tess).2.1
        (grid_bounds points tess).2.2 = some grid ∧
      ∀ p ∈ points, ∃ tet ∈ grid.2, env.point_in_tet p (vget env grid.1 tet.i0)
        (vget env grid.1 tet.i1) (vget env grid.1 tet.i2) (vget env grid.1 tet.i3) = true := by
  unfold all_localized at h
  dsimp only at h
  split at h
  · exact absurd h (by simp)
  · rename_i grid hgrid
    refine ⟨grid, hgrid, ?_⟩
    intro p hp
    have := List.all_eq_true.mp h p hp
    exact List.any_eq_true.mp this

/-- C7 (amended): `gen_lattice` discards the prior lattice and rebuilds the mapping
entry of every embedded vertex that lies in at least one generated tet.  For
two embeddings holding the same embedded surface and called with the same
`tess`, with arbitrary different prior contents of lattice, barycoords and
vert_to_tet, it produces the same return value, lattice, barycoords and
vert_to_tet, provided every embedded vertex lies in at least one generated tet. -/
theorem gen_lattice_rebuilds_localized (env : Env) (tess : Int) (s s' : EmbeddedMesh)
    (hemb : s.embedded = s'.embedded)
    (hcov : all_localized env s.embedded.vertices tess = true) :
    (gen_lattice env tess s).map mapping_of = (gen_lattice env tess s').map mapping_of := by
  by_cases ht : tess = 0
  · unfold gen_lattice
    rw [if_pos ht, if_pos ht]
  · obtain ⟨grid, hgrid, hc⟩ := all_localized_spec env _ tess hcov
    have hv : s.embedded.vertices = s'.embedded.vertices := by rw [hemb]
    rw [gen_lattice_eq env tess s ht, gen_lattice_eq env tess s' ht, ← hv, hgrid]
    simp only [Option.map_some']
    rw [build_mapping_covered env s s' grid.1 grid.2 hv hc]

/-- An instance of C7 (amended): a two-vertex surface with `tess = 2`, once fresh and
once with a prior lattice and prior mapping arrays. -/
theorem gen_lattice_rebuilds_localized_witness :
    segment.embedded = stale_segment.embedded ∧
    all_localized env_far segment.embedded.vertices 2 = true ∧
    (gen_lattice env_far 2 segment).map mapping_of =
      (gen_lattice env_far 2 stale_segment).map mapping_of := by
  have h : all_localized env_far segment.embedded.vertices 2 = true := by decide!
  exact ⟨rfl, h, gen_lattice_rebuilds_localized env_far 2 segment stale_segment rfl h⟩

/-- C7 (counterexample): two embeddings hold the same single-vertex surface; one has
empty mapping arrays, the other arrays of length one.  `gen_lattice(1)` leaves
different `barycoords` in them: the prior entry survives. -/
theorem gen_lattice_keeps_stale_entries :
    one_point.embedded = stale_point.embedded ∧
    (gen_lattice env_zero 1 one_point).map mapping_of =
      some (false, ⟨[], []⟩, [⟨-1, -1, -1, -1⟩], [-1]) ∧
    (gen_lattice env_zero 1 stale_point).map mapping_of =
      some (false, ⟨[], []⟩, [⟨1 / 4, 1 / 4, 1 / 4, 1 / 4⟩], [-1]) ∧
    (gen_lattice env_zero 1 one_point).map mapping_of ≠
      (gen_lattice env_zero 1 stale_point).map mapping_of :=
  ⟨rfl, by decide!, by decide!, by decide!⟩

end mcl

namespace mcl

/-! ## `gen_lattice`: the lattice after a failure -/

/-- A point that no tet of the scanned list contains keeps its entry. -/
theorem localize_uncovered (env : Env) (verts : List Vec3f) (point : Vec3f) (tets : List Vec4i)
    (hnone : ∀ tet ∈ tets, env.point_in_tet point (vget env verts tet.i0)
      (vget env verts tet.i1) (vget env verts tet.i2) (vget env verts tet.i3) = false)
    (j : Int) (acc : Vec4f × Int) :
    localize env verts point tets j acc = acc := by
  induction tets generalizing j with
  | nil => rfl
  | cons t rest ih =>
    unfold localize
    rw [hnone t (List.mem_cons_self _ _)]
    simp only [Bool.false_eq_true, if_false]
    exact ih (fun tet h => hnone tet (List.mem_cons_of_mem _ h)) (j + 1)

/-- Writing back the value just read leaves a list as it is. -/
theorem set_getD_self {α : Type} (l : List α) (i : Nat) (d : α) : l.set i (l.getD i d) = l := by
  apply List.ext_getElem?
  intro k
  rw [List.getElem?_set]
  split
  · rename_i hik
    subst hik
    split
    · rename_i hlt
      rw [List.getD_eq_getElem?_getD, List.getElem?_eq_getElem hlt]
      rfl
    · rename_i hge
      exact (List.getElem?_eq_none (not_lt.mp hge)).symm
  · rfl

/-- A property kept by every step `k < n` of a loop over `0..n-1` holds at its end. -/
theorem foldl_range_invariant {σ : Type} (P : σ → Prop) (f : σ → Nat → σ) (n : Nat)
    (hstep : ∀ st k, k < n → P st → P (f st k)) (a : σ) (h0 : P a) :
    P ((List.range n).foldl f a) :=
  foldl_range_rel (fun _ st (_ : Unit) => P st) f (fun u _ => u) n
    (fun k st _ hk h => hstep st k hk h) a () h0

/-- When no embedded vertex lies in a generated tet and the mapping entries it
starts from are negative, the first pass changes nothing and counts nothing. -/
theorem first_pass_uncovered (env : Env) (points verts : List Vec3f) (tets : List Vec4i)
    (hnone : ∀ p ∈ points, ∀ tet ∈ tets, env.point_in_tet p (vget env verts tet.i0)
      (vget env verts tet.i1) (vget env verts tet.i2) (vget env verts tet.i3) = false)
    (bc : List Vec4f) (v2t : List Int) (hneg : ∀ v ∈ v2t, v < 0) :
    first_pass env points verts tets bc v2t =
      ⟨resize bc points.length ⟨-1, -1, -1, -1⟩, resize v2t points.length (-1),
        List.replicate tets.length 0⟩ := by
  have hneg' : ∀ v ∈ resize v2t points.length (-1), v < 0 := by
    intro v hv
    unfold resize at hv
    rcases List.mem_append.mp hv with h | h
    · exact hneg v (List.mem_of_mem_take h)
    · rw [(List.mem_replicate.mp h).2]; decide
  unfold first_pass
  dsimp only
  apply foldl_range_invariant (fun st : Pass1 => st = ⟨resize bc points.length ⟨-1, -1, -1, -1⟩,
    resize v2t points.length (-1), List.replicate tets.length 0⟩)
  · intro st i hi hst
    subst hst
    unfold pass1_step
    dsimp only
    have hp : points.getD i default ∈ points := by
      rw [List.getD_eq_getElem?_getD, List.getElem?_eq_getElem hi]
      exact List.getElem_mem hi
    rw [localize_uncovered env verts _ tets (hnone _ hp)]
    dsimp only
    have hlt : (resize v2t points.length (-1)).getD i 0 < 0 := by
      have hil : i < (resize v2t points.length (-1)).length := by
        rw [resize_length]; exact hi
      rw [List.getD_eq_getElem?_getD, List.getElem?_eq_getElem hil]
      exact hneg' _ (List.getElem_mem hil)
    rw [if_pos hlt, set_getD_self, set_getD_self]
  · rfl

theorem prune_zeros (tets : List Vec4i) (n : Nat) : prune tets (List.replicate n 0) = [] := by
  induction tets generalizing n with
  | nil => cases n <;> rfl
  | cons t rest ih =>
    cases n with
    | zero => rfl
    | succ m =>
      rw [List.replicate_succ]
      unfold prune
      rw [if_neg (by decide)]
      exact ih m

theorem refine_no_tets (verts : List Vec3f) : TetMesh.refine ⟨verts, []⟩ = ⟨[], []⟩ := by
  unfold TetMesh.refine
  simp [vertex_used]

/-- With no tets in the lattice the second pass changes no mapping entry. -/
theorem second_pass_no_tets (env : Env) (points verts : List Vec3f)
    (bc : List Vec4f) (v2t : List Int) (out : List Msg) :
    second_pass env points ⟨verts, []⟩ bc v2t out = ⟨bc, v2t, out⟩ := by
  unfold second_pass
  apply foldl_invariant (fun st : Pass2 => st = ⟨bc, v2t, out⟩)
  · intro st i hst
    subst hst
    unfold pass2_step
    simp only [relocalize]
    rw [set_getD_self, set_getD_self]
  · rfl

theorem none_localized_spec (env : Env) (points : List Vec3f) (tess : Int)
    (h : none_localized env points tess = true) :
    ∃ grid, gen_grid (grid_bounds points tess).1 (grid_bounds points tess).2.1
        (grid_bounds points tess).2.2 = some grid ∧
      ∀ p ∈ points, ∀ tet ∈ grid.2, env.point_in_tet p (vget env grid.1 tet.i0)
        (vget env grid.1 tet.i1) (vget env grid.1 tet.i2) (vget env grid.1 tet.i3) = false := by
  unfold none_localized at h
  dsimp only at h
  split at h
  · exact absurd h (by simp)
  · rename_i grid hgrid
    refine ⟨grid, hgrid, ?_⟩
    intro p hp tet htet
    have := List.all_eq_true.mp (List.all_eq_true.mp h p hp) tet htet
    simpa using this

/-- C8 (amended): `gen_lattice` clears the lattice at its start only, and a failure
clears nothing.  What is guaranteed is this: when no embedded vertex lies in a
generated tet (for instance because no tet was generated) and the prior
`vert_to_tet` entries are negative or absent, then for a surface with at least
one vertex `gen_lattice` returns `false` and the lattice is empty on return
(no vertices, no tets). -/
theorem gen_lattice_unlocalized_lattice_empty (env : Env) (tess : Int) (s : EmbeddedMesh)
    (ht : tess ≠ 0) (hnv : s.embedded.vertices ≠ [])
    (hneg : ∀ v ∈ s.vert_to_tet, v < 0)
    (hnone : none_localized env s.embedded.vertices tess = true) :
    ∃ s', gen_lattice env tess s = some (false, s') ∧ s'.lattice = ⟨[], []⟩ := by
  obtain ⟨grid, hgrid, hn⟩ := none_localized_spec env _ tess hnone
  rw [gen_lattice_eq env tess s ht, hgrid]
  simp only [Option.map_some']
  unfold build_mapping finish_mapping
  dsimp only
  rw [first_pass_uncovered env _ grid.1 grid.2 hn _ _ hneg]
  dsimp only
  rw [prune_zeros]
  have hcl : ({ s.lattice.clear with vertices := grid.1, tets := [] } : TetMesh) =
      ⟨grid.1, []⟩ := rfl
  rw [hcl, refine_no_tets, second_pass_no_tets]
  dsimp only
  obtain ⟨p, rest, hp⟩ := List.exists_cons_of_ne_nil hnv
  have hchk : ∃ msg, check_v2t ((([] : List Vec4i).length : Nat) : Int)
      (resize s.vert_to_tet s.embedded.vertices.length (-1)) 0 = some msg := by
    have hlen := resize_length s.vert_to_tet s.embedded.vertices.length (-1 : Int)
    rw [hp] at hlen ⊢
    generalize resize s.vert_to_tet (p :: rest).length (-1) = l at hlen
    cases l with
    | nil => simp at hlen
    | cons v vs =>
      unfold check_v2t
      have : v < 0 ∨ v ≥ ((([] : List Vec4i).length : Nat) : Int) := by
        simp only [List.length_nil, Nat.cast_zero]
        exact lt_or_le v 0
      rw [if_pos this]
      exact ⟨_, rfl⟩
  obtain ⟨msg, hmsg⟩ := hchk
  rw [hmsg]
  exact ⟨_, rfl, rfl⟩

/-- An instance of C8 (amended): a single-vertex surface, for which no tet is generated. -/
theorem gen_lattice_unlocalized_lattice_empty_witness :
    (1 : Int) ≠ 0 ∧ one_point.embedded.vertices ≠ [] ∧
    (∀ v ∈ one_point.vert_to_tet, v < 0) ∧
    none_localized env_far one_point.embedded.vertices 1 = true ∧
    ∃ s', gen_lattice env_far 1 one_point = some (false, s') ∧ s'.lattice = ⟨[], []⟩ := by
  have h1 : (1 : Int) ≠ 0 := by decide
  have h2 : one_point.embedded.vertices ≠ [] := by decide
  have h3 : ∀ v ∈ one_point.vert_to_tet, v < 0 := by decide
  have h4 : none_localized env_far one_point.embedded.vertices 1 = true := by decide!
  exact ⟨h1, h2, h3, h4, gen_lattice_unlocalized_lattice_empty env_far 1 one_point h1 h2 h3 h4⟩

end mcl

namespace mcl

/-! ## `gen_lattice`: concrete runs -/

/-- C8 (counterexample): with the strict containment test, `gen_lattice(2)` on a
triangle whose third vertex is a corner of grid cubes returns `false`, and the
lattice on return holds two tets and eight vertices: it is not cleared. -/
theorem gen_lattice_failure_keeps_lattice :
    (gen_lattice env_strict 2 flat_triangle).map
        (fun r => (r.1, r.2.lattice.vertices.length, r.2.lattice.tets, r.2.vert_to_tet)) =
      some (false, 8, [⟨0, 1, 3, 2⟩, ⟨4, 5, 7, 6⟩], [0, 1, -1]) := by
  decide!

/-- When the last tet of the scanned list contains the point, the scan ends with
the weights for that tet and with its index. -/
theorem localize_last (env : Env) (verts : List Vec3f) (point : Vec3f) (init : List Vec4i)
    (last : Vec4i)
    (h : env.point_in_tet point (vget env verts last.i0) (vget env verts last.i1)
      (vget env verts last.i2) (vget env verts last.i3) = true) (j : Int) (acc : Vec4f × Int) :
    localize env verts point (init ++ [last]) j acc =
      (env.barycoords point (vget env verts last.i0) (vget env verts last.i1)
        (vget env verts last.i2) (vget env verts last.i3), j + init.length) := by
  induction init generalizing j acc with
  | nil =>
    simp only [List.nil_append, List.length_nil, Nat.cast_zero, add_zero]
    unfold localize
    rw [if_pos h]
    rfl
  | cons t rest ih =>
    have e : j + ((t :: rest).length : Int) = j + 1 + (rest.length : Int) := by
      simp only [List.length_cons, Nat.cast_add, Nat.cast_one]
      ring
    rw [e, List.cons_append]
    unfold localize
    split
    · exact ih _ _
    · exact ih _ _

theorem set_length_append {α : Type} (l : List α) (a b : α) :
    (l ++ [a]).set l.length b = l ++ [b] := by
  induction l with
  | nil => rfl
  | cons x xs ih => simp only [List.cons_append, List.length_cons, List.set_cons_succ, ih]

theorem getD_length_append {α : Type} (l : List α) (a d : α) :
    (l ++ [a]).getD l.length d = a := by
  induction l with
  | nil => rfl
  | cons x xs ih => simpa only [List.cons_append, List.length_cons, List.getD_cons_succ] using ih

/-- When the last generated tet contains every embedded vertex, the first pass maps
every vertex to it. -/
theorem first_pass_last (env : Env) (points verts : List Vec3f) (init : List Vec4i)
    (last : Vec4i)
    (hall : ∀ p ∈ points, env.point_in_tet p (vget env verts last.i0) (vget env verts last.i1)
      (vget env verts last.i2) (vget env verts last.i3) = true)
    (bc : List Vec4f) (v2t : List Int) :
    first_pass env points verts (init ++ [last]) bc v2t =
      ⟨points.map (fun p => env.barycoords p (vget env verts last.i0) (vget env verts last.i1)
          (vget env verts last.i2) (vget env verts last.i3)),
        List.replicate points.length (init.length : Int),
        List.replicate init.length 0 ++ [(points.length : Int)]⟩ := by
  have hrel := foldl_range_rel
    (fun (k : Nat) (a : Pass1) (_ : Unit) =>
      a.barycoords.length = points.length ∧ a.vert_to_tet.length = points.length ∧
      (∀ i, i < k → a.barycoords[i]? = some (env.barycoords (points.getD i default)
        (vget env verts last.i0) (vget env verts last.i1)
        (vget env verts last.i2) (vget env verts last.i3))) ∧
      (∀ i, i < k → a.vert_to_tet[i]? = some (init.length : Int)) ∧
      a.num_v_in_t = List.replicate init.length 0 ++ [(k : Int)])
    (pass1_step env points verts (init ++ [last])) (fun u _ => u) points.length
    (by
      intro k a _ hk ⟨ha, hva, hbc, hv, hnum⟩
      have hp : points.getD k default ∈ points := by
        rw [List.getD_eq_getElem?_getD, List.getElem?_eq_getElem hk]
        exact List.getElem_mem hk
      have hloc := localize_last env verts (points.getD k default) init last (hall _ hp) 0
        (a.barycoords.getD k default, a.vert_to_tet.getD k 0)
      have hset : ∀ {α : Type} (l : List α) (x : α) (f : Nat → α), l.length = points.length →
          (∀ i, i < k → l[i]? = some (f i)) → x = f k →
          ∀ i, i < k + 1 → (l.set k x)[i]? = some (f i) := by
        intro α l x f hl hag hx i hi
        by_cases hik : k = i
        · subst hik
          rw [List.getElem?_set_self (hl ▸ hk), hx]
        · rw [List.getElem?_set_ne hik]
          exact hag i (by omega)
      unfold pass1_step
      dsimp only
      rw [hloc]
      dsimp only
      have hnn : ¬ ((0 : Int) + (init.length : Int) < 0) := by omega
      rw [if_neg hnn]
      dsimp only
      refine ⟨by simp [ha], by simp [hva], hset _ _ _ ha hbc rfl,
        hset _ _ (fun _ => (0 : Int) + (init.length : Int)) hva
          (by simpa using hv) rfl |> (by simpa using ·), ?_⟩
      have htn : ((0 : Int) + (init.length : Int)).toNat = (List.replicate init.length (0 : Int)).length := by
        simp
      rw [hnum, htn, getD_length_append, set_length_append]
      simp)
    ⟨resize bc points.length ⟨-1, -1, -1, -1⟩, resize v2t points.length (-1),
      List.replicate (init ++ [last]).length 0⟩ ()
    ⟨resize_length _ _ _, resize_length _ _ _,
      fun i hi => absurd hi (Nat.not_lt_zero i), fun i hi => absurd hi (Nat.not_lt_zero i), by
        simp [List.replicate_succ']⟩
  obtain ⟨ha, hva, hbc, hv, hnum⟩ := hrel
  have e1 : (first_pass env points verts (init ++ [last]) bc v2t).barycoords =
      points.map (fun p => env.barycoords p (vget env verts last.i0) (vget env verts last.i1)
          (vget env verts last.i2) (vget env verts last.i3)) := by
    apply List.ext_getElem?
    intro i
    by_cases hi : i < points.length
    · rw [List.getElem?_map, List.getElem?_eq_getElem hi]
      have := hbc i hi
      rw [List.getD_eq_getElem?_getD, List.getElem?_eq_getElem hi] at this
      exact this
    · rw [List.getElem?_eq_none, List.getElem?_eq_none]
      · rw [List.length_map]; exact not_lt.mp hi
      · exact (le_of_eq ha).trans (not_lt.mp hi)
  have e2 : (first_pass env points verts (init ++ [last]) bc v2t).vert_to_tet =
      List.replicate points.length (init.length : Int) := by
    apply List.ext_getElem?
    intro i
    by_cases hi : i < points.length
    · refine (hv i hi).trans ?_
      rw [List.getElem?_replicate, if_pos hi]
    · rw [List.getElem?_eq_none, List.getElem?_eq_none]
      · rw [List.length_replicate]; exact not_lt.mp hi
      · exact (le_of_eq hva).trans (not_lt.mp hi)
  have e3 : (first_pass env points verts (init ++ [last]) bc v2t).num_v_in_t =
      List.replicate init.length 0 ++ [(points.length : Int)] := hnum
  generalize first_pass env points verts (init ++ [last]) bc v2t = A at e1 e2 e3 ⊢
  cases A
  simp only at e1 e2 e3
  rw [e1, e2, e3]

/-- The grid generated for the unit triangle with `tess = 1`. -/
theorem unit_grid_eq :
    gen_grid (grid_bounds unit_triangle.embedded.vertices 1).1
      (grid_bounds unit_triangle.embedded.vertices 1).2.1
      (grid_bounds unit_triangle.embedded.vertices 1).2.2 = some unit_grid := by
  decide!

/-- That grid has 512 vertices and 320 tets, and its last tet indexes vertices
514, 519, 517 and 518. -/
theorem unit_grid_last :
    unit_grid.1.length = 512 ∧ unit_grid.2.length = 320 ∧
    unit_grid.2 = unit_grid.2.dropLast ++ [⟨514, 519, 517, 518⟩] := by
  decide!

/-- On the unit triangle, `gen_lattice(1)` is lines 175-229 run from a first pass
that maps every vertex to the last generated tet, whenever that tet contains
the three vertices. -/
theorem unit_triangle_captured (env : Env)
    (hall : ∀ p ∈ unit_triangle.embedded.vertices,
      env.point_in_tet p (vget env unit_grid.1 514) (vget env unit_grid.1 519)
        (vget env unit_grid.1 517) (vget env unit_grid.1 518) = true) :
    gen_lattice env 1 unit_triangle =
      some (finish_mapping env unit_triangle unit_grid.1 unit_grid.2
        ⟨unit_triangle.embedded.vertices.map (fun p => env.barycoords p
            (vget env unit_grid.1 514) (vget env unit_grid.1 519)
            (vget env unit_grid.1 517) (vget env unit_grid.1 518)),
          List.replicate 3 (unit_grid.2.dropLast.length : Int),
          List.replicate unit_grid.2.dropLast.length 0 ++ [3]⟩) := by
  have h := first_pass_last env unit_triangle.embedded.vertices unit_grid.1
    unit_grid.2.dropLast ⟨514, 519, 517, 518⟩ hall unit_triangle.barycoords
    unit_triangle.vert_to_tet
  rw [← unit_grid_last.2.2] at h
  rw [gen_lattice_eq env 1 unit_triangle (by decide), unit_grid_eq]
  simp only [Option.map_some']
  unfold build_mapping
  rw [h]
  rfl

/-- The run of `gen_lattice(1)` on the unit triangle when memory past the end of
the vertex array reads as zeros. -/
theorem unit_triangle_run :
    gen_lattice env_zero 1 unit_triangle =
      some (true, ⟨unit_triangle.embedded, ⟨[], [⟨2, 7, 5, 6⟩]⟩,
        [⟨0, 0, 0, 0⟩, ⟨0, 0, 0, 0⟩, ⟨0, 0, 0, 0⟩], [0, 0, 0], []⟩) := by
  rw [unit_triangle_captured env_zero (by decide!)]
  decide!

/-- The run of `gen_lattice(1)` on the unit triangle when the memory read by the
last generated tet holds the corners of a large tet. -/
theorem unit_triangle_run_big :
    (gen_lattice env_big 1 unit_triangle).map (fun r => (r.1, r.2.lattice, r.2.vert_to_tet)) =
      some (false, ⟨[], [⟨2, 7, 5, 6⟩]⟩, [319, 319, 319]) := by
  rw [unit_triangle_captured env_big (by decide!)]
  decide!

end mcl

namespace mcl

/-! ## `gen_lattice`: the tets of the last cube index past the generated vertices -/

/-- C2 (the code at the failing input): on the unit triangle with `tess = 1`, when
memory past the end of the generated vertex array reads as zeros,
`gen_lattice` returns `true`, every embedded vertex is mapped to the single
lattice tet `(2,7,5,6)`, none of whose indices is a lattice vertex (the
lattice has no vertex), and every `barycoords[i]` is `(0,0,0,0)`, whose sum is
not within `1e-3` of `1`. -/
theorem gen_lattice_true_with_zero_weights :
    ∃ s', gen_lattice env_zero 1 unit_triangle = some (true, s') ∧
      s'.lattice.vertices = [] ∧ s'.lattice.tets = [⟨2, 7, 5, 6⟩] ∧
      s'.vert_to_tet = [0, 0, 0] ∧
      s'.barycoords = [⟨0, 0, 0, 0⟩, ⟨0, 0, 0, 0⟩, ⟨0, 0, 0, 0⟩] ∧
      ∀ b ∈ s'.barycoords, ¬ (1 - 1 / 1000 ≤ b.sum) := by
  refine ⟨_, unit_triangle_run, rfl, rfl, rfl, rfl, ?_⟩
  intro b hb
  simp only [List.mem_cons, List.mem_singleton, List.not_mem_nil, or_false, or_self] at hb
  subst hb
  norm_num [Vec4f.sum]

/-- C3 (the code at the failing input): after that successful `gen_lattice` the
barycentric combination of embedded vertex 1, localized at `(1,1,1)`, is
`(0,0,0)`; `update_embedded` moves all three embedded vertices to `(0,0,0)`,
and `apply_xform` with the identity reports an unset lattice. -/
theorem gen_lattice_true_then_positions_move :
    ∃ s', gen_lattice env_zero 1 unit_triangle = some (true, s') ∧
      s'.embedded.vertices = [⟨0, 0, 0⟩, ⟨1, 1, 1⟩, ⟨1, 0, 0⟩] ∧
      bary_combo env_zero s'.lattice.vertices (s'.lattice.tets.getD 0 default)
        (s'.barycoords.getD 1 default) = ⟨0, 0, 0⟩ ∧
      (update_embedded env_zero s').embedded.vertices = [⟨0, 0, 0⟩, ⟨0, 0, 0⟩, ⟨0, 0, 0⟩] ∧
      (apply_xform env_zero XForm.identity s').out = [Msg.apply_xform_unset] :=
  ⟨_, unit_triangle_run, rfl, by decide!, by decide!, by decide!⟩

/-- C9 (the code at the failing input): for the unit triangle and `tess = 1` the grid
has 512 vertices and its last tet reads vertices 514, 519, 517, 518.  What
`gen_lattice` returns depends on what is read there: with the corners of a
large tet it returns `false`; with zeros it returns `true` with a lattice that
has a tet but no vertex, so that the bounding box of the lattice vertices is
empty. -/
theorem unit_triangle_reads_past_the_end :
    gen_grid (grid_bounds unit_triangle.embedded.vertices 1).1
      (grid_bounds unit_triangle.embedded.vertices 1).2.1
      (grid_bounds unit_triangle.embedded.vertices 1).2.2 = some unit_grid ∧
    unit_grid.1.length = 512 ∧ unit_grid.2.length = 320 ∧
    unit_grid.2 = unit_grid.2.dropLast ++ [⟨514, 519, 517, 518⟩] ∧
    (gen_lattice env_big 1 unit_triangle).map (fun r => (r.1, r.2.lattice, r.2.vert_to_tet)) =
      some (false, ⟨[], [⟨2, 7, 5, 6⟩]⟩, [319, 319, 319]) ∧
    ∃ s', gen_lattice env_zero 1 unit_triangle = some (true, s') ∧
      s'.lattice.tets = [⟨2, 7, 5, 6⟩] ∧
      s'.lattice.vertices.foldl AABB.extend AABB.empty = AABB.empty :=
  ⟨unit_grid_eq, unit_grid_last.1, unit_grid_last.2.1, unit_grid_last.2.2,
    unit_triangle_run_big, _, unit_triangle_run, rfl, rfl⟩

end mcl

namespace mcl

/-! ## `bounds`, `update_lattice`, `gen_tets` -/

theorem Vec3f.le_refl (a : Vec3f) : a.le a := ⟨le_rfl, le_rfl, le_rfl⟩

theorem Vec3f.le_trans {a b c : Vec3f} (h1 : a.le b) (h2 : b.le c) : a.le c :=
  ⟨h1.1.trans h2.1, h1.2.1.trans h2.2.1, h1.2.2.trans h2.2.2⟩

theorem Vec3f.cwiseMin_le_left (a b : Vec3f) : (a.cwiseMin b).le a :=
  ⟨min_le_left _ _, min_le_left _ _, min_le_left _ _⟩

theorem Vec3f.cwiseMin_le_right (a b : Vec3f) : (a.cwiseMin b).le b :=
  ⟨min_le_right _ _, min_le_right _ _, min_le_right _ _⟩

theorem Vec3f.le_cwiseMax_left (a b : Vec3f) : a.le (a.cwiseMax b) :=
  ⟨le_max_left _ _, le_max_left _ _, le_max_left _ _⟩

theorem Vec3f.le_cwiseMax_right (a b : Vec3f) : b.le (a.cwiseMax b) :=
  ⟨le_max_right _ _, le_max_right _ _, le_max_right _ _⟩

theorem Vec3f.le_cwiseMin {a b c : Vec3f} (h1 : a.le b) (h2 : a.le c) : a.le (b.cwiseMin c) :=
  ⟨le_min h1.1 h2.1, le_min h1.2.1 h2.2.1, le_min h1.2.2 h2.2.2⟩

theorem Vec3f.cwiseMax_le {a b c : Vec3f} (h1 : a.le c) (h2 : b.le c) : (a.cwiseMax b).le c :=
  ⟨max_le h1.1 h2.1, max_le h1.2.1 h2.2.1, max_le h1.2.2 h2.2.2⟩

/-- Extending the smallest box of `ws` by `p` gives the smallest box of `ws ++ [p]`. -/
theorem is_hull_extend (b : AABB) (ws : List Vec3f) (p : Vec3f) (h : b.is_hull ws) :
    (b.extend p).is_hull (ws ++ [p]) := by
  cases b with
  | empty =>
    have hws : ws = [] := h
    subst hws
    refine ⟨by simp, ?_, ?_⟩
    · intro v hv
      have : v = p := by simpa using hv
      subst this
      exact ⟨Vec3f.le_refl _, Vec3f.le_refl _⟩
    · intro lo' hi' hall
      exact hall p (by simp)
  | box lo hi =>
    obtain ⟨_, hin, hmin⟩ := h
    refine ⟨by simp, ?_, ?_⟩
    · intro v hv
      rcases List.mem_append.mp hv with hv | hv
      · exact ⟨Vec3f.le_trans (Vec3f.cwiseMin_le_left _ _) (hin v hv).1,
          Vec3f.le_trans (hin v hv).2 (Vec3f.le_cwiseMax_left _ _)⟩
      · have : v = p := by simpa using hv
        subst this
        exact ⟨Vec3f.cwiseMin_le_right _ _, Vec3f.le_cwiseMax_right _ _⟩
    · intro lo' hi' hall
      have h1 := hmin lo' hi' (fun v hv => hall v (List.mem_append_left _ hv))
      have h2 := hall p (by simp)
      exact ⟨Vec3f.le_cwiseMin h1.1 h2.1, Vec3f.cwiseMax_le h1.2 h2.2⟩

theorem is_hull_foldl (vs ws : List Vec3f) (b : AABB) (h : b.is_hull ws) :
    (vs.foldl AABB.extend b).is_hull (ws ++ vs) := by
  induction vs generalizing ws b with
  | nil => simpa using h
  | cons p rest ih =>
    have := ih (ws ++ [p]) (b.extend p) (is_hull_extend b ws p h)
    simpa using this

/-- The box accumulated over a list of points is their smallest box. -/
theorem is_hull_of_points (vs : List Vec3f) : (vs.foldl AABB.extend AABB.empty).is_hull vs := by
  have h0 : AABB.empty.is_hull [] := rfl
  simpa using is_hull_foldl vs [] AABB.empty h0

/-- C11: `bounds()` is the smallest axis-aligned box containing all lattice vertices
when the lattice has at least one vertex, and otherwise the smallest box
containing all embedded vertices (the empty box when there is none either);
replacing the embedded mesh changes the result only when the lattice has no
vertex. -/
theorem bounds_smallest_box (s : EmbeddedMesh) :
    (bounds s).is_hull
      (if s.lattice.vertices = [] then s.embedded.vertices else s.lattice.vertices) ∧
    ∀ emb : TriangleMesh, bounds { s with embedded := emb } =
      if s.lattice.vertices = [] then emb.vertices.foldl AABB.extend AABB.empty
      else bounds s := by
  by_cases h : s.lattice.vertices = []
  · have h0 : s.lattice.vertices.length = 0 := by rw [h]; rfl
    refine ⟨?_, ?_⟩
    · rw [if_pos h]
      unfold bounds
      rw [if_pos h0]
      exact is_hull_of_points _
    · intro emb
      rw [if_pos h]
      unfold bounds
      rw [if_pos h0]
  · have h0 : ¬ s.lattice.vertices.length = 0 := fun hl => h (List.length_eq_zero.mp hl)
    refine ⟨?_, ?_⟩
    · rw [if_neg h]
      unfold bounds
      rw [if_neg h0]
      exact is_hull_of_points _
    · intro emb
      rw [if_neg h]
      unfold bounds
      rw [if_neg h0, if_neg h0]

/-- C12: `update_lattice` fails unconditionally: for every embedding state it throws
a `runtime_error`, returns no value, and leaves the state (lattice and
mapping arrays included) as it was. -/
theorem update_lattice_throws (s : EmbeddedMesh) :
    (∃ what, (update_lattice s).1 = Except.error (Exn.runtime_error what)) ∧
    (∀ b : Bool, (update_lattice s).1 ≠ Except.ok b) ∧
    (update_lattice s).2 = s := by
  refine ⟨⟨_, rfl⟩, ?_, rfl⟩
  intro b h
  simp [update_lattice] at h

/-- C20 (the code at every input): a call `gen_tets(min, max, verts, tets)` with
`n = verts.size()` leaves `n + 8` vertices and appends the tets
`(n+8, n+10, n+15, n+13)`, `(n+8, n+15, n+10, n+9)`, `(n+8, n+13, n+15, n+12)`,
`(n+8, n+10, n+13, n+11)`, `(n+10, n+15, n+13, n+14)`: every index is in
`[n+8, n+16)`, none is in `[n, n+8)`, so the tets do not reference the corners
appended by the call, and all indices are out of range until a later call
appends eight more vertices. -/
theorem gen_tets_indices_shifted (min max : Vec3f) (verts : List Vec3f) (tets : List Vec4i) :
    (gen_tets min max verts tets).1.length = verts.length + 8 ∧
    (gen_tets min max verts tets).2 = tets ++
      [⟨verts.length + 8, verts.length + 10, verts.length + 15, verts.length + 13⟩,
       ⟨verts.length + 8, verts.length + 15, verts.length + 10, verts.length + 9⟩,
       ⟨verts.length + 8, verts.length + 13, verts.length + 15, verts.length + 12⟩,
       ⟨verts.length + 8, verts.length + 10, verts.length + 13, verts.length + 11⟩,
       ⟨verts.length + 10, verts.length + 15, verts.length + 13, verts.length + 14⟩] := by
  unfold gen_tets
  refine ⟨by simp, ?_⟩
  simp only [List.length_append, List.length_cons, List.length_nil, Nat.cast_add,
    Nat.cast_ofNat, List.append_cancel_left_eq, List.cons.injEq, Vec4i.mk.injEq, and_true]
  push_cast
  refine ⟨⟨?_, ?_, ?_, ?_⟩, ⟨?_, ?_, ?_, ?_⟩, ⟨?_, ?_, ?_, ?_⟩, ⟨?_, ?_, ?_, ?_⟩,
    ⟨?_, ?_, ?_, ?_⟩⟩ <;> ring

/-- C19 (the code at the failing input): for the triangle `(0,0,0), (1,0,0), (0,1,0)`
and the query point `(3,-1,0)`, `Projection::Triangle` returns the vertex
`(0,0,0)`, at squared distance 10, although the vertex `(1,0,0)` of the
triangle is at squared distance 5. -/
theorem triangle_projection_not_nearest :
    Projection.Triangle ⟨0, 0, 0⟩ ⟨1, 0, 0⟩ ⟨0, 1, 0⟩ ⟨3, -1, 0⟩ = ⟨0, 0, 0⟩ ∧
    on_triangle ⟨0, 0, 0⟩ ⟨1, 0, 0⟩ ⟨0, 1, 0⟩ ⟨1, 0, 0⟩ ∧
    dist_sq ⟨3, -1, 0⟩ ⟨1, 0, 0⟩ = 5 ∧
    dist_sq ⟨3, -1, 0⟩ (Projection.Triangle ⟨0, 0, 0⟩ ⟨1, 0, 0⟩ ⟨0, 1, 0⟩ ⟨3, -1, 0⟩) = 10 :=
  ⟨by decide!, ⟨1, 0, by decide!, by decide!, by decide!, by decide!⟩, by decide!, by decide!⟩

end mcl

namespace mcl

/-! ## `make_tree`: leaves and the partition -/

/-- With a depth budget of at most 1, or at most one object, `make_tree` makes a
single leaf holding the objects it was given. -/
theorem make_tree_fuel_leaf (oob : Option Nat → Int → ℚ) (fuel : Nat)
    (objects : List BaseObject) (split_axis max_depth : Int)
    (h : objects.length ≤ 1 ∨ max_depth ≤ 1) :
    make_tree_fuel oob fuel objects split_axis max_depth =
      some (BVHNode.leaf (node_aabb objects) ((split_axis + 1).tmod 3) objects) := by
  unfold make_tree_fuel
  dsimp only
  by_cases h0 : objects.length = 0
  · rw [if_pos h0]
    have : objects = [] := List.length_eq_zero.mp h0
    subst this
    rfl
  · rw [if_neg h0]
    have h1 : objects.length = 1 ∨ max_depth - 1 ≤ 0 := by
      rcases h with h | h
      · left; omega
      · right; omega
    rw [if_pos h1]

/-- C13: for every list of objects and every `split_axis`, `make_tree` on a fresh
node with `max_depth = 0` yields a node without children whose object list is
exactly the input list, in input order. -/
theorem make_tree_depth_zero (oob : Option Nat → Int → ℚ) (objects : List BaseObject)
    (split_axis : Int) :
    ∃ t, make_tree oob objects split_axis 0 = some t ∧
      t.has_children = false ∧ t.m_objects = objects ∧
      t = BVHNode.leaf (node_aabb objects) ((split_axis + 1).tmod 3) objects :=
  ⟨_, make_tree_fuel_leaf oob _ objects split_axis 0 (Or.inr (by decide)), rfl, rfl, rfl⟩

/-- The partition loop distributes the objects: the two sides together are a
permutation of what was there before plus the objects scanned. -/
theorem split_objects_perm (oob : Option Nat → Int → ℚ) (center : Vec3f) (k : Int)
    (objs : List BaseObject) (i : Nat) (acc : List BaseObject × List BaseObject) :
    ((split_objects oob center k objs i acc).1 ++ (split_objects oob center k objs i acc).2).Perm
      (acc.1 ++ acc.2 ++ objs) := by
  induction objs generalizing i acc with
  | nil => simp [split_objects]
  | cons o rest ih =>
    unfold split_objects
    dsimp only
    split
    · refine (ih (i + 1) _).trans ?_
      simp only [List.append_assoc, List.singleton_append]
      refine List.Perm.append_left _ ?_
      exact (List.perm_middle).symm.trans (List.Perm.refl _) |>.symm |>.symm
    · split
      · refine (ih (i + 1) _).trans ?_
        simp only [List.append_assoc, List.singleton_append]
        exact List.Perm.refl _
      · rename_i h1 h2
        exact absurd (not_le.mp h1) h2

/-- For an axis 0, 1 or 2 the partition loop appends to the left side the objects
whose centre coordinate is `≤` the centre coordinate of the node box, and to
the right side the others, each in input order. -/
theorem split_objects_filter (oob : Option Nat → Int → ℚ) (center : Vec3f) (k : Int)
    (hk : 0 ≤ k ∧ k ≤ 2) (objs : List BaseObject) (i : Nat)
    (acc : List BaseObject × List BaseObject) :
    split_objects oob center k objs i acc =
      (acc.1 ++ objs.filter (fun o => decide ((obj_center o).coord k 0 ≤ center.coord k 0)),
       acc.2 ++ objs.filter (fun o => decide ((obj_center o).coord k 0 > center.coord k 0))) := by
  have hcoord : ∀ (v : Vec3f) (q : ℚ), v.coord k q = v.coord k 0 := by
    intro v q
    unfold Vec3f.coord
    have : k = 0 ∨ k = 1 ∨ k = 2 := by omega
    rcases this with h | h | h <;> simp [h]
  induction objs generalizing i acc with
  | nil => simp [split_objects]
  | cons o rest ih =>
    unfold split_objects
    dsimp only
    rw [hcoord (obj_center o), hcoord center]
    by_cases hle : (obj_center o).coord k 0 ≤ center.coord k 0
    · rw [if_pos hle, ih]
      simp [List.filter_cons, hle, not_lt.mpr hle]
    · rw [if_neg hle, if_pos (not_le.mp hle), ih]
      simp [List.filter_cons, hle, not_le.mp hle]

theorem move_back_eq {α : Type} (src dst : List α) (x : α) (h : src.getLast? = some x) :
    move_back src dst = (src.dropLast, dst ++ [x]) := by
  unfold move_back
  rw [h]

/-- The guard of lines 87-88, case by case. -/
theorem balance_sides_cases {α : Type} (l r : List α) (h : 2 ≤ l.length + r.length) :
    (l = [] → ∃ x, r.getLast? = some x ∧ balance_sides (l, r) = ([x], r.dropLast)) ∧
    (r = [] → ∃ x, l.getLast? = some x ∧ balance_sides (l, r) = (l.dropLast, [x])) ∧
    (l ≠ [] → r ≠ [] → balance_sides (l, r) = (l, r)) := by
  refine ⟨?_, ?_, ?_⟩
  · intro hl
    subst hl
    have hr : r ≠ [] := by intro h0; subst h0; simp at h
    obtain ⟨x, hx⟩ : ∃ x, r.getLast? = some x := by
      cases hgl : r.getLast? with
      | none => exact absurd (List.getLast?_eq_none_iff.mp hgl) hr
      | some x => exact ⟨x, rfl⟩
    refine ⟨x, hx, ?_⟩
    unfold balance_sides
    simp only [List.length_nil, if_true, move_back_eq r [] x hx, List.nil_append]
    have : ¬ r.dropLast.length = 0 := by
      rw [List.length_dropLast]
      simp at h
      omega
    rw [if_neg this]
  · intro hr
    subst hr
    have hl : l ≠ [] := by intro h0; subst h0; simp at h
    obtain ⟨x, hx⟩ : ∃ x, l.getLast? = some x := by
      cases hgl : l.getLast? with
      | none => exact absurd (List.getLast?_eq_none_iff.mp hgl) hl
      | some x => exact ⟨x, rfl⟩
    refine ⟨x, hx, ?_⟩
    unfold balance_sides
    have h0 : ¬ l.length = 0 := fun h0 => hl (List.length_eq_zero.mp h0)
    simp only [if_neg h0, List.length_nil, if_true, move_back_eq l [] x hx, List.nil_append]
  · intro hl hr
    unfold balance_sides
    have h0 : ¬ l.length = 0 := fun h0 => hl (List.length_eq_zero.mp h0)
    have h1 : ¬ r.length = 0 := fun h0 => hr (List.length_eq_zero.mp h0)
    simp only [if_neg h0, if_neg h1]

/-- Both lists passed to the recursive calls are non-empty and shorter than the
list of the call, and together they are a permutation of it. -/
theorem call_sides_facts (oob : Option Nat → Int → ℚ) (objs : List BaseObject) (a : Int)
    (h : 2 ≤ objs.length) :
    (call_sides oob objs a).1 ≠ [] ∧ (call_sides oob objs a).2 ≠ [] ∧
    (call_sides oob objs a).1.length < objs.length ∧
    (call_sides oob objs a).2.length < objs.length ∧
    ((call_sides oob objs a).1 ++ (call_sides oob objs a).2).Perm objs := by
  have hperm : ((raw_sides oob objs a).1 ++ (raw_sides oob objs a).2).Perm objs := by
    have := split_objects_perm oob (node_aabb objs).center ((a + 1).tmod 3) objs 0 ([], [])
    simpa using this
  have hlen : (raw_sides oob objs a).1.length + (raw_sides oob objs a).2.length = objs.length := by
    rw [← List.length_append]; exact hperm.length_eq
  unfold call_sides
  generalize raw_sides oob objs a = raw at hperm hlen
  obtain ⟨l, r⟩ := raw
  simp only at hperm hlen
  have hc := balance_sides_cases l r (by omega)
  by_cases hl : l = []
  · obtain ⟨x, hx, he⟩ := hc.1 hl
    subst hl
    rw [he]
    have hd : r.dropLast ++ [x] = r := List.dropLast_append_getLast? x hx
    have hrl : r.dropLast.length + 1 = r.length := by
      conv_rhs => rw [← hd]
      simp
    simp only [List.nil_append, List.length_nil, zero_add] at hperm hlen
    dsimp only
    refine ⟨by simp, ?_, by simp; omega, by omega, ?_⟩
    · intro h0; rw [h0] at hrl; simp at hrl; omega
    · refine List.Perm.trans ?_ hperm
      conv_rhs => rw [← hd]
      exact List.perm_append_comm
  · by_cases hr : r = []
    · obtain ⟨x, hx, he⟩ := hc.2.1 hr
      subst hr
      rw [he]
      have hd : l.dropLast ++ [x] = l := List.dropLast_append_getLast? x hx
      have hll : l.dropLast.length + 1 = l.length := by
        conv_rhs => rw [← hd]
        simp
      simp only [List.append_nil, List.length_nil, add_zero] at hperm hlen
      dsimp only
      refine ⟨?_, by simp, by omega, by simp; omega, ?_⟩
      · intro h0; rw [h0] at hll; simp at hll; omega
      · rw [hd]; exact hperm
    · rw [hc.2.2 hl hr]
      have h1 : 0 < l.length := List.length_pos.mpr hl
      have h2 : 0 < r.length := List.length_pos.mpr hr
      exact ⟨hl, hr, by simp only; omega, by simp only; omega, hperm⟩

/-- The split step of `make_tree`: with at least two objects and a depth budget of
at least 2, and fuel left, the node gets the two subtrees built from the two
sides. -/
theorem make_tree_fuel_split (oob : Option Nat → Int → ℚ) (n : Nat) (objs : List BaseObject)
    (a d : Int) (hlen : 2 ≤ objs.length) (hd : 2 ≤ d) :
    make_tree_fuel oob (n + 1) objs a d =
      match make_tree_fuel oob n (call_sides oob objs a).1 ((a + 1).tmod 3) (d - 1),
          make_tree_fuel oob n (call_sides oob objs a).2 ((a + 1).tmod 3) (d - 1) with
      | some l, some r => some (BVHNode.node (node_aabb objs) ((a + 1).tmod 3) [] l r)
      | _, _ => none := by
  conv_lhs => unfold make_tree_fuel
  dsimp only
  rw [if_neg (by omega), if_neg (by omega)]
  rfl

/-- Fuel at least the number of objects is enough, and more fuel changes nothing. -/
theorem make_tree_fuel_enough (oob : Option Nat → Int → ℚ) :
    ∀ (n : Nat) (objs : List BaseObject) (a d : Int), objs.length ≤ n →
      (∃ t, make_tree_fuel oob n objs a d = some t) ∧
      ∀ m, objs.length ≤ m → make_tree_fuel oob m objs a d = make_tree_fuel oob n objs a d := by
  intro n
  induction n with
  | zero =>
    intro objs a d h
    have hl : objs.length ≤ 1 ∨ d ≤ 1 := Or.inl (by omega)
    refine ⟨⟨_, make_tree_fuel_leaf oob 0 objs a d hl⟩, ?_⟩
    intro m _
    rw [make_tree_fuel_leaf oob m objs a d hl, make_tree_fuel_leaf oob 0 objs a d hl]
  | succ n ih =>
    intro objs a d h
    by_cases hl : objs.length ≤ 1 ∨ d ≤ 1
    · refine ⟨⟨_, make_tree_fuel_leaf oob _ objs a d hl⟩, ?_⟩
      intro m _
      rw [make_tree_fuel_leaf oob m objs a d hl, make_tree_fuel_leaf oob _ objs a d hl]
    · rw [not_or, not_le, not_le] at hl
      have hlen : 2 ≤ objs.length := hl.1
      have hd : 2 ≤ d := by omega
      have hs := call_sides_facts oob objs a hlen
      have h1 := ih (call_sides oob objs a).1 ((a + 1).tmod 3) (d - 1) (by omega)
      have h2 := ih (call_sides oob objs a).2 ((a + 1).tmod 3) (d - 1) (by omega)
      obtain ⟨tl, htl⟩ := h1.1
      obtain ⟨tr, htr⟩ := h2.1
      refine ⟨⟨_, by rw [make_tree_fuel_split oob n objs a d hlen hd, htl, htr]⟩, ?_⟩
      intro m hm
      cases m with
      | zero => omega
      | succ m =>
        rw [make_tree_fuel_split oob m objs a d hlen hd,
          make_tree_fuel_split oob n objs a d hlen hd,
          h1.2 m (by omega), h2.2 m (by omega)]

/-- `make_tree` returns, for every object list, axis and depth budget. -/
theorem make_tree_total (oob : Option Nat → Int → ℚ) (objs : List BaseObject) (a d : Int) :
    ∃ t, make_tree oob objs a d = some t :=
  (make_tree_fuel_enough oob objs.length objs a d le_rfl).1

theorem make_tree_leaf (oob : Option Nat → Int → ℚ) (objs : List BaseObject) (a d : Int)
    (h : objs.length ≤ 1 ∨ d ≤ 1) :
    make_tree oob objs a d =
      some (BVHNode.leaf (node_aabb objs) ((a + 1).tmod 3) objs) :=
  make_tree_fuel_leaf oob _ objs a d h

/-- The split step of `make_tree`, in terms of `make_tree` on the two sides. -/
theorem make_tree_split (oob : Option Nat → Int → ℚ) (objs : List BaseObject) (a d : Int)
    (hlen : 2 ≤ objs.length) (hd : 2 ≤ d) :
    ∃ l r, make_tree oob (call_sides oob objs a).1 ((a + 1).tmod 3) (d - 1) = some l ∧
      make_tree oob (call_sides oob objs a).2 ((a + 1).tmod 3) (d - 1) = some r ∧
      make_tree oob objs a d = some (BVHNode.node (node_aabb objs) ((a + 1).tmod 3) [] l r) := by
  have hs := call_sides_facts oob objs a hlen
  obtain ⟨n, hn⟩ : ∃ n, objs.length = n + 1 := ⟨objs.length - 1, by omega⟩
  have e1 := (make_tree_fuel_enough oob (call_sides oob objs a).1.length (call_sides oob objs a).1
    ((a + 1).tmod 3) (d - 1) le_rfl)
  have e2 := (make_tree_fuel_enough oob (call_sides oob objs a).2.length (call_sides oob objs a).2
    ((a + 1).tmod 3) (d - 1) le_rfl)
  obtain ⟨l, hl⟩ := e1.1
  obtain ⟨r, hr⟩ := e2.1
  refine ⟨l, r, hl, hr, ?_⟩
  unfold make_tree
  rw [hn, make_tree_fuel_split oob n objs a d hlen hd, e1.2 n (by omega), e2.2 n (by omega),
    hl, hr]

theorem axis_valid (a : Int) (h0 : 0 ≤ a) (h2 : a ≤ 2) :
    (a + 1).tmod 3 = (a + 1) % 3 ∧ 0 ≤ (a + 1).tmod 3 ∧ (a + 1).tmod 3 ≤ 2 := by
  have : a = 0 ∨ a = 1 ∨ a = 2 := by omega
  rcases this with h | h | h <;> subst h <;> decide

/-- C16: whenever `make_tree` splits (at least 2 objects and a depth budget of at
least 2), both object lists passed to the recursive calls are non-empty: if the
comparison leaves the left side empty, the last object of the right side is
moved to the left and the right side keeps the rest; symmetrically when the
right side is empty; otherwise the sides stay as the comparison left them.
The node gets the two subtrees built from these lists. -/
theorem make_tree_sides_nonempty (oob : Option Nat → Int → ℚ) (objs : List BaseObject)
    (a d : Int) (hlen : 2 ≤ objs.length) (hd : 2 ≤ d) :
    (call_sides oob objs a).1 ≠ [] ∧ (call_sides oob objs a).2 ≠ [] ∧
    ((raw_sides oob objs a).1 = [] → ∃ x, (raw_sides oob objs a).2.getLast? = some x ∧
      call_sides oob objs a = ([x], (raw_sides oob objs a).2.dropLast)) ∧
    ((raw_sides oob objs a).2 = [] → ∃ x, (raw_sides oob objs a).1.getLast? = some x ∧
      call_sides oob objs a = ((raw_sides oob objs a).1.dropLast, [x])) ∧
    ((raw_sides oob objs a).1 ≠ [] → (raw_sides oob objs a).2 ≠ [] →
      call_sides oob objs a = raw_sides oob objs a) ∧
    ∃ l r, make_tree oob (call_sides oob objs a).1 ((a + 1).tmod 3) (d - 1) = some l ∧
      make_tree oob (call_sides oob objs a).2 ((a + 1).tmod 3) (d - 1) = some r ∧
      make_tree oob objs a d =
        some (BVHNode.node (node_aabb objs) ((a + 1).tmod 3) [] l r) := by
  have hs := call_sides_facts oob objs a hlen
  have hperm : ((raw_sides oob objs a).1 ++ (raw_sides oob objs a).2).Perm objs := by
    have := split_objects_perm oob (node_aabb objs).center ((a + 1).tmod 3) objs 0 ([], [])
    simpa using this
  have hl2 : 2 ≤ (raw_sides oob objs a).1.length + (raw_sides oob objs a).2.length := by
    rw [← List.length_append, hperm.length_eq]; exact hlen
  have hc := balance_sides_cases (raw_sides oob objs a).1 (raw_sides oob objs a).2 hl2
  exact ⟨hs.1, hs.2.1, hc.1, hc.2.1, hc.2.2, make_tree_split oob objs a d hlen hd⟩

/-- An instance of C16: two cubes with the same centre (the right side is left
empty by the comparison), depth budget 2. -/
theorem make_tree_sides_nonempty_witness :
    2 ≤ [obj_small, obj_large].length ∧ (2 : Int) ≤ 2 ∧
    (call_sides no_oob [obj_small, obj_large] 0).1 ≠ [] ∧
    (call_sides no_oob [obj_small, obj_large] 0).2 ≠ [] :=
  ⟨by decide, by decide,
    (make_tree_sides_nonempty no_oob [obj_small, obj_large] 0 2 (by decide) (by decide)).1,
    (make_tree_sides_nonempty no_oob [obj_small, obj_large] 0 2 (by decide) (by decide)).2.1⟩

/-- C17: when `make_tree` splits (split axis argument 0, 1 or 2, depth budget at
least 2) and the comparison leaves neither side empty, the left child is built
from exactly the input objects whose box-centre coordinate on the node's split
axis is `≤` the centre coordinate of the node box on that axis, and the right
child from exactly those whose coordinate is `>`, each in input order. -/
theorem make_tree_partition (oob : Option Nat → Int → ℚ) (objs : List BaseObject)
    (a d : Int) (ha : 0 ≤ a ∧ a ≤ 2) (hd : 2 ≤ d)
    (hL : objs.filter (fun o => decide ((obj_center o).coord ((a + 1).tmod 3) 0 ≤
      (node_aabb objs).center.coord ((a + 1).tmod 3) 0)) ≠ [])
    (hR : objs.filter (fun o => decide ((obj_center o).coord ((a + 1).tmod 3) 0 >
      (node_aabb objs).center.coord ((a + 1).tmod 3) 0)) ≠ []) :
    ∃ l r,
      make_tree oob (objs.filter (fun o => decide ((obj_center o).coord ((a + 1).tmod 3) 0 ≤
        (node_aabb objs).center.coord ((a + 1).tmod 3) 0))) ((a + 1).tmod 3) (d - 1) = some l ∧
      make_tree oob (objs.filter (fun o => decide ((obj_center o).coord ((a + 1).tmod 3) 0 >
        (node_aabb objs).center.coord ((a + 1).tmod 3) 0))) ((a + 1).tmod 3) (d - 1) = some r ∧
      make_tree oob objs a d =
        some (BVHNode.node (node_aabb objs) ((a + 1).tmod 3) [] l r) := by
  have hk := axis_valid a ha.1 ha.2
  have hraw : raw_sides oob objs a =
      (objs.filter (fun o => decide ((obj_center o).coord ((a + 1).tmod 3) 0 ≤
        (node_aabb objs).center.coord ((a + 1).tmod 3) 0)),
       objs.filter (fun o => decide ((obj_center o).coord ((a + 1).tmod 3) 0 >
        (node_aabb objs).center.coord ((a + 1).tmod 3) 0))) := by
    unfold raw_sides
    rw [split_objects_filter oob _ _ ⟨hk.2.1, hk.2.2⟩]
    simp
  have hperm : ((raw_sides oob objs a).1 ++ (raw_sides oob objs a).2).Perm objs := by
    have := split_objects_perm oob (node_aabb objs).center ((a + 1).tmod 3) objs 0 ([], [])
    simpa using this
  have hlen : 2 ≤ objs.length := by
    rw [← hperm.length_eq, hraw, List.length_append]
    have h1 := List.length_pos.mpr hL
    have h2 := List.length_pos.mpr hR
    dsimp only
    omega
  have hl2 : 2 ≤ (raw_sides oob objs a).1.length + (raw_sides oob objs a).2.length := by
    rw [← List.length_append, hperm.length_eq]; exact hlen
  have hc := (balance_sides_cases (raw_sides oob objs a).1 (raw_sides oob objs a).2 hl2).2.2
  have hsides : call_sides oob objs a = raw_sides oob objs a := by
    apply hc
    · rw [hraw]; exact hL
    · rw [hraw]; exact hR
  have := make_tree_split oob objs a d hlen hd
  rw [hsides, hraw] at this
  exact this

/-- An instance of C17: a cube far east and a cube far west, split on the x axis. -/
theorem make_tree_partition_witness :
    ((0 : Int) ≤ 2 ∧ (2 : Int) ≤ 2) ∧ (2 : Int) ≤ 2 ∧
    ∃ l r,
      make_tree no_oob ([obj_east, obj_west].filter (fun o =>
        decide ((obj_center o).coord (((2 : Int) + 1).tmod 3) 0 ≤
          (node_aabb [obj_east, obj_west]).center.coord (((2 : Int) + 1).tmod 3) 0)))
        (((2 : Int) + 1).tmod 3) (2 - 1) = some l ∧
      make_tree no_oob ([obj_east, obj_west].filter (fun o =>
        decide ((obj_center o).coord (((2 : Int) + 1).tmod 3) 0 >
          (node_aabb [obj_east, obj_west]).center.coord (((2 : Int) + 1).tmod 3) 0)))
        (((2 : Int) + 1).tmod 3) (2 - 1) = some r ∧
      make_tree no_oob [obj_east, obj_west] 2 2 =
        some (BVHNode.node (node_aabb [obj_east, obj_west]) (((2 : Int) + 1).tmod 3) [] l r) :=
  ⟨⟨by decide, by decide⟩, by decide,
    make_tree_partition no_oob [obj_east, obj_west] 2 2 ⟨by decide, by decide⟩ (by decide)
      (by decide!) (by decide!)⟩

end mcl

namespace mcl

/-! ## `make_tree`: coincident centres, axes and boxes -/

theorem min_max_of_same_sum (p P q Q : ℚ) (h : p + P = q + Q) :
    min (min (min p P) q) Q + max (max (max p P) q) Q = p + P := by
  simp only [min_def, max_def]
  split_ifs <;> linarith

/-- Two boxes with the same centre: the box around both has that centre too. -/
theorem center_of_pair (o1 o2 : BaseObject) (h : obj_center o1 = obj_center o2) :
    (node_aabb [o1, o2]).center = obj_center o1 := by
  have hx : o1.bmin.x + o1.bmax.x = o2.bmin.x + o2.bmax.x := by
    have := congrArg Vec3f.x h
    change (1 / 2 : ℚ) * (o1.bmin.x + o1.bmax.x) = (1 / 2) * (o2.bmin.x + o2.bmax.x) at this
    linarith
  have hy : o1.bmin.y + o1.bmax.y = o2.bmin.y + o2.bmax.y := by
    have := congrArg Vec3f.y h
    change (1 / 2 : ℚ) * (o1.bmin.y + o1.bmax.y) = (1 / 2) * (o2.bmin.y + o2.bmax.y) at this
    linarith
  have hz : o1.bmin.z + o1.bmax.z = o2.bmin.z + o2.bmax.z := by
    have := congrArg Vec3f.z h
    change (1 / 2 : ℚ) * (o1.bmin.z + o1.bmax.z) = (1 / 2) * (o2.bmin.z + o2.bmax.z) at this
    linarith
  have ex := min_max_of_same_sum _ _ _ _ hx
  have ey := min_max_of_same_sum _ _ _ _ hy
  have ez := min_max_of_same_sum _ _ _ _ hz
  show (Vec3f.smul (1 / 2) (Vec3f.add _ _)) = Vec3f.smul (1 / 2) (Vec3f.add _ _)
  simp only [node_aabb, List.foldl, AABB.extend, AABB.min, AABB.max, Vec3f.cwiseMin,
    Vec3f.cwiseMax, Vec3f.smul, Vec3f.add]
  rw [ex, ey, ez]

/-- C14: for every pair of objects whose bounding-box centres are identical
(whatever their box sizes), `make_tree` with split axis argument 0, 1 or 2 and
a depth budget of at least 2 yields a root with a left and a right child, each
a leaf holding exactly one of the two objects: the first input object on the
left, the second on the right. -/
theorem make_tree_same_centres (oob : Option Nat → Int → ℚ) (o1 o2 : BaseObject)
    (a d : Int) (ha : 0 ≤ a ∧ a ≤ 2) (hd : 2 ≤ d) (hc : obj_center o1 = obj_center o2) :
    make_tree oob [o1, o2] a d =
      some (BVHNode.node (node_aabb [o1, o2]) ((a + 1).tmod 3) []
        (BVHNode.leaf (node_aabb [o1]) (((a + 1).tmod 3 + 1).tmod 3) [o1])
        (BVHNode.leaf (node_aabb [o2]) (((a + 1).tmod 3 + 1).tmod 3) [o2])) := by
  have hk := axis_valid a ha.1 ha.2
  have hcen := center_of_pair o1 o2 hc
  have hraw : raw_sides oob [o1, o2] a = ([o1, o2], []) := by
    unfold raw_sides
    rw [split_objects_filter oob _ _ ⟨hk.2.1, hk.2.2⟩, hcen]
    simp [List.filter, ← hc]
  have hsides : call_sides oob [o1, o2] a = ([o1], [o2]) := by
    unfold call_sides
    rw [hraw]
    rfl
  obtain ⟨l, r, hl, hr, ht⟩ := make_tree_split oob [o1, o2] a d (by simp) hd
  rw [hsides] at hl hr
  rw [make_tree_leaf oob [o1] _ _ (Or.inl (by simp))] at hl
  rw [make_tree_leaf oob [o2] _ _ (Or.inl (by simp))] at hr
  rw [ht, ← Option.some.inj hl, ← Option.some.inj hr]

/-- An instance of C14: a small and a large cube around the same centre. -/
theorem make_tree_same_centres_witness :
    ((0 : Int) ≤ 0 ∧ (0 : Int) ≤ 2) ∧ (2 : Int) ≤ 5 ∧ obj_center obj_small = obj_center obj_large ∧
    make_tree no_oob [obj_small, obj_large] 0 5 =
      some (BVHNode.node (node_aabb [obj_small, obj_large]) (((0 : Int) + 1).tmod 3) []
        (BVHNode.leaf (node_aabb [obj_small]) ((((0 : Int) + 1).tmod 3 + 1).tmod 3) [obj_small])
        (BVHNode.leaf (node_aabb [obj_large]) ((((0 : Int) + 1).tmod 3 + 1).tmod 3) [obj_large])) :=
  ⟨⟨by decide, by decide⟩, by decide, by decide!,
    make_tree_same_centres no_oob obj_small obj_large 0 5 ⟨by decide, by decide⟩ (by decide)
      (by decide!)⟩

/-- The axis recorded by the root of the tree `make_tree` builds. -/
theorem make_tree_root_axis (oob : Option Nat → Int → ℚ) (objs : List BaseObject) (a d : Int)
    (t : BVHNode) (h : make_tree oob objs a d = some t) : t.m_split = (a + 1).tmod 3 := by
  by_cases hl : objs.length ≤ 1 ∨ d ≤ 1
  · rw [make_tree_leaf oob objs a d hl] at h
    rw [← Option.some.inj h]
    rfl
  · rw [not_or, not_le, not_le] at hl
    obtain ⟨l, r, _, _, ht⟩ := make_tree_split oob objs a d hl.1 (by omega)
    rw [ht] at h
    rw [← Option.some.inj h]
    rfl

theorem make_tree_axes (oob : Option Nat → Int → ℚ) :
    ∀ (n : Nat) (objs : List BaseObject) (a d : Int), objs.length ≤ n → 0 ≤ a → a ≤ 2 →
      ∀ t, make_tree oob objs a d = some t → t.axes_cycle := by
  intro n
  induction n with
  | zero =>
    intro objs a d hn h0 h2 t ht
    have hk := axis_valid a h0 h2
    rw [make_tree_leaf oob objs a d (Or.inl (by omega))] at ht
    rw [← Option.some.inj ht]
    exact ⟨hk.2.1, hk.2.2⟩
  | succ n ih =>
    intro objs a d hn h0 h2 t ht
    have hk := axis_valid a h0 h2
    by_cases hl : objs.length ≤ 1 ∨ d ≤ 1
    · rw [make_tree_leaf oob objs a d hl] at ht
      rw [← Option.some.inj ht]
      exact ⟨hk.2.1, hk.2.2⟩
    · rw [not_or, not_le, not_le] at hl
      have hs := call_sides_facts oob objs a hl.1
      obtain ⟨l, r, hl', hr', ht'⟩ := make_tree_split oob objs a d hl.1 (by omega)
      rw [ht'] at ht
      rw [← Option.some.inj ht]
      have hk' := axis_valid ((a + 1).tmod 3) hk.2.1 hk.2.2
      refine ⟨⟨hk.2.1, hk.2.2⟩, ?_, ?_, ?_, ?_⟩
      · rw [make_tree_root_axis oob _ _ _ l hl', hk'.1]
      · rw [make_tree_root_axis oob _ _ _ r hr', hk'.1]
      · exact ih _ _ _ (by omega) hk.2.1 hk.2.2 l hl'
      · exact ih _ _ _ (by omega) hk.2.1 hk.2.2 r hr'

/-- C18: the split axis advances cyclically: for a call `make_tree(objects, a, d)`
with `a` in `{0,1,2}` the root records the axis `(a + 1) mod 3`, every node of
the tree records a value in `{0,1,2}`, and both children of a node with
recorded axis `s` record `(s + 1) mod 3`, whatever the boxes are. -/
theorem make_tree_axis_cycles (oob : Option Nat → Int → ℚ) (objs : List BaseObject)
    (a d : Int) (ha : 0 ≤ a ∧ a ≤ 2) :
    ∃ t, make_tree oob objs a d = some t ∧ t.m_split = (a + 1) % 3 ∧
      (0 ≤ t.m_split ∧ t.m_split ≤ 2) ∧ t.axes_cycle := by
  obtain ⟨t, ht⟩ := make_tree_total oob objs a d
  have hk := axis_valid a ha.1 ha.2
  have hr := make_tree_root_axis oob objs a d t ht
  refine ⟨t, ht, by rw [hr, hk.1], by rw [hr]; exact ⟨hk.2.1, hk.2.2⟩, ?_⟩
  exact make_tree_axes oob objs.length objs a d le_rfl ha.1 ha.2 t ht

/-- An instance of C18: four cubes, starting from the z axis. -/
theorem make_tree_axis_cycles_witness :
    ((0 : Int) ≤ 2 ∧ (2 : Int) ≤ 2) ∧
    ∃ t, make_tree no_oob [obj_small, obj_east, obj_large, obj_west] 2 10 = some t ∧
      t.m_split = ((2 : Int) + 1) % 3 ∧ (0 ≤ t.m_split ∧ t.m_split ≤ 2) ∧ t.axes_cycle :=
  ⟨⟨by decide, by decide⟩,
    make_tree_axis_cycles no_oob [obj_small, obj_east, obj_large, obj_west] 2 10
      ⟨by decide, by decide⟩⟩

/-! ### Boxes -/

theorem Vec3f.cwiseMin_comm (a b : Vec3f) : a.cwiseMin b = b.cwiseMin a := by
  simp only [Vec3f.cwiseMin, min_comm]

theorem Vec3f.cwiseMax_comm (a b : Vec3f) : a.cwiseMax b = b.cwiseMax a := by
  simp only [Vec3f.cwiseMax, max_comm]

theorem Vec3f.cwiseMin_assoc (a b c : Vec3f) :
    (a.cwiseMin b).cwiseMin c = a.cwiseMin (b.cwiseMin c) := by
  simp only [Vec3f.cwiseMin, min_assoc]

theorem Vec3f.cwiseMax_assoc (a b c : Vec3f) :
    (a.cwiseMax b).cwiseMax c = a.cwiseMax (b.cwiseMax c) := by
  simp only [Vec3f.cwiseMax, max_assoc]

theorem Vec3f.cwiseMin_of_le {a b : Vec3f} (h : a.le b) : a.cwiseMin b = a := by
  obtain ⟨h1, h2, h3⟩ := h
  simp only [Vec3f.cwiseMin, min_eq_left h1, min_eq_left h2, min_eq_left h3]

theorem Vec3f.cwiseMax_of_le {a b : Vec3f} (h : a.le b) : a.cwiseMax b = b := by
  obtain ⟨h1, h2, h3⟩ := h
  simp only [Vec3f.cwiseMax, max_eq_right h1, max_eq_right h2, max_eq_right h3]

theorem union_box_cons (o : BaseObject) (rest : List BaseObject) :
    union_box (o :: rest) =
      match union_box rest with
      | AABB.empty => AABB.box o.bmin o.bmax
      | AABB.box lo hi => AABB.box (o.bmin.cwiseMin lo) (o.bmax.cwiseMax hi) := rfl

theorem union_box_eq_empty (l : List BaseObject) : union_box l = AABB.empty ↔ l = [] := by
  cases l with
  | nil => simp [union_box]
  | cons o rest =>
    rw [union_box_cons]
    cases union_box rest <;> simp

/-- The union of the boxes does not depend on the order of the objects. -/
theorem union_box_perm {l1 l2 : List BaseObject} (h : l1.Perm l2) :
    union_box l1 = union_box l2 := by
  induction h with
  | nil => rfl
  | cons o _ ih => rw [union_box_cons, union_box_cons, ih]
  | swap x y l =>
    rw [union_box_cons, union_box_cons, union_box_cons, union_box_cons]
    cases union_box l with
    | empty =>
      dsimp only
      rw [Vec3f.cwiseMin_comm, Vec3f.cwiseMax_comm]
    | box lo hi =>
      dsimp only
      rw [← Vec3f.cwiseMin_assoc, ← Vec3f.cwiseMax_assoc, Vec3f.cwiseMin_comm y.bmin,
        Vec3f.cwiseMax_comm y.bmax, Vec3f.cwiseMin_assoc, Vec3f.cwiseMax_assoc]
  | trans _ _ ih1 ih2 => exact ih1.trans ih2

/-- The union box contains the box of each object. -/
theorem union_box_bounds (l : List BaseObject) :
    ∀ lo hi, union_box l = AABB.box lo hi → ∀ o ∈ l, lo.le o.bmin ∧ o.bmax.le hi := by
  induction l with
  | nil => intro lo hi h; simp [union_box] at h
  | cons p rest ih =>
    intro lo hi h o ho
    rw [union_box_cons] at h
    cases hr : union_box rest with
    | empty =>
      rw [hr] at h
      have hnil := (union_box_eq_empty rest).mp hr
      subst hnil
      injection h with h1 h2
      subst h1; subst h2
      simp only [List.mem_singleton] at ho
      subst ho
      exact ⟨Vec3f.le_refl _, Vec3f.le_refl _⟩
    | box lo' hi' =>
      rw [hr] at h
      injection h with h1 h2
      subst h1; subst h2
      rcases List.mem_cons.mp ho with ho | ho
      · subst ho
        exact ⟨Vec3f.cwiseMin_le_left _ _, Vec3f.le_cwiseMax_left _ _⟩
      · have := ih lo' hi' hr o ho
        exact ⟨Vec3f.le_trans (Vec3f.cwiseMin_le_right _ _) this.1,
          Vec3f.le_trans this.2 (Vec3f.le_cwiseMax_right _ _)⟩

/-- The union box is the smallest box containing the box of each object. -/
theorem union_box_least (l : List BaseObject) :
    ∀ lo hi, union_box l = AABB.box lo hi →
      ∀ lo' hi' : Vec3f, (∀ o ∈ l, lo'.le o.bmin ∧ o.bmax.le hi') → lo'.le lo ∧ hi.le hi' := by
  induction l with
  | nil => intro lo hi h; simp [union_box] at h
  | cons p rest ih =>
    intro lo hi h lo' hi' hb
    rw [union_box_cons] at h
    have hp := hb p (List.mem_cons_self _ _)
    cases hr : union_box rest with
    | empty =>
      rw [hr] at h
      injection h with h1 h2
      subst h1; subst h2
      exact hp
    | box l1 h1 =>
      rw [hr] at h
      injection h with e1 e2
      subst e1; subst e2
      have := ih l1 h1 hr lo' hi' (fun o ho => hb o (List.mem_cons_of_mem _ ho))
      exact ⟨Vec3f.le_cwiseMin hp.1 this.1, Vec3f.cwiseMax_le hp.2 this.2⟩

/-- The union box of some of the objects lies inside the union box of all. -/
theorem union_box_within (l1 l2 : List BaseObject) (h : ∀ o ∈ l1, o ∈ l2) :
    (union_box l1).within (union_box l2) := by
  cases h1 : union_box l1 with
  | empty => trivial
  | box lo hi =>
    cases h2 : union_box l2 with
    | empty =>
      have e2 := (union_box_eq_empty l2).mp h2
      subst e2
      cases l1 with
      | nil => simp [union_box] at h1
      | cons o _ => exact absurd (h o (List.mem_cons_self _ _)) (List.not_mem_nil _)
    | box lo' hi' =>
      have hb := union_box_bounds l2 lo' hi' h2
      exact union_box_least l1 lo hi h1 lo' hi' (fun o ho => hb o (h o ho))

/-- The loop of lines 47-51 from a box on. -/
theorem node_aabb_fold (objs : List BaseObject) :
    (∀ o ∈ objs, o.bmin.le o.bmax) → ∀ lo hi : Vec3f,
      objs.foldl (fun b o => (b.extend o.bmin).extend o.bmax) (AABB.box lo hi) =
        match union_box objs with
        | AABB.empty => AABB.box lo hi
        | AABB.box l h => AABB.box (lo.cwiseMin l) (hi.cwiseMax h) := by
  induction objs with
  | nil => intro _ lo hi; rfl
  | cons o rest ih =>
    intro hwf lo hi
    have ho := hwf o (List.mem_cons_self _ _)
    rw [List.foldl_cons]
    have hstep : ((AABB.box lo hi).extend o.bmin).extend o.bmax =
        AABB.box ((lo.cwiseMin o.bmin).cwiseMin o.bmax) ((hi.cwiseMax o.bmin).cwiseMax o.bmax) :=
      rfl
    rw [hstep, ih (fun p hp => hwf p (List.mem_cons_of_mem _ hp)), union_box_cons]
    have e1 : (lo.cwiseMin o.bmin).cwiseMin o.bmax = lo.cwiseMin o.bmin := by
      rw [Vec3f.cwiseMin_assoc, Vec3f.cwiseMin_of_le ho]
    have e2 : (hi.cwiseMax o.bmin).cwiseMax o.bmax = hi.cwiseMax o.bmax := by
      rw [Vec3f.cwiseMax_assoc, Vec3f.cwiseMax_of_le ho]
    rw [e1, e2]
    cases union_box rest with
    | empty => rfl
    | box l h =>
      dsimp only
      rw [Vec3f.cwiseMin_assoc, Vec3f.cwiseMax_assoc]

/-- For boxes with `min ≤ max` the box accumulated by the loop of lines 47-51 is
the union of the object boxes. -/
theorem node_aabb_eq_union (objs : List BaseObject) (hwf : ∀ o ∈ objs, o.bmin.le o.bmax) :
    node_aabb objs = union_box objs := by
  cases objs with
  | nil => rfl
  | cons o rest =>
    have ho := hwf o (List.mem_cons_self _ _)
    unfold node_aabb
    rw [List.foldl_cons]
    have hstep : (AABB.empty.extend o.bmin).extend o.bmax =
        AABB.box (o.bmin.cwiseMin o.bmax) (o.bmin.cwiseMax o.bmax) := rfl
    rw [hstep, Vec3f.cwiseMin_of_le ho, Vec3f.cwiseMax_of_le ho,
      node_aabb_fold rest (fun p hp => hwf p (List.mem_cons_of_mem _ hp)), union_box_cons]

theorem make_tree_boxes (oob : Option Nat → Int → ℚ) :
    ∀ (n : Nat) (objs : List BaseObject) (a d : Int), objs.length ≤ n →
      (∀ o ∈ objs, o.bmin.le o.bmax) →
      ∀ t, make_tree oob objs a d = some t →
        t.aabb = union_box objs ∧ t.boxes_ok ∧ t.tree_objects.Perm objs := by
  intro n
  induction n with
  | zero =>
    intro objs a d hn hwf t ht
    rw [make_tree_leaf oob objs a d (Or.inl (by omega))] at ht
    rw [← Option.some.inj ht]
    exact ⟨node_aabb_eq_union objs hwf, node_aabb_eq_union objs hwf, List.Perm.refl _⟩
  | succ n ih =>
    intro objs a d hn hwf t ht
    by_cases hl : objs.length ≤ 1 ∨ d ≤ 1
    · rw [make_tree_leaf oob objs a d hl] at ht
      rw [← Option.some.inj ht]
      exact ⟨node_aabb_eq_union objs hwf, node_aabb_eq_union objs hwf, List.Perm.refl _⟩
    · rw [not_or, not_le, not_le] at hl
      have hs := call_sides_facts oob objs a hl.1
      obtain ⟨l, r, hl', hr', ht'⟩ := make_tree_split oob objs a d hl.1 (by omega)
      rw [ht'] at ht
      rw [← Option.some.inj ht]
      have hperm := hs.2.2.2.2
      have hsub1 : ∀ o ∈ (call_sides oob objs a).1, o ∈ objs := fun o ho =>
        hperm.subset (List.mem_append_left _ ho)
      have hsub2 : ∀ o ∈ (call_sides oob objs a).2, o ∈ objs := fun o ho =>
        hperm.subset (List.mem_append_right _ ho)
      have h1 := ih _ _ _ (by omega) (fun o ho => hwf o (hsub1 o ho)) l hl'
      have h2 := ih _ _ _ (by omega) (fun o ho => hwf o (hsub2 o ho)) r hr'
      have hall : (BVHNode.tree_objects (BVHNode.node (node_aabb objs) ((a + 1).tmod 3) [] l r)).Perm
          objs := by
        show ([] ++ l.tree_objects ++ r.tree_objects).Perm objs
        rw [List.nil_append]
        exact (List.Perm.append h1.2.2 h2.2.2).trans hperm
      have hbox := node_aabb_eq_union objs hwf
      refine ⟨hbox, ⟨?_, ?_, ?_, h1.2.1, h2.2.1⟩, hall⟩
      · rw [union_box_perm hall]; exact hbox
      · rw [h1.1, hbox]; exact union_box_within _ _ hsub1
      · rw [h2.1, hbox]; exact union_box_within _ _ hsub2

/-- C15: for every non-empty object list in which each object box has
`min ≤ max` componentwise, `make_tree` returns a tree whose root box equals the
union (componentwise min of the mins, max of the maxes) of all input boxes; at
every node of the tree the box is the union of the boxes of the objects handed
to that node, and the box of each child is contained in the box of its parent.
The objects in the tree are the input objects. -/
theorem make_tree_root_box_is_union (oob : Option Nat → Int → ℚ) (objs : List BaseObject)
    (a d : Int) (hne : objs ≠ []) (hwf : ∀ o ∈ objs, o.bmin.le o.bmax) :
    ∃ t lo hi, make_tree oob objs a d = some t ∧ t.aabb = AABB.box lo hi ∧
      t.aabb = union_box objs ∧
      (∀ o ∈ objs, lo.le o.bmin ∧ o.bmax.le hi) ∧
      (∀ lo' hi' : Vec3f, (∀ o ∈ objs, lo'.le o.bmin ∧ o.bmax.le hi') →
        lo'.le lo ∧ hi.le hi') ∧
      t.boxes_ok ∧ t.tree_objects.Perm objs := by
  obtain ⟨t, ht⟩ := make_tree_total oob objs a d
  have h := make_tree_boxes oob objs.length objs a d le_rfl hwf t ht
  cases hu : union_box objs with
  | empty => exact absurd ((union_box_eq_empty objs).mp hu) hne
  | box lo hi =>
    exact ⟨t, lo, hi, ht, h.1.trans hu, h.1.trans hu, union_box_bounds objs lo hi hu,
      union_box_least objs lo hi hu, h.2.1, h.2.2⟩

/-- An instance of C15: four cubes. -/
theorem make_tree_root_box_is_union_witness :
    [obj_small, obj_east, obj_large, obj_west] ≠ [] ∧
    (∀ o ∈ [obj_small, obj_east, obj_large, obj_west], o.bmin.le o.bmax) ∧
    ∃ t lo hi, make_tree no_oob [obj_small, obj_east, obj_large, obj_west] 0 10 = some t ∧
      t.aabb = AABB.box lo hi ∧
      t.aabb = union_box [obj_small, obj_east, obj_large, obj_west] ∧
      (∀ o ∈ [obj_small, obj_east, obj_large, obj_west], lo.le o.bmin ∧ o.bmax.le hi) ∧
      (∀ lo' hi' : Vec3f, (∀ o ∈ [obj_small, obj_east, obj_large, obj_west],
        lo'.le o.bmin ∧ o.bmax.le hi') → lo'.le lo ∧ hi.le hi') ∧
      t.boxes_ok ∧ t.tree_objects.Perm [obj_small, obj_east, obj_large, obj_west] :=
  ⟨by decide, by
      intro o ho
      simp only [List.mem_cons, List.mem_singleton, List.not_mem_nil, or_false] at ho
      rcases ho with h | h | h | h <;> subst h <;>
        exact ⟨by decide!, by decide!, by decide!⟩,
    make_tree_root_box_is_union no_oob [obj_small, obj_east, obj_large, obj_west] 0 10
      (by decide) (by
        intro o ho
        simp only [List.mem_cons, List.mem_singleton, List.not_mem_nil, or_false] at ho
        rcases ho with h | h | h | h <;> subst h <;>
          exact ⟨by decide!, by decide!, by decide!⟩)⟩

end mcl

namespace mcl

/-! ## `make_tree`: termination, depth budget, conservation of the objects -/

/-- C26: `make_tree` terminates for every object list, every `split_axis` and
every `max_depth`: it returns a tree, any number of unfoldings of the
recursion that is at least the number of objects gives that same tree, and
whenever the list has at least 2 objects (so that a recursive call can
happen) both lists passed on are non-empty and strictly shorter than the
list received, also when all the centres coincide. -/
theorem make_tree_terminates (oob : Option Nat → Int → ℚ) (objs : List BaseObject)
    (a d : Int) :
    (∃ t, make_tree oob objs a d = some t) ∧
    (∀ fuel, objs.length ≤ fuel → make_tree_fuel oob fuel objs a d = make_tree oob objs a d) ∧
    (2 ≤ objs.length →
      (call_sides oob objs a).1 ≠ [] ∧ (call_sides oob objs a).2 ≠ [] ∧
      (call_sides oob objs a).1.length < objs.length ∧
      (call_sides oob objs a).2.length < objs.length) := by
  refine ⟨make_tree_total oob objs a d, ?_, ?_⟩
  · intro fuel hf
    exact (make_tree_fuel_enough oob objs.length objs a d le_rfl).2 fuel hf
  · intro h
    have hs := call_sides_facts oob objs a h
    exact ⟨hs.1, hs.2.1, hs.2.2.1, hs.2.2.2.1⟩

/-- Whether the root has children, in terms of the input. -/
theorem make_tree_children_iff (oob : Option Nat → Int → ℚ) (objs : List BaseObject)
    (a d : Int) (t : BVHNode) (h : make_tree oob objs a d = some t) :
    t.has_children = true ↔ 2 ≤ objs.length ∧ 2 ≤ d := by
  by_cases hl : objs.length ≤ 1 ∨ d ≤ 1
  · rw [make_tree_leaf oob objs a d hl] at h
    rw [← Option.some.inj h]
    constructor
    · intro hc; exact absurd hc (by simp [BVHNode.has_children])
    · intro hc; omega
  · rw [not_or, not_le, not_le] at hl
    obtain ⟨l, r, _, _, ht⟩ := make_tree_split oob objs a d hl.1 (by omega)
    rw [ht] at h
    rw [← Option.some.inj h]
    constructor
    · intro _; exact ⟨hl.1, by omega⟩
    · intro _; rfl

theorem make_tree_height (oob : Option Nat → Int → ℚ) :
    ∀ (n : Nat) (objs : List BaseObject) (a d : Int), objs.length ≤ n →
      ∀ t, make_tree oob objs a d = some t → (t.height : Int) ≤ max 0 (d - 1) := by
  intro n
  induction n with
  | zero =>
    intro objs a d hn t ht
    rw [make_tree_leaf oob objs a d (Or.inl (by omega))] at ht
    rw [← Option.some.inj ht]
    exact le_max_left _ _
  | succ n ih =>
    intro objs a d hn t ht
    by_cases hl : objs.length ≤ 1 ∨ d ≤ 1
    · rw [make_tree_leaf oob objs a d hl] at ht
      rw [← Option.some.inj ht]
      exact le_max_left _ _
    · rw [not_or, not_le, not_le] at hl
      have hs := call_sides_facts oob objs a hl.1
      obtain ⟨l, r, hl', hr', ht'⟩ := make_tree_split oob objs a d hl.1 (by omega)
      rw [ht'] at ht
      rw [← Option.some.inj ht]
      have h1 := ih _ _ _ (by omega) l hl'
      have h2 := ih _ _ _ (by omega) r hr'
      have hd : max (0 : Int) (d - 1 - 1) = d - 2 := by
        rw [max_eq_right (by omega)]; ring
      rw [hd] at h1 h2
      have hm : ((Nat.max l.height r.height : Nat) : Int) ≤ d - 2 := by
        show ((max l.height r.height : Nat) : Int) ≤ d - 2
        rcases Nat.le_total l.height r.height with h | h
        · rw [max_eq_right h]; exact h2
        · rw [max_eq_left h]; exact h1
      show ((1 + Nat.max l.height r.height : Nat) : Int) ≤ max 0 (d - 1)
      rw [max_eq_right (by omega)]
      have hm' : ((max l.height r.height : Nat) : Int) ≤ d - 2 := hm
      show ((1 + max l.height r.height : Nat) : Int) ≤ d - 1
      push_cast
      push_cast at hm'
      omega

/-- C27: the depth budget of `make_tree`.  The root gets children if and only if
at least 2 objects and a `max_depth` of at least 2 are given, and then each
child is the tree built from its side with `max_depth - 1`; the height of the
tree is at most `max(0, max_depth - 1)`; `max_depth = 1` gives the same
single leaf as `max_depth = 0`; an empty list gives a node without children
and without objects. -/
theorem make_tree_depth_budget (oob : Option Nat → Int → ℚ) (objs : List BaseObject)
    (a d : Int) :
    (∃ t, make_tree oob objs a d = some t ∧
      (t.has_children = true ↔ 2 ≤ objs.length ∧ 2 ≤ d) ∧
      (t.height : Int) ≤ max 0 (d - 1)) ∧
    (2 ≤ objs.length ∧ 2 ≤ d →
      ∃ l r, make_tree oob (call_sides oob objs a).1 ((a + 1).tmod 3) (d - 1) = some l ∧
        make_tree oob (call_sides oob objs a).2 ((a + 1).tmod 3) (d - 1) = some r ∧
        make_tree oob objs a d =
          some (BVHNode.node (node_aabb objs) ((a + 1).tmod 3) [] l r)) ∧
    make_tree oob objs a 1 = make_tree oob objs a 0 ∧
    make_tree oob objs a 1 =
      some (BVHNode.leaf (node_aabb objs) ((a + 1).tmod 3) objs) ∧
    make_tree oob [] a d = some (BVHNode.leaf AABB.empty ((a + 1).tmod 3) []) := by
  obtain ⟨t, ht⟩ := make_tree_total oob objs a d
  refine ⟨⟨t, ht, make_tree_children_iff oob objs a d t ht,
    make_tree_height oob objs.length objs a d le_rfl t ht⟩, ?_, ?_, ?_, ?_⟩
  · intro h
    exact make_tree_split oob objs a d h.1 h.2
  · rw [make_tree_leaf oob objs a 1 (Or.inr le_rfl),
      make_tree_leaf oob objs a 0 (Or.inr (by decide))]
  · exact make_tree_leaf oob objs a 1 (Or.inr le_rfl)
  · exact make_tree_leaf oob [] a d (Or.inl (by simp))

theorem make_tree_leaves (oob : Option Nat → Int → ℚ) :
    ∀ (n : Nat) (objs : List BaseObject) (a d : Int), objs.length ≤ n →
      ∀ t, make_tree oob objs a d = some t →
        t.leaf_objects.Perm objs ∧ t.interior_empty := by
  intro n
  induction n with
  | zero =>
    intro objs a d hn t ht
    rw [make_tree_leaf oob objs a d (Or.inl (by omega))] at ht
    rw [← Option.some.inj ht]
    exact ⟨List.Perm.refl _, trivial⟩
  | succ n ih =>
    intro objs a d hn t ht
    by_cases hl : objs.length ≤ 1 ∨ d ≤ 1
    · rw [make_tree_leaf oob objs a d hl] at ht
      rw [← Option.some.inj ht]
      exact ⟨List.Perm.refl _, trivial⟩
    · rw [not_or, not_le, not_le] at hl
      have hs := call_sides_facts oob objs a hl.1
      obtain ⟨l, r, hl', hr', ht'⟩ := make_tree_split oob objs a d hl.1 (by omega)
      rw [ht'] at ht
      rw [← Option.some.inj ht]
      have h1 := ih _ _ _ (by omega) l hl'
      have h2 := ih _ _ _ (by omega) r hr'
      exact ⟨(List.Perm.append h1.1 h2.1).trans hs.2.2.2.2, rfl, h1.2, h2.2⟩

/-- C28: objects are conserved by `make_tree`: it returns a tree whose leaf object
lists, taken together, are a permutation of the input list (nothing dropped,
nothing duplicated), and no node with children stores an object.  Centre
coordinates are rationals here, hence totally ordered. -/
theorem make_tree_conserves_objects (oob : Option Nat → Int → ℚ) (objs : List BaseObject)
    (a d : Int) :
    ∃ t, make_tree oob objs a d = some t ∧ t.leaf_objects.Perm objs ∧
      t.leaf_objects.length = objs.length ∧ (∀ o, o ∈ t.leaf_objects ↔ o ∈ objs) ∧
      (∀ o, t.leaf_objects.count o = objs.count o) ∧ t.interior_empty := by
  obtain ⟨t, ht⟩ := make_tree_total oob objs a d
  have h := make_tree_leaves oob objs.length objs a d le_rfl t ht
  exact ⟨t, ht, h.1, h.1.length_eq, fun o => h.1.mem_iff, fun o => h.1.count_eq o, h.2⟩

end mcl

namespace mcl

/-! ## The five tets of a cube: volumes -/

/-- C25: the pattern (0,2,7,5), (0,7,2,1), (0,5,7,4), (0,2,5,3), (2,7,5,6) applied
to the eight corners that `gen_tets` builds for a box with strictly positive
extents gives five tetrahedra with signed volumes `-V/3, -V/6, -V/6, -V/6, -V/6`
where `V > 0` is the volume of the box: none is degenerate, all have the same
sign, and the absolute volumes sum to `V`.  The corners are the eight vertices
`gen_tets` appends, and the tets it appends are this pattern plus its offset. -/
theorem cube_pattern_fills_box (min max : Vec3f) (verts : List Vec3f) (tets : List Vec4i)
    (hx : min.x < max.x) (hy : min.y < max.y) (hz : min.z < max.z) :
    (gen_tets min max verts tets).1 = verts ++ (gen_tets min max [] []).1 ∧
    (gen_tets min max verts tets).2 =
      tets ++ cube_pattern.map (fun t => t.shift ((verts.length : Int) + 8)) ∧
    0 < box_volume min max ∧
    cube_pattern.map (tet_volume (gen_tets min max [] []).1) =
      [-(box_volume min max / 3), -(box_volume min max / 6), -(box_volume min max / 6),
        -(box_volume min max / 6), -(box_volume min max / 6)] ∧
    (∀ v ∈ cube_pattern.map (tet_volume (gen_tets min max [] []).1), v < 0) ∧
    ((cube_pattern.map (tet_volume (gen_tets min max [] []).1)).map abs).sum =
      box_volume min max := by
  have hV : 0 < box_volume min max := by
    unfold box_volume
    have h1 : 0 < max.x - min.x := by linarith
    have h2 : 0 < max.y - min.y := by linarith
    have h3 : 0 < max.z - min.z := by linarith
    positivity
  have hvol : cube_pattern.map (tet_volume (gen_tets min max [] []).1) =
      [-(box_volume min max / 3), -(box_volume min max / 6), -(box_volume min max / 6),
        -(box_volume min max / 6), -(box_volume min max / 6)] := by
    have e : ∀ a b : Vec3f, a - b = ⟨a.x - b.x, a.y - b.y, a.z - b.z⟩ := fun _ _ => rfl
    have h0 : tet_volume (gen_tets min max [] []).1 ⟨0, 2, 7, 5⟩ =
        signed_volume min ⟨max.x, min.y, max.z⟩ ⟨min.x, max.y, max.z⟩ ⟨max.x, max.y, min.z⟩ := rfl
    have h1 : tet_volume (gen_tets min max [] []).1 ⟨0, 7, 2, 1⟩ =
        signed_volume min ⟨min.x, max.y, max.z⟩ ⟨max.x, min.y, max.z⟩ ⟨min.x, min.y, max.z⟩ := rfl
    have h2 : tet_volume (gen_tets min max [] []).1 ⟨0, 5, 7, 4⟩ =
        signed_volume min ⟨max.x, max.y, min.z⟩ ⟨min.x, max.y, max.z⟩ ⟨min.x, max.y, min.z⟩ := rfl
    have h3 : tet_volume (gen_tets min max [] []).1 ⟨0, 2, 5, 3⟩ =
        signed_volume min ⟨max.x, min.y, max.z⟩ ⟨max.x, max.y, min.z⟩ ⟨max.x, min.y, min.z⟩ := rfl
    have h4 : tet_volume (gen_tets min max [] []).1 ⟨2, 7, 5, 6⟩ =
        signed_volume ⟨max.x, min.y, max.z⟩ ⟨min.x, max.y, max.z⟩ ⟨max.x, max.y, min.z⟩
          ⟨max.x, max.y, max.z⟩ := rfl
    simp only [cube_pattern, List.map_cons, List.map_nil, h0, h1, h2, h3, h4]
    simp only [signed_volume, scalar_triple_product, Vec3f.dot, Vec3f.cross, e, box_volume]
    congr 1
    · ring
    congr 1
    · ring
    congr 1
    · ring
    congr 1
    · ring
    congr 1
    ring
  refine ⟨?_, ?_, hV, hvol, ?_, ?_⟩
  · simp [gen_tets]
  · simp only [gen_tets, cube_pattern, Vec4i.shift, List.map_cons, List.map_nil,
      List.length_append, List.length_cons, List.length_nil]
    push_cast
    norm_num
  · rw [hvol]
    intro v hv
    simp only [List.mem_cons, List.mem_singleton, List.not_mem_nil, or_false] at hv
    rcases hv with h | h | h | h | h <;> rw [h] <;> linarith
  · rw [hvol]
    simp only [List.map_cons, List.map_nil, List.sum_cons, List.sum_nil, abs_neg]
    rw [abs_of_pos (by linarith : 0 < box_volume min max / 3),
      abs_of_pos (by linarith : 0 < box_volume min max / 6)]
    ring

/-- An instance of C25: the box `[0,1] x [0,2] x [0,3]`. -/
theorem cube_pattern_fills_box_witness :
    (0 : ℚ) < 1 ∧ (0 : ℚ) < 2 ∧ (0 : ℚ) < 3 ∧
    cube_pattern.map (tet_volume (gen_tets ⟨0, 0, 0⟩ ⟨1, 2, 3⟩ [] []).1) =
      [-(box_volume ⟨0, 0, 0⟩ ⟨1, 2, 3⟩ / 3), -(box_volume ⟨0, 0, 0⟩ ⟨1, 2, 3⟩ / 6),
        -(box_volume ⟨0, 0, 0⟩ ⟨1, 2, 3⟩ / 6), -(box_volume ⟨0, 0, 0⟩ ⟨1, 2, 3⟩ / 6),
        -(box_volume ⟨0, 0, 0⟩ ⟨1, 2, 3⟩ / 6)] :=
  ⟨by norm_num, by norm_num, by norm_num,
    (cube_pattern_fills_box ⟨0, 0, 0⟩ ⟨1, 2, 3⟩ [] [] (by norm_num) (by norm_num)
      (by norm_num)).2.2.2.1⟩

/-! ## `apply_xform` and the embedding -/

/-- An in-range read of a transformed vertex array is the transformed read. -/
theorem vget_map (env : Env) (xf : XForm) (verts : List Vec3f) (idx : Int)
    (h : 0 ≤ idx ∧ idx < (verts.length : Int)) :
    vget env (verts.map xf.apply) idx = xf.apply (vget env verts idx) := by
  have hn : idx.toNat < verts.length := by omega
  unfold vget
  rw [List.length_map, if_pos h, if_pos h, List.getD_eq_getElem?_getD,
    List.getD_eq_getElem?_getD, List.getElem?_map, List.getElem?_eq_getElem hn]
  rfl

/-- An affine map commutes with a barycentric combination whose weights sum to 1. -/
theorem xform_bary (xf : XForm) (b : Vec4f) (p0 p1 p2 p3 : Vec3f) (hsum : b.sum = 1) :
    b.c0 * xf.apply p0 + b.c1 * xf.apply p1 + b.c2 * xf.apply p2 + b.c3 * xf.apply p3 =
      xf.apply (b.c0 * p0 + b.c1 * p1 + b.c2 * p2 + b.c3 * p3) := by
  have hs : b.c0 + b.c1 + b.c2 + b.c3 = 1 := hsum
  show Vec3f.add (Vec3f.add (Vec3f.add (Vec3f.smul _ _) (Vec3f.smul _ _)) (Vec3f.smul _ _))
      (Vec3f.smul _ _) =
    xf.apply (Vec3f.add (Vec3f.add (Vec3f.add (Vec3f.smul _ _) (Vec3f.smul _ _))
      (Vec3f.smul _ _)) (Vec3f.smul _ _))
  simp only [XForm.apply, Vec3f.add, Vec3f.smul, Vec3f.dot, Vec3f.mk.injEq]
  refine ⟨?_, ?_, ?_⟩
  · linear_combination xf.b.x * hs
  · linear_combination xf.b.y * hs
  · linear_combination xf.b.z * hs

/-- The barycentric position over the transformed lattice is the transformed
barycentric position. -/
theorem bary_combo_map (env : Env) (xf : XForm) (verts : List Vec3f) (tet : Vec4i) (b : Vec4f)
    (ht : (0 ≤ tet.i0 ∧ tet.i0 < (verts.length : Int)) ∧
      (0 ≤ tet.i1 ∧ tet.i1 < (verts.length : Int)) ∧
      (0 ≤ tet.i2 ∧ tet.i2 < (verts.length : Int)) ∧
      (0 ≤ tet.i3 ∧ tet.i3 < (verts.length : Int)))
    (hsum : b.sum = 1) :
    bary_combo env (verts.map xf.apply) tet b = xf.apply (bary_combo env verts tet b) := by
  unfold bary_combo
  rw [vget_map env xf verts _ ht.1, vget_map env xf verts _ ht.2.1,
    vget_map env xf verts _ ht.2.2.1, vget_map env xf verts _ ht.2.2.2]
  exact xform_bary xf b _ _ _ _ hsum

/-- C29, as amended: when the lattice is non-empty and its tets index existing
lattice vertices, `vert_to_tet` and `barycoords` have one entry per embedded
vertex, every `vert_to_tet[i]` is in range, every `barycoords[i]` sums to
exactly 1 and every embedded vertex is the barycentric combination of the
lattice vertices of its tet, then after `apply_xform` with `x ↦ A x + b` each
embedded vertex is `A p + b` for its position `p` before the call, the lattice
vertices are transformed, and `barycoords` and `vert_to_tet` are unchanged. -/
theorem apply_xform_commutes (env : Env) (xf : XForm) (s : EmbeddedMesh)
    (hlat : s.lattice.vertices ≠ [])
    (hv : s.vert_to_tet.length = s.embedded.vertices.length)
    (hb : s.barycoords.length = s.embedded.vertices.length)
    (hrange : ∀ i, i < s.embedded.vertices.length →
      0 ≤ s.vert_to_tet.getD i 0 ∧ s.vert_to_tet.getD i 0 < (s.lattice.tets.length : Int))
    (htets : ∀ t ∈ s.lattice.tets,
      (0 ≤ t.i0 ∧ t.i0 < (s.lattice.vertices.length : Int)) ∧
      (0 ≤ t.i1 ∧ t.i1 < (s.lattice.vertices.length : Int)) ∧
      (0 ≤ t.i2 ∧ t.i2 < (s.lattice.vertices.length : Int)) ∧
      (0 ≤ t.i3 ∧ t.i3 < (s.lattice.vertices.length : Int)))
    (hsum : ∀ i, i < s.embedded.vertices.length → (s.barycoords.getD i default).sum = 1)
    (hemb : ∀ i, i < s.embedded.vertices.length →
      s.embedded.vertices.getD i default =
        bary_combo env s.lattice.vertices
          (s.lattice.tets.getD (s.vert_to_tet.getD i 0).toNat default)
          (s.barycoords.getD i default)) :
    (apply_xform env xf s).embedded.vertices = s.embedded.vertices.map xf.apply ∧
    (apply_xform env xf s).lattice.vertices = s.lattice.vertices.map xf.apply ∧
    (apply_xform env xf s).lattice.tets = s.lattice.tets ∧
    (apply_xform env xf s).barycoords = s.barycoords ∧
    (apply_xform env xf s).vert_to_tet = s.vert_to_tet := by
  have hl0 : ¬ s.lattice.vertices.length = 0 := fun h => hlat (List.length_eq_zero.mp h)
  have hsz : ¬ (s.vert_to_tet.length ≠ s.embedded.vertices.length ∨
      s.vert_to_tet.length ≠ s.barycoords.length) := by
    rw [hv, hb]; simp
  have hrun : apply_xform env xf s =
      ⟨⟨(List.range s.vert_to_tet.length).foldl
          (update_embedded_step env (s.lattice.apply_xform xf) s.barycoords s.vert_to_tet)
          s.embedded.vertices, s.embedded.faces, true⟩,
        s.lattice.apply_xform xf, s.barycoords, s.vert_to_tet, s.out⟩ := by
    unfold apply_xform
    rw [if_neg hl0]
    exact update_embedded_eq_of_sizes env _ hsz
  rw [hrun]
  refine ⟨?_, rfl, rfl, rfl, rfl⟩
  show (List.range s.vert_to_tet.length).foldl
      (update_embedded_step env (s.lattice.apply_xform xf) s.barycoords s.vert_to_tet)
      s.embedded.vertices = s.embedded.vertices.map xf.apply
  apply List.ext_getElem?
  intro i
  rw [update_embedded_fold_get, List.getElem?_map]
  by_cases hi : i < s.embedded.vertices.length
  · have hr := hrange i hi
    have hin : (s.vert_to_tet.getD i 0).toNat < s.lattice.tets.length := by omega
    have hmem : s.lattice.tets.getD (s.vert_to_tet.getD i 0).toNat default ∈ s.lattice.tets := by
      rw [List.getD_eq_getElem?_getD, List.getElem?_eq_getElem hin]
      exact List.getElem_mem hin
    have hcond : i < s.vert_to_tet.length ∧ i < s.embedded.vertices.length ∧
        ¬ (s.vert_to_tet.getD i 0 < 0 ∨
          s.vert_to_tet.getD i 0 ≥ ((s.lattice.apply_xform xf).tets.length : Int)) := by
      refine ⟨by omega, hi, ?_⟩
      show ¬ (s.vert_to_tet.getD i 0 < 0 ∨ s.vert_to_tet.getD i 0 ≥ (s.lattice.tets.length : Int))
      omega
    rw [if_pos hcond, List.getElem?_eq_getElem hi, Option.map_some']
    have hp : s.embedded.vertices[i] = s.embedded.vertices.getD i default := by
      rw [List.getD_eq_getElem?_getD, List.getElem?_eq_getElem hi]
      rfl
    rw [hp, hemb i hi]
    show some (bary_combo env (s.lattice.vertices.map xf.apply)
      (s.lattice.tets.getD (s.vert_to_tet.getD i 0).toNat default)
      (s.barycoords.getD i default)) = _
    rw [bary_combo_map env xf _ _ _ (htets _ hmem) (hsum i hi)]
  · rw [if_neg (fun h => hi h.2.1), List.getElem?_eq_none (not_lt.mp hi)]
    rfl

/-- An instance of C29: two vertices embedded in one tet, moved by a translation. -/
theorem apply_xform_commutes_witness :
    matched_ready.lattice.vertices ≠ [] ∧
    (apply_xform env_zero shift_x matched_ready).embedded.vertices =
      matched_ready.embedded.vertices.map shift_x.apply ∧
    (apply_xform env_zero shift_x matched_ready).embedded.vertices =
      [⟨5 / 4, 1 / 4, 1 / 4⟩, ⟨1, 0, 0⟩] :=
  ⟨by decide,
    (apply_xform_commutes env_zero shift_x matched_ready (by decide) (by decide) (by decide)
      (by decide!) (by decide!) (by decide!) (by decide!)).1,
    by decide!⟩

/-- C29 as stated fails when the mapping arrays are longer than the surface: the
lattice is non-empty, every `vert_to_tet[i]` is in range, every `barycoords[i]`
sums to 1 and the embedded vertex is the barycentric combination of its tet,
but `update_embedded` refuses the size mismatch (lines 90-93), so after a
translation the embedded vertex is where it was, not at its image. -/
theorem apply_xform_size_mismatch_keeps_vertices :
    mismatched_ready.lattice.vertices ≠ [] ∧
    (∀ v ∈ mismatched_ready.vert_to_tet,
      0 ≤ v ∧ v < (mismatched_ready.lattice.tets.length : Int)) ∧
    (∀ b ∈ mismatched_ready.barycoords, b.sum = 1) ∧
    (∀ i, i < mismatched_ready.embedded.vertices.length →
      mismatched_ready.embedded.vertices.getD i default =
        bary_combo env_zero mismatched_ready.lattice.vertices
          (mismatched_ready.lattice.tets.getD (mismatched_ready.vert_to_tet.getD i 0).toNat default)
          (mismatched_ready.barycoords.getD i default)) ∧
    (apply_xform env_zero shift_x mismatched_ready).embedded.vertices = [⟨1 / 4, 1 / 4, 1 / 4⟩] ∧
    mismatched_ready.embedded.vertices.map shift_x.apply = [⟨5 / 4, 1 / 4, 1 / 4⟩] ∧
    (apply_xform env_zero shift_x mismatched_ready).embedded.vertices ≠
      mismatched_ready.embedded.vertices.map shift_x.apply := by
  decide!

/-! ## `ParticleCloud::load`: the index check of the `.node` branch -/

/-- C30: the check of line 95 is `idx > vertices.size()`, so an adjusted index
equal to the number of nodes passes it and the write of line 99 falls one
past the end of the array.  The check returns `false` exactly for adjusted
indices below 0 (through the conversion to `size_t`) or above `n`; the file
with header 2 and the lines `0 0 0 0`, `2 1 1 1` reaches the write
`vertices[2]` on an array of 2 elements. -/
theorem node_index_check_admits_size :
    load_node [] 2 bad_node_file = LoadOutcome.out_of_range_write 2 2 ∧
    (∀ (st : NodeScan) (i : Nat) (line : NodeLine),
      -2 ^ 31 ≤ adjusted_idx st i line → adjusted_idx st i line < 2 ^ 31 →
      (st.vertices.length : Int) < 2 ^ 31 →
      ((node_step st i line = Sum.inl (LoadOutcome.returned false st.vertices) ↔
          adjusted_idx st i line < 0 ∨ adjusted_idx st i line > (st.vertices.length : Int)) ∧
        (adjusted_idx st i line = (st.vertices.length : Int) →
          node_step st i line =
            Sum.inl (LoadOutcome.out_of_range_write (st.vertices.length : Int)
              st.vertices.length)))) := by
  refine ⟨by decide!, ?_⟩
  intro st i line hlo hhi hn
  have hconv : to_size_t (adjusted_idx st i line) > (st.vertices.length : Int) ↔
      adjusted_idx st i line < 0 ∨ adjusted_idx st i line > (st.vertices.length : Int) := by
    unfold to_size_t
    norm_num at hlo hhi hn ⊢
    omega
  constructor
  · unfold node_step
    dsimp only
    constructor
    · intro h
      by_contra hnot
      rw [← hconv] at hnot
      rw [if_neg hnot] at h
      split at h <;> simp at h
    · intro h
      rw [if_pos (hconv.mpr h)]
  · intro heq
    unfold node_step
    dsimp only
    have h1 : ¬ to_size_t (adjusted_idx st i line) > (st.vertices.length : Int) := by
      rw [hconv]; omega
    have h2 : ¬ (0 ≤ adjusted_idx st i line ∧
        adjusted_idx st i line < (st.vertices.length : Int)) := by omega
    rw [if_neg h1, if_neg h2, heq]

end mcl

namespace mcl

/-! ## The first localization pass: which tet is recorded -/

/-- Reading a slot other than the one just written. -/
theorem getD_set_other {α : Type} (l : List α) (k i : Nat) (x d : α) (h : k ≠ i) :
    (l.set k x).getD i d = l.getD i d := by
  rw [List.getD_eq_getElem?_getD, List.getD_eq_getElem?_getD, List.getElem?_set_ne h]

/-- Reading the slot just written. -/
theorem getD_set_same {α : Type} (l : List α) (k : Nat) (x d : α) (h : k < l.length) :
    (l.set k x).getD k d = x := by
  rw [List.getD_eq_getElem?_getD, List.getElem?_set_self h]
  rfl

/-- The scan of lines 158-165 ends with the weights and the index of the last
tet, in scan order, that contains the point. -/
theorem localize_greatest (env : Env) (verts : List Vec3f) (point : Vec3f) (tets : List Vec4i) :
    ∀ (j : Int) (acc : Vec4f × Int),
      (∃ tet ∈ tets, in_tet env verts point tet = true) →
      ∃ k, k < tets.length ∧ in_tet env verts point (tets.getD k default) = true ∧
        (∀ k', k < k' → k' < tets.length →
          in_tet env verts point (tets.getD k' default) = false) ∧
        localize env verts point tets j acc =
          (tet_weights env verts point (tets.getD k default), j + (k : Int)) := by
  induction tets with
  | nil =>
    intro j acc h
    obtain ⟨tet, hmem, _⟩ := h
    exact absurd hmem (List.not_mem_nil _)
  | cons t rest ih =>
    intro j acc h
    by_cases hrest : ∃ tet ∈ rest, in_tet env verts point tet = true
    · have hstep : ∃ acc', localize env verts point (t :: rest) j acc =
          localize env verts point rest (j + 1) acc' := by
        by_cases ht : env.point_in_tet point (vget env verts t.i0) (vget env verts t.i1)
            (vget env verts t.i2) (vget env verts t.i3) = true
        · refine ⟨(env.barycoords point (vget env verts t.i0) (vget env verts t.i1)
            (vget env verts t.i2) (vget env verts t.i3), j), ?_⟩
          conv_lhs => unfold localize
          rw [if_pos ht]
        · refine ⟨acc, ?_⟩
          conv_lhs => unfold localize
          rw [if_neg ht]
      obtain ⟨acc', hacc⟩ := hstep
      obtain ⟨k, hk, hin, hlast, hloc⟩ := ih (j + 1) acc' hrest
      refine ⟨k + 1, by simp only [List.length_cons]; omega, ?_, ?_, ?_⟩
      · simpa only [List.getD_cons_succ] using hin
      · intro k' hk' hlen
        obtain ⟨m, rfl⟩ : ∃ m, k' = m + 1 := ⟨k' - 1, by omega⟩
        simp only [List.getD_cons_succ]
        exact hlast m (by omega) (by simp only [List.length_cons] at hlen; omega)
      · rw [hacc, hloc]
        simp only [List.getD_cons_succ]
        congr 1
        push_cast
        ring
    · have hnone : ∀ tet ∈ rest, env.point_in_tet point (vget env verts tet.i0)
          (vget env verts tet.i1) (vget env verts tet.i2) (vget env verts tet.i3) = false := by
        intro tet hmem
        by_contra hc
        exact hrest ⟨tet, hmem, by simpa [in_tet] using hc⟩
      have ht : in_tet env verts point t = true := by
        obtain ⟨tet, hmem, hin⟩ := h
        rcases List.mem_cons.mp hmem with rfl | hmem
        · exact hin
        · exact absurd ⟨tet, hmem, hin⟩ hrest
      refine ⟨0, by simp, by simpa using ht, ?_, ?_⟩
      · intro k' hk' hlen
        obtain ⟨m, rfl⟩ : ∃ m, k' = m + 1 := ⟨k' - 1, by omega⟩
        simp only [List.getD_cons_succ]
        have hm : m < rest.length := by simp only [List.length_cons] at hlen; omega
        have hmem : rest.getD m default ∈ rest := by
          rw [List.getD_eq_getElem?_getD, List.getElem?_eq_getElem hm]
          exact List.getElem_mem hm
        exact hnone _ hmem
      · unfold localize
        have ht' : env.point_in_tet point (vget env verts t.i0) (vget env verts t.i1)
            (vget env verts t.i2) (vget env verts t.i3) = true := ht
        rw [if_pos ht', localize_uncovered env verts point rest hnone]
        simp only [List.getD_cons_zero, Nat.cast_zero, add_zero]
        rfl

/-- What the first pass leaves: the array sizes; in slot `i` the outcome of the
scan for vertex `i`, started from the slot's prior content; and a positive
counter exactly for the tets that some `vert_to_tet[i]` names. -/
theorem first_pass_spec (env : Env) (points verts : List Vec3f) (tets : List Vec4i)
    (bc : List Vec4f) (v2t : List Int) :
    (first_pass env points verts tets bc v2t).barycoords.length = points.length ∧
    (first_pass env points verts tets bc v2t).vert_to_tet.length = points.length ∧
    (first_pass env points verts tets bc v2t).num_v_in_t.length = tets.length ∧
    (∀ i, i < points.length →
      ((first_pass env points verts tets bc v2t).barycoords.getD i default,
        (first_pass env points verts tets bc v2t).vert_to_tet.getD i 0) =
      localize env verts (points.getD i default) tets 0
        ((resize bc points.length ⟨-1, -1, -1, -1⟩).getD i default,
          (resize v2t points.length (-1)).getD i 0)) ∧
    (∀ j, j < tets.length →
      (0 < (first_pass env points verts tets bc v2t).num_v_in_t.getD j 0 ↔
        ∃ i, i < points.length ∧
          (first_pass env points verts tets bc v2t).vert_to_tet.getD i 0 = (j : Int))) := by
  have hrel := foldl_range_rel
    (fun (k : Nat) (a : Pass1) (_ : Unit) =>
      a.barycoords.length = points.length ∧ a.vert_to_tet.length = points.length ∧
      a.num_v_in_t.length = tets.length ∧
      (∀ i, i < k →
        (a.barycoords.getD i default, a.vert_to_tet.getD i 0) =
          localize env verts (points.getD i default) tets 0
            ((resize bc points.length ⟨-1, -1, -1, -1⟩).getD i default,
              (resize v2t points.length (-1)).getD i 0)) ∧
      (∀ i, k ≤ i →
        a.barycoords.getD i default = (resize bc points.length ⟨-1, -1, -1, -1⟩).getD i default ∧
        a.vert_to_tet.getD i 0 = (resize v2t points.length (-1)).getD i 0) ∧
      (∀ j, j < tets.length → 0 ≤ a.num_v_in_t.getD j 0 ∧
        (0 < a.num_v_in_t.getD j 0 ↔ ∃ i, i < k ∧ a.vert_to_tet.getD i 0 = (j : Int))))
    (pass1_step env points verts tets) (fun u _ => u) points.length
    (by
      intro k a _ hk ⟨hbl, hvl, hnl, hdone, hrest, hnum⟩
      have hk0 := hrest k le_rfl
      generalize hr : localize env verts (points.getD k default) tets 0
        ((resize bc points.length ⟨-1, -1, -1, -1⟩).getD k default,
          (resize v2t points.length (-1)).getD k 0) = r at *
      have hstep : pass1_step env points verts tets a k =
          if r.2 < 0 then ⟨a.barycoords.set k r.1, a.vert_to_tet.set k r.2, a.num_v_in_t⟩
          else ⟨a.barycoords.set k r.1, a.vert_to_tet.set k r.2,
            a.num_v_in_t.set r.2.toNat (a.num_v_in_t.getD r.2.toNat 0 + 1)⟩ := by
        unfold pass1_step
        dsimp only
        rw [hk0.1, hk0.2, hr]
      have hbk : k < a.barycoords.length := by omega
      have hvk : k < a.vert_to_tet.length := by omega
      have hex : ∀ j : Nat, (∃ i, i < k + 1 ∧ (a.vert_to_tet.set k r.2).getD i 0 = (j : Int)) ↔
          ((∃ i, i < k ∧ a.vert_to_tet.getD i 0 = (j : Int)) ∨ r.2 = (j : Int)) := by
        intro j
        constructor
        · rintro ⟨i, hi, hv⟩
          by_cases hik : k = i
          · subst hik
            rw [getD_set_same _ _ _ _ hvk] at hv
            exact Or.inr hv
          · rw [getD_set_other _ _ _ _ _ hik] at hv
            exact Or.inl ⟨i, by omega, hv⟩
        · rintro (⟨i, hi, hv⟩ | hv)
          · exact ⟨i, by omega, by rw [getD_set_other _ _ _ _ _ (by omega)]; exact hv⟩
          · exact ⟨k, by omega, by rw [getD_set_same _ _ _ _ hvk]; exact hv⟩
      have hcommon : ∀ (nums : List Int),
          (∀ i, i < k + 1 →
            ((a.barycoords.set k r.1).getD i default, (a.vert_to_tet.set k r.2).getD i 0) =
              localize env verts (points.getD i default) tets 0
                ((resize bc points.length ⟨-1, -1, -1, -1⟩).getD i default,
                  (resize v2t points.length (-1)).getD i 0)) ∧
          (∀ i, k + 1 ≤ i →
            (a.barycoords.set k r.1).getD i default =
              (resize bc points.length ⟨-1, -1, -1, -1⟩).getD i default ∧
            (a.vert_to_tet.set k r.2).getD i 0 = (resize v2t points.length (-1)).getD i 0) := by
        intro _
        refine ⟨?_, ?_⟩
        · intro i hi
          by_cases hik : k = i
          · subst hik
            rw [getD_set_same _ _ _ _ hbk, getD_set_same _ _ _ _ hvk, hr]
          · rw [getD_set_other _ _ _ _ _ hik, getD_set_other _ _ _ _ _ hik]
            exact hdone i (by omega)
        · intro i hi
          rw [getD_set_other _ _ _ _ _ (by omega), getD_set_other _ _ _ _ _ (by omega)]
          exact hrest i (by omega)
      rw [hstep]
      by_cases hneg : r.2 < 0
      · rw [if_pos hneg]
        refine ⟨by simp [hbl], by simp [hvl], hnl, (hcommon []).1, (hcommon []).2, ?_⟩
        intro j hj
        refine ⟨(hnum j hj).1, ?_⟩
        show 0 < a.num_v_in_t.getD j 0 ↔ _
        rw [hex j, (hnum j hj).2]
        constructor
        · intro h; exact Or.inl h
        · rintro (h | h)
          · exact h
          · omega
      · rw [if_neg hneg]
        refine ⟨by simp [hbl], by simp [hvl], by simp [hnl], (hcommon []).1, (hcommon []).2, ?_⟩
        intro j hj
        show 0 ≤ (a.num_v_in_t.set r.2.toNat (a.num_v_in_t.getD r.2.toNat 0 + 1)).getD j 0 ∧
          (0 < (a.num_v_in_t.set r.2.toNat (a.num_v_in_t.getD r.2.toNat 0 + 1)).getD j 0 ↔ _)
        rw [hex j]
        by_cases hrj : r.2.toNat = j
        · have hjl : r.2.toNat < a.num_v_in_t.length := by omega
          rw [← hrj, getD_set_same _ _ _ _ hjl]
          have h0 := (hnum r.2.toNat (by omega)).1
          refine ⟨by omega, ?_⟩
          constructor
          · intro _; right; omega
          · intro _; omega
        · rw [getD_set_other _ _ _ _ _ hrj]
          refine ⟨(hnum j hj).1, ?_⟩
          rw [(hnum j hj).2]
          constructor
          · intro h; exact Or.inl h
          · rintro (h | h)
            · exact h
            · omega)
    ⟨resize bc points.length ⟨-1, -1, -1, -1⟩, resize v2t points.length (-1),
      List.replicate tets.length 0⟩ ()
    ⟨resize_length _ _ _, resize_length _ _ _, List.length_replicate _ _,
      fun i hi => absurd hi (Nat.not_lt_zero i), fun i _ => ⟨rfl, rfl⟩, by
        intro j hj
        have h0 : (List.replicate tets.length (0 : Int)).getD j 0 = 0 := by
          rw [List.getD_eq_getElem?_getD, List.getElem?_replicate]
          split <;> rfl
        rw [h0]
        refine ⟨le_rfl, ?_⟩
        constructor
        · intro h; exact absurd h (lt_irrefl 0)
        · rintro ⟨i, hi, _⟩; exact absurd hi (Nat.not_lt_zero i)⟩
  obtain ⟨hbl, hvl, hnl, hdone, _, hnum⟩ := hrel
  exact ⟨hbl, hvl, hnl, hdone, fun j hj => (hnum j hj).2⟩

/-- C23: tie-break of the first localization pass.  For every embedded vertex
that `point_in_tet` finds in at least one generated tet, the first pass records
in `vert_to_tet[i]` the greatest index, in scan order, of a tet containing the
vertex, and in `barycoords[i]` the weights computed for that tet: the scan
does not stop at the first containing tet. -/
theorem first_pass_records_last_containing (env : Env) (points verts : List Vec3f)
    (tets : List Vec4i) (bc : List Vec4f) (v2t : List Int) (i : Nat)
    (hi : i < points.length)
    (hcov : ∃ tet ∈ tets, in_tet env verts (points.getD i default) tet = true) :
    ∃ k, k < tets.length ∧
      in_tet env verts (points.getD i default) (tets.getD k default) = true ∧
      (∀ k', k < k' → k' < tets.length →
        in_tet env verts (points.getD i default) (tets.getD k' default) = false) ∧
      (first_pass env points verts tets bc v2t).vert_to_tet.getD i 0 = (k : Int) ∧
      (first_pass env points verts tets bc v2t).barycoords.getD i default =
        tet_weights env verts (points.getD i default) (tets.getD k default) := by
  obtain ⟨k, hk, hin, hlast, hloc⟩ := localize_greatest env verts (points.getD i default) tets 0
    ((resize bc points.length ⟨-1, -1, -1, -1⟩).getD i default,
      (resize v2t points.length (-1)).getD i 0) hcov
  have hspec := (first_pass_spec env points verts tets bc v2t).2.2.2.1 i hi
  rw [hloc] at hspec
  refine ⟨k, hk, hin, hlast, ?_, ?_⟩
  · have := congrArg Prod.snd hspec
    simpa using this
  · exact congrArg Prod.fst hspec

/-- An instance of C23: a point inside two copies of the same tet is mapped to the
second one. -/
theorem first_pass_records_last_containing_witness :
    0 < [(⟨1 / 4, 1 / 4, 1 / 4⟩ : Vec3f)].length ∧
    (first_pass env_zero [⟨1 / 4, 1 / 4, 1 / 4⟩]
      [⟨0, 0, 0⟩, ⟨1, 0, 0⟩, ⟨0, 1, 0⟩, ⟨0, 0, 1⟩] [⟨0, 1, 2, 3⟩, ⟨0, 1, 2, 3⟩] [] []).vert_to_tet
      = [1] ∧
    ∃ k, k < [(⟨0, 1, 2, 3⟩ : Vec4i), ⟨0, 1, 2, 3⟩].length ∧
      (first_pass env_zero [⟨1 / 4, 1 / 4, 1 / 4⟩]
        [⟨0, 0, 0⟩, ⟨1, 0, 0⟩, ⟨0, 1, 0⟩, ⟨0, 0, 1⟩] [⟨0, 1, 2, 3⟩, ⟨0, 1, 2, 3⟩] []
        []).vert_to_tet.getD 0 0 = (k : Int) := by
  refine ⟨by decide, by decide!, ?_⟩
  obtain ⟨k, hk, _, _, hv, _⟩ := first_pass_records_last_containing env_zero
    [⟨1 / 4, 1 / 4, 1 / 4⟩] [⟨0, 0, 0⟩, ⟨1, 0, 0⟩, ⟨0, 1, 0⟩, ⟨0, 0, 1⟩]
    [⟨0, 1, 2, 3⟩, ⟨0, 1, 2, 3⟩] [] [] 0 (by decide) ⟨⟨0, 1, 2, 3⟩, by decide, by decide!⟩
  exact ⟨k, hk, hv⟩

end mcl

namespace mcl

/-! ## Pruning -/

/-- The pruning loop keeps the tets with a positive counter, in order. -/
theorem prune_eq_filter (tets : List Vec4i) :
    ∀ nums : List Int, nums.length = tets.length →
      prune tets nums =
        ((List.range tets.length).filter (fun j => decide (0 < nums.getD j 0))).map
          (fun j => tets.getD j default) := by
  induction tets with
  | nil => intro nums _; cases nums <;> rfl
  | cons t rest ih =>
    intro nums hlen
    cases nums with
    | nil => simp at hlen
    | cons n ns =>
      have hl : ns.length = rest.length := by simpa using hlen
      have hrest : ((List.range rest.length).filter
          ((fun j => decide (0 < (n :: ns).getD j 0)) ∘ Nat.succ)).map
            ((fun j => (t :: rest).getD j default) ∘ Nat.succ) = prune rest ns := by
        rw [ih ns hl]
        rfl
      unfold prune
      rw [List.length_cons, List.range_succ_eq_map, List.filter_cons, List.filter_map]
      by_cases hn : n > 0
      · have h0 : decide (0 < (n :: ns).getD 0 0) = true := by simpa using hn
        rw [if_pos hn, if_pos h0, List.map_cons, List.map_map, hrest]
        rfl
      · have h0 : ¬ decide (0 < (n :: ns).getD 0 0) = true := by simpa using hn
        rw [if_neg hn, if_neg h0, List.map_map, hrest]

/-- What pruning keeps after the first pass: the tets named by `vert_to_tet`. -/
theorem prune_first_pass (env : Env) (points verts : List Vec3f) (tets : List Vec4i)
    (bc : List Vec4f) (v2t : List Int) :
    prune tets (first_pass env points verts tets bc v2t).num_v_in_t =
      tets_named_by tets (first_pass env points verts tets bc v2t).vert_to_tet := by
  obtain ⟨_, hvl, hnl, _, hnum⟩ := first_pass_spec env points verts tets bc v2t
  rw [prune_eq_filter tets _ hnl]
  unfold tets_named_by
  congr 1
  apply List.filter_congr
  intro j hj
  have hjl : j < tets.length := List.mem_range.mp hj
  have hiff : ((j : Int) ∈ (first_pass env points verts tets bc v2t).vert_to_tet) ↔
      ∃ i, i < points.length ∧
        (first_pass env points verts tets bc v2t).vert_to_tet.getD i 0 = (j : Int) := by
    constructor
    · intro hmem
      obtain ⟨i, hi, hget⟩ := List.getElem_of_mem hmem
      refine ⟨i, by omega, ?_⟩
      rw [List.getD_eq_getElem?_getD, List.getElem?_eq_getElem hi]
      exact hget
    · rintro ⟨i, hi, hget⟩
      have hil : i < (first_pass env points verts tets bc v2t).vert_to_tet.length := by omega
      rw [List.getD_eq_getElem?_getD, List.getElem?_eq_getElem hil] at hget
      rw [← hget]
      exact List.getElem_mem hil
  rw [decide_eq_decide, hnum j hjl, hiff]

/-- There are at most as many named tets as there are entries naming them. -/
theorem tets_named_by_length_le (tets : List Vec4i) (v2t : List Int) :
    (tets_named_by tets v2t).length ≤ v2t.length := by
  unfold tets_named_by
  rw [List.length_map]
  have hnd : ((List.range tets.length).filter (fun (j : Nat) => decide ((j : Int) ∈ v2t))).Nodup :=
    (List.nodup_range _).filter _
  have hnd' : (((List.range tets.length).filter (fun (j : Nat) => decide ((j : Int) ∈ v2t))).map
      (fun j : Nat => (j : Int))).Nodup :=
    hnd.map (fun a b h => by exact_mod_cast h)
  have hsub : ((List.range tets.length).filter (fun (j : Nat) => decide ((j : Int) ∈ v2t))).map
      (fun j : Nat => (j : Int)) ⊆ v2t := by
    intro x hx
    obtain ⟨j, hj, rfl⟩ := List.mem_map.mp hx
    have := (List.mem_filter.mp hj).2
    simpa using this
  have := (hnd'.subperm hsub).length_le
  simpa using this

/-- No tet is named when every entry is negative. -/
theorem tets_named_by_negative (tets : List Vec4i) (v2t : List Int) (h : ∀ v ∈ v2t, v < 0) :
    tets_named_by tets v2t = [] := by
  unfold tets_named_by
  rw [List.map_eq_nil_iff, List.filter_eq_nil_iff]
  intro j _
  have : ¬ ((j : Int) ∈ v2t) := fun hm => by
    have := h _ hm
    omega
  simpa using this

/-- The lattice that lines 175-188 leave. -/
theorem build_mapping_lattice (env : Env) (s : EmbeddedMesh) (verts : List Vec3f)
    (tets : List Vec4i) :
    (build_mapping env s verts tets).2.lattice =
      TetMesh.refine ⟨verts, prune tets
        (first_pass env s.embedded.vertices verts tets s.barycoords s.vert_to_tet).num_v_in_t⟩ := by
  unfold build_mapping finish_mapping
  dsimp only
  split <;> rfl

theorem refine_tets_length (m : TetMesh) : (TetMesh.refine m).tets.length = m.tets.length := by
  unfold TetMesh.refine
  simp

/-- C24: pruning in `gen_lattice` keeps exactly the generated tets that are the
first-pass `vert_to_tet` of at least one embedded vertex, in generation order
(`refine` then renumbers their vertex indices); hence the lattice has at most
as many tets as there are embedded vertices, and none when no vertex has a
first-pass tet. -/
theorem gen_lattice_prunes_unnamed_tets (env : Env) (tess : Int) (s : EmbeddedMesh)
    (ht : 1 ≤ tess) :
    ∃ grid r,
      gen_grid (grid_bounds s.embedded.vertices tess).1 (grid_bounds s.embedded.vertices tess).2.1
        (grid_bounds s.embedded.vertices tess).2.2 = some grid ∧
      gen_lattice env tess s = some r ∧
      prune grid.2 (grid_first_pass env s grid).num_v_in_t =
        tets_named_by grid.2 (grid_first_pass env s grid).vert_to_tet ∧
      r.2.lattice =
        TetMesh.refine ⟨grid.1, tets_named_by grid.2 (grid_first_pass env s grid).vert_to_tet⟩ ∧
      r.2.lattice.tets.length =
        (tets_named_by grid.2 (grid_first_pass env s grid).vert_to_tet).length ∧
      r.2.lattice.tets.length ≤ s.embedded.vertices.length ∧
      ((∀ v ∈ (grid_first_pass env s grid).vert_to_tet, v < 0) → r.2.lattice.tets = []) := by
  obtain ⟨grid, hgrid⟩ := grid_bounds_total s.embedded.vertices tess ht
  have hrun : gen_lattice env tess s = some (build_mapping env s grid.1 grid.2) := by
    rw [gen_lattice_eq env tess s (by omega), hgrid]
    rfl
  have hprune := prune_first_pass env s.embedded.vertices grid.1 grid.2 s.barycoords s.vert_to_tet
  have hlat := build_mapping_lattice env s grid.1 grid.2
  rw [hprune] at hlat
  have hlen : (build_mapping env s grid.1 grid.2).2.lattice.tets.length =
      (tets_named_by grid.2 (grid_first_pass env s grid).vert_to_tet).length := by
    rw [hlat, refine_tets_length]
    rfl
  refine ⟨grid, _, hgrid, hrun, hprune, hlat, hlen, ?_, ?_⟩
  · rw [hlen]
    have h1 := tets_named_by_length_le grid.2 (grid_first_pass env s grid).vert_to_tet
    have h2 := (first_pass_spec env s.embedded.vertices grid.1 grid.2 s.barycoords
      s.vert_to_tet).2.1
    have h3 : (grid_first_pass env s grid).vert_to_tet.length = s.embedded.vertices.length := h2
    omega
  · intro hneg
    have h0 := tets_named_by_negative grid.2 _ hneg
    rw [h0] at hlen
    exact List.length_eq_zero.mp hlen

/-- An instance of C24: the unit triangle with `tess = 1`. -/
theorem gen_lattice_prunes_unnamed_tets_witness :
    (1 : Int) ≤ 1 ∧
    ∃ grid r,
      gen_grid (grid_bounds unit_triangle.embedded.vertices 1).1
        (grid_bounds unit_triangle.embedded.vertices 1).2.1
        (grid_bounds unit_triangle.embedded.vertices 1).2.2 = some grid ∧
      gen_lattice env_zero 1 unit_triangle = some r ∧
      r.2.lattice.tets.length ≤ unit_triangle.embedded.vertices.length := by
  refine ⟨by decide, ?_⟩
  obtain ⟨grid, r, h1, h2, _, _, _, h3, _⟩ :=
    gen_lattice_prunes_unnamed_tets env_zero 1 unit_triangle (by decide)
  exact ⟨grid, r, h1, h2, h3⟩

end mcl

namespace mcl

/-! ## The second localization pass: which weights are rejected -/

/-- The test of line 207, spelled out. -/
theorem bad_barys_iff (b : Vec4f) :
    bad_barys b = true ↔
      (b.c0 < 0 ∨ b.c1 < 0 ∨ b.c2 < 0 ∨ b.c3 < 0) ∨ b.sum > 1 + 1 / 1000 := by
  unfold bad_barys Vec4f.minCoeff
  rw [Bool.or_eq_true, decide_eq_true_eq, decide_eq_true_eq, min_lt_iff, min_lt_iff, min_lt_iff]
  constructor
  · rintro ((((h | h) | h) | h) | h)
    · exact Or.inl (Or.inl h)
    · exact Or.inl (Or.inr (Or.inl h))
    · exact Or.inl (Or.inr (Or.inr (Or.inl h)))
    · exact Or.inl (Or.inr (Or.inr (Or.inr h)))
    · exact Or.inr (by linarith)
  · rintro ((h | h | h | h) | h)
    · exact Or.inl (Or.inl (Or.inl (Or.inl h)))
    · exact Or.inl (Or.inl (Or.inl (Or.inr h)))
    · exact Or.inl (Or.inl (Or.inr h))
    · exact Or.inl (Or.inr h)
    · exact Or.inr (by linarith)

/-- One step of the scan of lines 195-216 at a tet that contains the point. -/
theorem relocalize_step (env : Env) (verts : List Vec3f) (point : Vec3f) (tet : Vec4i)
    (rest : List Vec4i) (j : Int) (acc : Vec4f × Int × List Msg)
    (h : in_tet env verts point tet = true) :
    relocalize env verts point (tet :: rest) j acc =
      relocalize env verts point rest (j + 1)
        (if bad_barys (tet_weights env verts point tet) = true then
          (tet_weights env verts point tet, -1,
            acc.2.2 ++ [Msg.bad_barys acc.2.1 (tet_weights env verts point tet)])
        else (tet_weights env verts point tet, j, acc.2.2)) := by
  have h' : env.point_in_tet point (vget env verts tet.i0) (vget env verts tet.i1)
      (vget env verts tet.i2) (vget env verts tet.i3) = true := h
  conv_lhs => unfold relocalize
  dsimp only
  rw [if_pos h']
  by_cases hb : bad_barys (tet_weights env verts point tet) = true
  · have hb' : bad_barys (env.barycoords point (vget env verts tet.i0) (vget env verts tet.i1)
        (vget env verts tet.i2) (vget env verts tet.i3)) = true := hb
    rw [if_pos hb, if_pos hb']
    rfl
  · have hb' : ¬ bad_barys (env.barycoords point (vget env verts tet.i0) (vget env verts tet.i1)
        (vget env verts tet.i2) (vget env verts tet.i3)) = true := hb
    rw [if_neg hb, if_neg hb']
    rfl

/-- A point that no tet of the scanned list contains keeps its entry in the
second scan too. -/
theorem relocalize_uncovered (env : Env) (verts : List Vec3f) (point : Vec3f)
    (tets : List Vec4i) (hnone : ∀ tet ∈ tets, in_tet env verts point tet = false)
    (j : Int) (acc : Vec4f × Int × List Msg) :
    relocalize env verts point tets j acc = acc := by
  induction tets generalizing j with
  | nil => rfl
  | cons t rest ih =>
    have h' : env.point_in_tet point (vget env verts t.i0) (vget env verts t.i1)
        (vget env verts t.i2) (vget env verts t.i3) = false := hnone t (List.mem_cons_self _ _)
    conv_lhs => unfold relocalize
    dsimp only
    rw [h']
    simp only [Bool.false_eq_true, if_false]
    exact ih (fun tet hm => hnone tet (List.mem_cons_of_mem _ hm)) (j + 1)

/-- What the second pass leaves in slot `i`: the outcome of the scan for vertex
`i`, started from the slot's content after the first pass. -/
theorem second_pass_get (env : Env) (points : List Vec3f) (lattice : TetMesh)
    (bc : List Vec4f) (v2t : List Int) (out : List Msg)
    (hbl : bc.length = points.length) (hvl : v2t.length = points.length) :
    ∀ i, i < points.length →
      (second_pass env points lattice bc v2t out).barycoords.getD i default =
        (relocalize env lattice.vertices (points.getD i default) lattice.tets 0
          (bc.getD i default, v2t.getD i 0, [])).1 ∧
      (second_pass env points lattice bc v2t out).vert_to_tet.getD i 0 =
        (relocalize env lattice.vertices (points.getD i default) lattice.tets 0
          (bc.getD i default, v2t.getD i 0, [])).2.1 := by
  have hrel := foldl_range_rel
    (fun (k : Nat) (a : Pass2) (_ : Unit) =>
      a.barycoords.length = points.length ∧ a.vert_to_tet.length = points.length ∧
      (∀ i, i < k →
        a.barycoords.getD i default =
          (relocalize env lattice.vertices (points.getD i default) lattice.tets 0
            (bc.getD i default, v2t.getD i 0, [])).1 ∧
        a.vert_to_tet.getD i 0 =
          (relocalize env lattice.vertices (points.getD i default) lattice.tets 0
            (bc.getD i default, v2t.getD i 0, [])).2.1) ∧
      (∀ i, k ≤ i →
        a.barycoords.getD i default = bc.getD i default ∧
        a.vert_to_tet.getD i 0 = v2t.getD i 0))
    (pass2_step env points lattice) (fun u _ => u) points.length
    (by
      intro k a _ hk ⟨hal, hav, hdone, hrest⟩
      have hk0 := hrest k le_rfl
      have hmap := relocalize_mapping env lattice.vertices (points.getD k default) lattice.tets 0
        (bc.getD k default) (v2t.getD k 0) a.out []
      have hbk : k < a.barycoords.length := by omega
      have hvk : k < a.vert_to_tet.length := by omega
      unfold pass2_step
      dsimp only
      rw [hk0.1, hk0.2]
      refine ⟨by simp [hal], by simp [hav], ?_, ?_⟩
      · intro i hi
        by_cases hik : k = i
        · subst hik
          rw [getD_set_same _ _ _ _ hbk, getD_set_same _ _ _ _ hvk]
          exact ⟨hmap.1, hmap.2⟩
        · rw [getD_set_other _ _ _ _ _ hik, getD_set_other _ _ _ _ _ hik]
          exact hdone i (by omega)
      · intro i hi
        rw [getD_set_other _ _ _ _ _ (by omega), getD_set_other _ _ _ _ _ (by omega)]
        exact hrest i (by omega))
    ⟨bc, v2t, out⟩ ()
    ⟨hbl, hvl, fun i hi => absurd hi (Nat.not_lt_zero i), fun i _ => ⟨rfl, rfl⟩⟩
  intro i hi
  exact hrel.2.2.1 i hi

/-- The mapping arrays that lines 190-217 leave. -/
theorem build_mapping_arrays (env : Env) (s : EmbeddedMesh) (verts : List Vec3f)
    (tets : List Vec4i) :
    (build_mapping env s verts tets).2.vert_to_tet =
      (second_pass env s.embedded.vertices (build_mapping env s verts tets).2.lattice
        (first_pass env s.embedded.vertices verts tets s.barycoords s.vert_to_tet).barycoords
        (first_pass env s.embedded.vertices verts tets s.barycoords s.vert_to_tet).vert_to_tet
        s.out).vert_to_tet := by
  unfold build_mapping finish_mapping
  dsimp only
  split <;> rfl

/-- C22, as amended: in the second localization pass the weights of a containing
tet are rejected exactly when some component is negative (below 0, without
tolerance) or the sum exceeds `1 + 1e-3`.  A rejection marks the vertex
unassigned (-1) and the scan goes on with the next tet; when the last
containing tet of the scan is rejected the vertex ends unassigned; and
`gen_lattice` returns `false` whenever a vertex ends unassigned.  The final
`vert_to_tet[i]` is the outcome of that scan for vertex `i`. -/
theorem second_pass_rejects_negative_weights (env : Env) :
    (∀ b : Vec4f, bad_barys b = true ↔
      (b.c0 < 0 ∨ b.c1 < 0 ∨ b.c2 < 0 ∨ b.c3 < 0) ∨ b.sum > 1 + 1 / 1000) ∧
    (∀ (verts : List Vec3f) (point : Vec3f) (tet : Vec4i) (rest : List Vec4i) (j : Int)
        (acc : Vec4f × Int × List Msg), in_tet env verts point tet = true →
      relocalize env verts point (tet :: rest) j acc =
        relocalize env verts point rest (j + 1)
          (if bad_barys (tet_weights env verts point tet) = true then
            (tet_weights env verts point tet, -1,
              acc.2.2 ++ [Msg.bad_barys acc.2.1 (tet_weights env verts point tet)])
          else (tet_weights env verts point tet, j, acc.2.2))) ∧
    (∀ (verts : List Vec3f) (point : Vec3f) (tet : Vec4i) (rest : List Vec4i) (j : Int)
        (acc : Vec4f × Int × List Msg), in_tet env verts point tet = true →
      bad_barys (tet_weights env verts point tet) = true →
      (∀ t ∈ rest, in_tet env verts point t = false) →
      (relocalize env verts point (tet :: rest) j acc).2.1 = -1) ∧
    (∀ (tess : Int) (s : EmbeddedMesh), 1 ≤ tess →
      ∃ grid r,
        gen_grid (grid_bounds s.embedded.vertices tess).1
          (grid_bounds s.embedded.vertices tess).2.1
          (grid_bounds s.embedded.vertices tess).2.2 = some grid ∧
        gen_lattice env tess s = some r ∧
        (∀ i, i < s.embedded.vertices.length →
          r.2.vert_to_tet.getD i 0 =
            (relocalize env r.2.lattice.vertices (s.embedded.vertices.getD i default)
              r.2.lattice.tets 0
              ((grid_first_pass env s grid).barycoords.getD i default,
                (grid_first_pass env s grid).vert_to_tet.getD i 0, [])).2.1) ∧
        ((∃ i, i < s.embedded.vertices.length ∧ r.2.vert_to_tet.getD i 0 < 0) →
          r.1 = false)) := by
  refine ⟨bad_barys_iff, ?_, ?_, ?_⟩
  · intro verts point tet rest j acc h
    exact relocalize_step env verts point tet rest j acc h
  · intro verts point tet rest j acc h hb hrest
    rw [relocalize_step env verts point tet rest j acc h, if_pos hb,
      relocalize_uncovered env verts point rest hrest]
  · intro tess s ht
    obtain ⟨grid, hgrid⟩ := grid_bounds_total s.embedded.vertices tess ht
    have hrun : gen_lattice env tess s = some (build_mapping env s grid.1 grid.2) := by
      rw [gen_lattice_eq env tess s (by omega), hgrid]
      rfl
    have hspec := first_pass_spec env s.embedded.vertices grid.1 grid.2 s.barycoords
      s.vert_to_tet
    refine ⟨grid, _, hgrid, hrun, ?_, ?_⟩
    · intro i hi
      rw [build_mapping_arrays env s grid.1 grid.2]
      exact (second_pass_get env s.embedded.vertices _ _ _ s.out hspec.1 hspec.2.1 i hi).2
    · rintro ⟨i, hi, hneg⟩
      have htrue := build_mapping_true_iff env s grid.1 grid.2
      by_contra hne
      have hb : (build_mapping env s grid.1 grid.2).1 = true := by
        cases hval : (build_mapping env s grid.1 grid.2).1
        · exact absurd hval hne
        · rfl
      have := (htrue.2.mp hb) i (by rw [htrue.1]; exact hi)
      omega

/-- C22 as stated fails: the weights `(-1/2000, 1/2, 1/2, 1/2000)` have their
least component in `[-1e-3, 0)` and sum to 1, yet line 207 rejects them and
the scan marks the vertex unassigned. -/
theorem second_pass_rejects_within_tolerance :
    (-1 / 1000 ≤ (⟨-1 / 2000, 1 / 2, 1 / 2, 1 / 2000⟩ : Vec4f).minCoeff ∧
      (⟨-1 / 2000, 1 / 2, 1 / 2, 1 / 2000⟩ : Vec4f).minCoeff < 0 ∧
      (⟨-1 / 2000, 1 / 2, 1 / 2, 1 / 2000⟩ : Vec4f).sum ≤ 1 + 1 / 1000) ∧
    bad_barys ⟨-1 / 2000, 1 / 2, 1 / 2, 1 / 2000⟩ = true ∧
    relocalize env_rounding [⟨0, 0, 0⟩, ⟨1, 0, 0⟩, ⟨0, 1, 0⟩, ⟨0, 0, 1⟩] ⟨1 / 4, 1 / 4, 1 / 4⟩
        [⟨0, 1, 2, 3⟩] 0 (⟨1 / 4, 1 / 4, 1 / 4, 1 / 4⟩, 0, []) =
      (⟨-1 / 2000, 1 / 2, 1 / 2, 1 / 2000⟩, -1,
        [Msg.bad_barys 0 ⟨-1 / 2000, 1 / 2, 1 / 2, 1 / 2000⟩]) := by
  decide!

end mcl

namespace mcl

/-! ## The region tiled by the grid loops -/

/-- A property kept by the body of a `for` loop holds when the loop returns. -/
theorem for_loop_inv {σ : Type} (P : σ → Prop) (body : ℚ → σ → Option σ) (lo hi s : ℚ)
    (hs : 0 ≤ s)
    (hbody : ∀ x st st', lo ≤ x → x < hi → P st → body x st = some st' → P st') :
    ∀ (n : Nat) (x : ℚ) (st r : σ), lo ≤ x → P st →
      for_loop n x hi s body st = some r → P r := by
  intro n
  induction n with
  | zero =>
    intro x st r _ hP h
    unfold for_loop at h
    split at h
    · exact absurd h (by simp)
    · rw [← Option.some.inj h]; exact hP
  | succ n ih =>
    intro x st r hx hP h
    unfold for_loop at h
    split at h
    · rename_i hlt
      obtain ⟨st1, h1, h2⟩ := Option.bind_eq_some.mp h
      exact ih (x + s) st1 r (by linarith) (hbody x st st1 hx hlt hP h1) h2
    · rw [← Option.some.inj h]; exact hP

/-- A property established by the first iteration and kept by the later ones
holds when a loop that starts returns. -/
theorem for_loop_reach {σ : Type} (P : σ → Prop) (body : ℚ → σ → Option σ) (x0 hi s : ℚ)
    (hs : 0 < s) (hx : x0 < hi)
    (hfirst : ∀ st st', body x0 st = some st' → P st')
    (hmono : ∀ x st st', P st → body x st = some st' → P st') (st r : σ)
    (h : for_loop (loop_fuel x0 hi s) x0 hi s body st = some r) : P r := by
  have hfuel : 1 ≤ loop_fuel x0 hi s := by
    unfold loop_fuel
    rw [if_pos hs]
    have h1 : 0 < ⌈(hi - x0) / s⌉ := Int.ceil_pos.mpr (div_pos (sub_pos.mpr hx) hs)
    omega
  obtain ⟨n, hn⟩ : ∃ n, loop_fuel x0 hi s = n + 1 := ⟨loop_fuel x0 hi s - 1, by omega⟩
  rw [hn] at h
  unfold for_loop at h
  rw [if_pos hx] at h
  obtain ⟨st1, h1, h2⟩ := Option.bind_eq_some.mp h
  exact for_loop_inv P body (x0 + s) hi s hs.le
    (fun x a b _ _ hPa hb => hmono x a b hPa hb) n (x0 + s) st1 r le_rfl (hfirst st st1 h1) h2

/-- The vertices after `gen_tets`: the old ones, and corners of the box. -/
theorem gen_tets_mem (lower upper : Vec3f) (verts : List Vec3f) (tets : List Vec4i) (v : Vec3f)
    (h : v ∈ (gen_tets lower upper verts tets).1) :
    v ∈ verts ∨ ((v.x = lower.x ∨ v.x = upper.x) ∧ (v.y = lower.y ∨ v.y = upper.y) ∧
      (v.z = lower.z ∨ v.z = upper.z)) := by
  unfold gen_tets at h
  simp only [List.mem_append, List.mem_cons, List.mem_singleton, List.not_mem_nil,
    or_false] at h
  rcases h with h | h | h | h | h | h | h | h | h
  · exact Or.inl h
  all_goals (right; subst h; simp)

/-- The lower corner of the box is among the vertices after `gen_tets`. -/
theorem gen_tets_lower_mem (lower upper : Vec3f) (verts : List Vec3f) (tets : List Vec4i) :
    lower ∈ (gen_tets lower upper verts tets).1 := by
  unfold gen_tets
  simp

/-- The old vertices stay after `gen_tets`. -/
theorem gen_tets_mono (lower upper : Vec3f) (verts : List Vec3f) (tets : List Vec4i) (v : Vec3f)
    (h : v ∈ verts) : v ∈ (gen_tets lower upper verts tets).1 := by
  unfold gen_tets
  simp [h]

/-- Every vertex generated by the grid loops lies, on each axis, at or above the
loop start and below the loop bound plus one step. -/
theorem gen_grid_vertex_bounds (min max step : Vec3f) (hsx : 0 ≤ step.x) (hsy : 0 ≤ step.y)
    (hsz : 0 ≤ step.z) (grid : List Vec3f × List Vec4i)
    (h : gen_grid min max step = some grid) :
    ∀ v ∈ grid.1, v.in_region (min - step) (max + step) := by
  unfold gen_grid at h
  refine for_loop_inv
    (fun st : List Vec3f × List Vec4i => ∀ v ∈ st.1, v.in_region (min - step) (max + step))
    _ (min.x - step.x) max.x step.x hsx ?_
    _ _ _ _ le_rfl (fun v hv => absurd hv (List.not_mem_nil v)) h
  intro x st st' hx1 hx2 hP hb
  refine for_loop_inv
    (fun st : List Vec3f × List Vec4i => ∀ v ∈ st.1, v.in_region (min - step) (max + step))
    _ (min.y - step.y) max.y step.y hsy ?_ _ _ _ _ le_rfl hP hb
  intro y st2 st2' hy1 hy2 hP2 hb2
  refine for_loop_inv
    (fun st : List Vec3f × List Vec4i => ∀ v ∈ st.1, v.in_region (min - step) (max + step))
    _ (min.z - step.z) max.z step.z hsz ?_ _ _ _ _ le_rfl hP2 hb2
  intro z st3 st3' hz1 hz2 hP3 hb3
  rw [← Option.some.inj hb3]
  intro v hv
  rcases gen_tets_mem _ _ _ _ v hv with hv | ⟨hvx, hvy, hvz⟩
  · exact hP3 v hv
  · have ex : ((⟨x, y, z⟩ : Vec3f) + step).x = x + step.x := rfl
    have ey : ((⟨x, y, z⟩ : Vec3f) + step).y = y + step.y := rfl
    have ez : ((⟨x, y, z⟩ : Vec3f) + step).z = z + step.z := rfl
    rw [ex] at hvx
    rw [ey] at hvy
    rw [ez] at hvz
    show (min.x - step.x ≤ v.x ∧ v.x < max.x + step.x) ∧
      (min.y - step.y ≤ v.y ∧ v.y < max.y + step.y) ∧
      (min.z - step.z ≤ v.z ∧ v.z < max.z + step.z)
    refine ⟨?_, ?_, ?_⟩
    · rcases hvx with e | e <;> rw [e] <;> constructor <;> linarith
    · rcases hvy with e | e <;> rw [e] <;> constructor <;> linarith
    · rcases hvz with e | e <;> rw [e] <;> constructor <;> linarith

/-- When the three loops start, the lower corner of the first cube is the point
where they start. -/
theorem gen_grid_first_vertex (min max step : Vec3f) (hsx : 0 < step.x) (hsy : 0 < step.y)
    (hsz : 0 < step.z) (hx : min.x - step.x < max.x) (hy : min.y - step.y < max.y)
    (hz : min.z - step.z < max.z) (grid : List Vec3f × List Vec4i)
    (h : gen_grid min max step = some grid) :
    (⟨min.x - step.x, min.y - step.y, min.z - step.z⟩ : Vec3f) ∈ grid.1 := by
  unfold gen_grid at h
  refine for_loop_reach (fun st : List Vec3f × List Vec4i =>
    (⟨min.x - step.x, min.y - step.y, min.z - step.z⟩ : Vec3f) ∈ st.1) _ _ _ _ hsx hx ?_ ?_ _ _ h
  · intro st st' hb
    refine for_loop_reach (fun st : List Vec3f × List Vec4i =>
      (⟨min.x - step.x, min.y - step.y, min.z - step.z⟩ : Vec3f) ∈ st.1)
      _ _ _ _ hsy hy ?_ ?_ _ _ hb
    · intro st2 st2' hb2
      refine for_loop_reach (fun st : List Vec3f × List Vec4i =>
        (⟨min.x - step.x, min.y - step.y, min.z - step.z⟩ : Vec3f) ∈ st.1)
        _ _ _ _ hsz hz ?_ ?_ _ _ hb2
      · intro st3 st3' hb3
        rw [← Option.some.inj hb3]
        exact gen_tets_lower_mem _ _ _ _
      · intro z st3 st3' hP hb3
        rw [← Option.some.inj hb3]
        exact gen_tets_mono _ _ _ _ _ hP
    · intro y st2 st2' hP hb2
      refine for_loop_inv (fun st : List Vec3f × List Vec4i =>
        (⟨min.x - step.x, min.y - step.y, min.z - step.z⟩ : Vec3f) ∈ st.1)
        _ (min.z - step.z) max.z step.z hsz.le ?_ _ _ _ _ le_rfl hP hb2
      intro z st3 st3' _ _ hP3 hb3
      rw [← Option.some.inj hb3]
      exact gen_tets_mono _ _ _ _ _ hP3
  · intro x st st' hP hb
    refine for_loop_inv (fun st : List Vec3f × List Vec4i =>
      (⟨min.x - step.x, min.y - step.y, min.z - step.z⟩ : Vec3f) ∈ st.1)
      _ (min.y - step.y) max.y step.y hsy.le ?_ _ _ _ _ le_rfl hP hb
    intro y st2 st2' _ _ hP2 hb2
    refine for_loop_inv (fun st : List Vec3f × List Vec4i =>
      (⟨min.x - step.x, min.y - step.y, min.z - step.z⟩ : Vec3f) ∈ st.1)
      _ (min.z - step.z) max.z step.z hsz.le ?_ _ _ _ _ le_rfl hP2 hb2
    intro z st3 st3' _ _ hP3 hb3
    rw [← Option.some.inj hb3]
    exact gen_tets_mono _ _ _ _ _ hP3

/-- Lines 118-132 on a surface with bounding box `[lo, hi]`: the step is the
largest extent divided by `tess` on every axis, and the corners are moved out
by that step divided by `tess` once more. -/
theorem grid_bounds_of_box (points : List Vec3f) (tess : Int) (lo hi : Vec3f) (ht : 1 ≤ tess)
    (hbox : points.foldl AABB.extend AABB.empty = AABB.box lo hi) :
    grid_bounds points tess =
      (⟨lo.x - uniform_step lo hi tess / tess, lo.y - uniform_step lo hi tess / tess,
          lo.z - uniform_step lo hi tess / tess⟩,
        ⟨hi.x + uniform_step lo hi tess / tess, hi.y + uniform_step lo hi tess / tess,
          hi.z + uniform_step lo hi tess / tess⟩,
        ⟨uniform_step lo hi tess, uniform_step lo hi tess, uniform_step lo hi tess⟩) := by
  have htq : (0 : ℚ) < (tess : ℚ) := by exact_mod_cast (by omega : (0 : Int) < tess)
  have hinv : (0 : ℚ) ≤ 1 / (tess : ℚ) := by positivity
  have hstep : ((1 / (tess : ℚ)) * (hi - lo) : Vec3f).maxCoeff = uniform_step lo hi tess := by
    show max (max ((1 / (tess : ℚ)) * (hi - lo).x) ((1 / (tess : ℚ)) * (hi - lo).y))
      ((1 / (tess : ℚ)) * (hi - lo).z) = max (max (hi - lo).x (hi - lo).y) (hi - lo).z / (tess : ℚ)
    rw [← mul_max_of_nonneg _ _ hinv, ← mul_max_of_nonneg _ _ hinv]
    field_simp
  unfold grid_bounds
  simp only [hbox, AABB.min, AABB.max]
  rw [hstep]
  have e1 : ∀ (a : Vec3f) (c : ℚ), a - (1 / (tess : ℚ)) * (⟨c, c, c⟩ : Vec3f) =
      ⟨a.x - c / tess, a.y - c / tess, a.z - c / tess⟩ := by
    intro a c
    show Vec3f.sub a (Vec3f.smul _ _) = _
    simp only [Vec3f.sub, Vec3f.smul, Vec3f.mk.injEq]
    refine ⟨?_, ?_, ?_⟩ <;> ring
  have e2 : ∀ (a : Vec3f) (c : ℚ), a + (1 / (tess : ℚ)) * (⟨c, c, c⟩ : Vec3f) =
      ⟨a.x + c / tess, a.y + c / tess, a.z + c / tess⟩ := by
    intro a c
    show Vec3f.add a (Vec3f.smul _ _) = _
    simp only [Vec3f.add, Vec3f.smul, Vec3f.mk.injEq]
    refine ⟨?_, ?_, ?_⟩ <;> ring
  rw [e1, e2]

/-- The corners of a bounding box are ordered. -/
theorem box_of_points_ordered (points : List Vec3f) (lo hi : Vec3f)
    (hbox : points.foldl AABB.extend AABB.empty = AABB.box lo hi) : lo.le hi := by
  have h := is_hull_of_points points
  rw [hbox] at h
  obtain ⟨hne, hin, _⟩ := h
  cases points with
  | nil => exact absurd rfl hne
  | cons p _ =>
    have := hin p (List.mem_cons_self _ _)
    exact Vec3f.le_trans this.1 this.2

/-- C21, as amended: for an embedded mesh whose bounding box `[lo, hi]` has a
positive largest extent and for `tess ≥ 1`, `gen_lattice` uses the uniform
step `S = (largest extent) / tess` on all three axes; the cubes start, on
every axis, at `lo - S/tess - S` (the lower corner of the first cube), which
is more than one step below the box, and every generated vertex lies at or
above that corner and below `hi + S/tess + S`. -/
theorem gen_lattice_tiled_region (env : Env) (s : EmbeddedMesh) (tess : Int) (lo hi : Vec3f)
    (ht : 1 ≤ tess)
    (hbox : s.embedded.vertices.foldl AABB.extend AABB.empty = AABB.box lo hi)
    (hE : 0 < (hi - lo).maxCoeff) :
    0 < uniform_step lo hi tess ∧
    (grid_bounds s.embedded.vertices tess).2.2 =
      ⟨uniform_step lo hi tess, uniform_step lo hi tess, uniform_step lo hi tess⟩ ∧
    ∃ grid,
      gen_grid (grid_bounds s.embedded.vertices tess).1 (grid_bounds s.embedded.vertices tess).2.1
        (grid_bounds s.embedded.vertices tess).2.2 = some grid ∧
      gen_lattice env tess s = some (build_mapping env s grid.1 grid.2) ∧
      (⟨lo.x - uniform_step lo hi tess / tess - uniform_step lo hi tess,
        lo.y - uniform_step lo hi tess / tess - uniform_step lo hi tess,
        lo.z - uniform_step lo hi tess / tess - uniform_step lo hi tess⟩ : Vec3f) ∈ grid.1 ∧
      (⟨lo.x - uniform_step lo hi tess / tess - uniform_step lo hi tess,
        lo.y - uniform_step lo hi tess / tess - uniform_step lo hi tess,
        lo.z - uniform_step lo hi tess / tess - uniform_step lo hi tess⟩ : Vec3f).x <
          lo.x - uniform_step lo hi tess ∧
      ∀ v ∈ grid.1, v.in_region
        ⟨lo.x - uniform_step lo hi tess / tess - uniform_step lo hi tess,
          lo.y - uniform_step lo hi tess / tess - uniform_step lo hi tess,
          lo.z - uniform_step lo hi tess / tess - uniform_step lo hi tess⟩
        ⟨hi.x + uniform_step lo hi tess / tess + uniform_step lo hi tess,
          hi.y + uniform_step lo hi tess / tess + uniform_step lo hi tess,
          hi.z + uniform_step lo hi tess / tess + uniform_step lo hi tess⟩ := by
  have htq : (0 : ℚ) < (tess : ℚ) := by exact_mod_cast (by omega : (0 : Int) < tess)
  have hS : 0 < uniform_step lo hi tess := div_pos hE htq
  have hSt : 0 < uniform_step lo hi tess / tess := div_pos hS htq
  have hb := grid_bounds_of_box s.embedded.vertices tess lo hi ht hbox
  have hle := box_of_points_ordered s.embedded.vertices lo hi hbox
  obtain ⟨grid, hgrid⟩ := grid_bounds_total s.embedded.vertices tess ht
  have hrun : gen_lattice env tess s = some (build_mapping env s grid.1 grid.2) := by
    rw [gen_lattice_eq env tess s (by omega), hgrid]
    rfl
  refine ⟨hS, by rw [hb], grid, hgrid, hrun, ?_, ?_, ?_⟩
  · rw [hb] at hgrid
    exact gen_grid_first_vertex _ _ _ hS hS hS
      (by show lo.x - _ - _ < hi.x + _; linarith [hle.1])
      (by show lo.y - _ - _ < hi.y + _; linarith [hle.2.1])
      (by show lo.z - _ - _ < hi.z + _; linarith [hle.2.2]) grid hgrid
  · show lo.x - _ - _ < lo.x - _
    linarith
  · rw [hb] at hgrid
    exact gen_grid_vertex_bounds _ _ _ hS.le hS.le hS.le grid hgrid

/-- An instance of C21 as amended: the unit triangle with `tess = 1`. -/
theorem gen_lattice_tiled_region_witness :
    (1 : Int) ≤ 1 ∧
    unit_triangle.embedded.vertices.foldl AABB.extend AABB.empty =
      AABB.box ⟨0, 0, 0⟩ ⟨1, 1, 1⟩ ∧
    0 < ((⟨1, 1, 1⟩ : Vec3f) - ⟨0, 0, 0⟩).maxCoeff ∧
    0 < uniform_step ⟨0, 0, 0⟩ ⟨1, 1, 1⟩ 1 ∧
    (grid_bounds unit_triangle.embedded.vertices 1).2.2 =
      ⟨uniform_step ⟨0, 0, 0⟩ ⟨1, 1, 1⟩ 1, uniform_step ⟨0, 0, 0⟩ ⟨1, 1, 1⟩ 1,
        uniform_step ⟨0, 0, 0⟩ ⟨1, 1, 1⟩ 1⟩ :=
  ⟨by decide, by decide!, by decide!,
    (gen_lattice_tiled_region env_zero unit_triangle 1 ⟨0, 0, 0⟩ ⟨1, 1, 1⟩ (by decide)
      (by decide!) (by decide!)).1,
    (gen_lattice_tiled_region env_zero unit_triangle 1 ⟨0, 0, 0⟩ ⟨1, 1, 1⟩ (by decide)
      (by decide!) (by decide!)).2.1⟩

/-- C21 as stated fails: for the unit triangle (bounding box `[0,1]^3`) and
`tess = 1` the step is 1, so the box padded by one step is `[-1,2]^3`, but the
grid has the vertex `(-2,-2,-2)`, two steps below the box. -/
theorem grid_starts_two_steps_below_the_box :
    unit_triangle.embedded.vertices.foldl AABB.extend AABB.empty =
      AABB.box ⟨0, 0, 0⟩ ⟨1, 1, 1⟩ ∧
    (grid_bounds unit_triangle.embedded.vertices 1).2.2 = ⟨1, 1, 1⟩ ∧
    gen_grid (grid_bounds unit_triangle.embedded.vertices 1).1
      (grid_bounds unit_triangle.embedded.vertices 1).2.1
      (grid_bounds unit_triangle.embedded.vertices 1).2.2 = some unit_grid ∧
    (⟨-2, -2, -2⟩ : Vec3f) ∈ unit_grid.1 ∧
    ¬ (0 - 1 ≤ (⟨-2, -2, -2⟩ : Vec3f).x) := by
  have hb : grid_bounds unit_triangle.embedded.vertices 1 =
      (⟨-1, -1, -1⟩, ⟨2, 2, 2⟩, ⟨1, 1, 1⟩) := by decide!
  refine ⟨by decide!, by rw [hb], unit_grid_eq, ?_, by decide!⟩
  have hg := unit_grid_eq
  rw [hb] at hg
  have hm := gen_grid_first_vertex ⟨-1, -1, -1⟩ ⟨2, 2, 2⟩ ⟨1, 1, 1⟩ (by decide!) (by decide!)
    (by decide!) (by decide!) (by decide!) (by decide!) unit_grid hg
  have e : (⟨(-1 : ℚ) - 1, (-1 : ℚ) - 1, (-1 : ℚ) - 1⟩ : Vec3f) = ⟨-2, -2, -2⟩ := by decide!
  rw [← e]
  exact hm

end mcl
